import Mathlib

/-!
Verification of the trigram-index core of the codesearch repository.

The Go sources under `index/` (read.go, write.go, merge.go) are shallowly
embedded below: byte strings become `List Nat` (each element a byte value
below 256), `uint32` arithmetic is `Nat` arithmetic taken `% 2^32` where Go
wraps, fallible operations return `Except IndexErr`, and the memory-mapped
index file is the plain byte list it maps.  Definitions follow the source
function by function; theorems at the end of the file settle the claims of
the specification against these definitions.
-/

/-- Errors surfaced by the index core.  `corrupt` models the error built by
`corrupt()` in read.go, `inconsistent` models the `panic("merge: inconsistent
index")` calls in merge.go, `ioFailure` stands for a filesystem error of a
write step, and the remaining constructors model the `fmt.Errorf` values
returned for an out-of-range file ID and for a NUL byte inside a file name. -/
inductive IndexErr where
  | corrupt
  | fileIDOutOfRange (fileID : Nat)
  | nulInName
  | inconsistent
  | ioFailure
  deriving DecidableEq

/-- One byte of output, as Go's `byte(x)` conversion produces it. -/
def byteOf (x : Nat) : Nat := x % 256

/-- Varint encoder from `bufWriter.writeUvarint` in write.go: the argument is
a `uint32` value and the result is the list of bytes appended to the buffer. -/
def writeUvarint (x : Nat) : List Nat :=
  if x < 1 <<< 7 then [byteOf x]
  else if x < 1 <<< 14 then [byteOf (x ||| 0x80), byteOf (x >>> 7)]
  else if x < 1 <<< 21 then
    [byteOf (x ||| 0x80), byteOf ((x >>> 7) ||| 0x80), byteOf (x >>> 14)]
  else if x < 1 <<< 28 then
    [byteOf (x ||| 0x80), byteOf ((x >>> 7) ||| 0x80), byteOf ((x >>> 14) ||| 0x80),
     byteOf (x >>> 21)]
  else
    [byteOf (x ||| 0x80), byteOf ((x >>> 7) ||| 0x80), byteOf ((x >>> 14) ||| 0x80),
     byteOf ((x >>> 21) ||| 0x80), byteOf (x >>> 28)]

/-- Loop body of Go's `binary.Uvarint`: `i` is the byte index, `x` the value
accumulated so far and `s` the current shift.  `none` stands for the
`n <= 0` results (truncated buffer or 64-bit overflow), which read.go treats
uniformly as corruption. -/
def uvarintAux : List Nat → Nat → Nat → Nat → Option (Nat × Nat)
  | [], _, _, _ => none
  | b :: rest, i, x, s =>
    if i = 10 then none
    else if b < 0x80 then
      if i = 9 ∧ b > 1 then none
      else some (x ||| (b <<< s), i + 1)
    else uvarintAux rest (i + 1) (x ||| ((b &&& 0x7f) <<< s)) (s + 7)

/-- Go's `binary.Uvarint` over a byte slice: the decoded value together with
the number of bytes consumed, or `none` on a malformed varint. -/
def uvarint (d : List Nat) : Option (Nat × Nat) := uvarintAux d 0 0 0

/-- Big-endian `uint32` read, as `binary.BigEndian.Uint32` over the first four
bytes of a slice. -/
def bigEndianUint32 (d : List Nat) : Nat :=
  ((d.getD 0 0) <<< 24) ||| ((d.getD 1 0) <<< 16) ||| ((d.getD 2 0) <<< 8) ||| (d.getD 3 0)

/-- Big-endian `uint32` write, as `bufWriter.writeUint32` in write.go. -/
def writeUint32 (x : Nat) : List Nat :=
  [byteOf (x >>> 24), byteOf (x >>> 16), byteOf (x >>> 8), byteOf x]

/-- Three-byte trigram write, as `bufWriter.writeTrigram` in write.go (the
same three bytes that `mergePost` stores through `ix.buf`). -/
def writeTrigram (t : Nat) : List Nat := [byteOf (t >>> 16), byteOf (t >>> 8), byteOf t]

/-- The function `validUTF8` from write.go: whether the byte pair `c1, c2`
can appear inside a valid UTF-8 byte stream. -/
def validUTF8 (c1 c2 : Nat) : Bool :=
  if c1 < 0x80 then c2 < 0x80 || (0xc0 ≤ c2 && c2 < 0xf8)
  else if c1 < 0xc0 then c2 < 0xf8
  else if c1 < 0xf8 then 0x80 ≤ c2 && c2 < 0xc0
  else false

/-- The opening magic string `"csearch index 1\x5cn"` of the on-disk format,
as bytes. -/
def magicBytes : List Nat :=
  [99, 115, 101, 97, 114, 99, 104, 32, 105, 110, 100, 101, 120, 32, 49, 10]

/-- The trailer magic string `"\x5cncsearch trailr\x5cn"`, as bytes. -/
def trailerMagicBytes : List Nat :=
  [10, 99, 115, 101, 97, 114, 99, 104, 32, 116, 114, 97, 105, 108, 114, 10]

/-- ASCII file contents used by the tests, converted to their byte lists. -/
def strBytes (s : String) : List Nat := s.data.map Char.toNat

/-- Result of read.go's `Index` after `Open`: the mapped bytes plus the five
trailer offsets and the two derived counts.  `numName` keeps the Go `int`
type (it can be `-1`); `numPost` is the `uint32` quotient `(n-postIndex)/11`,
which is never negative, so it is carried as `Nat`. -/
structure Index where
  data : List Nat
  pathData : Nat
  nameData : Nat
  postData : Nat
  nameIndex : Nat
  postIndex : Nat
  numName : Int
  numPost : Nat
  deriving DecidableEq

/-- Go's `uint32(i)` conversion of an `int`. -/
def u32ofInt (i : Int) : Nat := ((i % (2 ^ 32 : Int))).toNat

/-- Go `uint32` subtraction `a - b` (wrapping). -/
def sub32 (a b : Nat) : Nat := (a % 2 ^ 32 + 2 ^ 32 - b % 2 ^ 32) % 2 ^ 32

/-- The method `Index.slice` from read.go, over raw data.  A negative `n`
asks for the whole suffix.  (With `n < 0` and an offset beyond the data the
Go code would panic on the slice expression; that case returns the empty
suffix here and is reached by no claim.) -/
def sliceD (d : List Nat) (off : Nat) (n : Int) : Except IndexErr (List Nat) :=
  if 0 ≤ n then
    if off + n.toNat > d.length then .error .corrupt
    else .ok ((d.drop off).take n.toNat)
  else .ok (d.drop off)

/-- The method `Index.uint32` from read.go: checked big-endian read. -/
def uint32Read (d : List Nat) (off : Nat) : Except IndexErr Nat :=
  (sliceD d off 4).map bigEndianUint32

/-- The function `Open` from read.go, taking the mapped file contents. -/
def openIndex (d : List Nat) : Except IndexErr Index :=
  if d.length < 4 * 4 + trailerMagicBytes.length then .error .corrupt
  else if d.drop (d.length - trailerMagicBytes.length) ≠ trailerMagicBytes then .error .corrupt
  else
    let n : Nat := (((d.length : Int) - 16 - 20) % (2 ^ 32 : Int)).toNat
    match uint32Read d n with
    | .error e => .error e
    | .ok pathData =>
    match uint32Read d ((n + 4) % 2 ^ 32) with
    | .error e => .error e
    | .ok nameData =>
    match uint32Read d ((n + 8) % 2 ^ 32) with
    | .error e => .error e
    | .ok postData =>
    match uint32Read d ((n + 12) % 2 ^ 32) with
    | .error e => .error e
    | .ok nameIndex =>
    match uint32Read d ((n + 16) % 2 ^ 32) with
    | .error e => .error e
    | .ok postIndex =>
      .ok { data := d, pathData := pathData, nameData := nameData,
            postData := postData, nameIndex := nameIndex, postIndex := postIndex,
            numName := (sub32 postIndex nameIndex / 4 : Int) - 1,
            numPost := sub32 n postIndex / 11 }

/-- The method `Index.str` from read.go: NUL-terminated byte string at `off`. -/
def strAt (d : List Nat) (off : Nat) : Except IndexErr (List Nat) :=
  match sliceD d off (-1) with
  | .error e => .error e
  | .ok s =>
    match s.findIdx? (· = 0) with
    | none => .error .corrupt
    | some i => .ok (s.take i)

/-- Loop of `Index.Paths`: read NUL-terminated entries until an empty one.
The fuel argument only bounds the recursion; the loop in the source always
ends within `data.length + 2` iterations because the offset strictly grows
and `str` fails past the end of the data. -/
def pathsLoop (d : List Nat) : Nat → Nat → Except IndexErr (List (List Nat))
  | 0, _ => .error .corrupt
  | fuel + 1, off =>
    match strAt d off with
    | .error e => .error e
    | .ok s =>
      if s.length = 0 then .ok []
      else
        match pathsLoop d fuel ((off + (s.length + 1)) % 2 ^ 32) with
        | .error e => .error e
        | .ok rest => .ok (s :: rest)

/-- The method `Index.Paths` from read.go. -/
def Index.paths (ix : Index) : Except IndexErr (List (List Nat)) :=
  pathsLoop ix.data (ix.data.length + 2) ix.pathData

/-- The method `Index.NameBytes` (and `Index.Name`) from read.go. -/
def Index.name (ix : Index) (fileID : Nat) : Except IndexErr (List Nat) :=
  if fileID > u32ofInt ix.numName then .error (.fileIDOutOfRange fileID)
  else
    match uint32Read ix.data ((ix.nameIndex + 4 * fileID) % 2 ^ 32) with
    | .error e => .error e
    | .ok off => strAt ix.data ((ix.nameData + off) % 2 ^ 32)

/-- The method `Index.Names` from read.go. -/
def Index.names (ix : Index) : Except IndexErr (List (List Nat)) :=
  (List.range ix.numName.toNat).mapM ix.name

/-- Trigram key stored at entry `i` of a posting-index slice, as the binary
search in `Index.findList` computes it. -/
def triAt (d : List Nat) (i : Nat) : Nat :=
  (d.getD (11 * i) 0) <<< 16 ||| (d.getD (11 * i + 1) 0) <<< 8 ||| d.getD (11 * i + 2) 0

/-- Binary search from Go's `sort.Search`.  The fuel only bounds the
recursion; `n + 1` always suffices since the interval shrinks every step. -/
def sortSearchAux (f : Nat → Bool) : Nat → Nat → Nat → Nat
  | 0, i, _ => i
  | fuel + 1, i, j =>
    if i < j then
      let m := (i + j) / 2
      if f m then sortSearchAux f fuel i m else sortSearchAux f fuel (m + 1) j
    else i

/-- Go's `sort.Search n f`. -/
def sortSearch (n : Nat) (f : Nat → Bool) : Nat := sortSearchAux f (n + 1) 0 n

/-- The method `Index.listAt` from read.go: posting-index entry at byte
offset `off` of the posting-index region. -/
def Index.listAt (ix : Index) (off : Nat) : Except IndexErr (Nat × Nat × Nat) :=
  match sliceD ix.data ((ix.postIndex + off) % 2 ^ 32) 11 with
  | .error e => .error e
  | .ok d => .ok (triAt d 0, bigEndianUint32 (d.drop 3), bigEndianUint32 (d.drop 7))

/-- The method `Index.findList` from read.go: binary search for a trigram's
`(count, offset)` posting-index entry. -/
def Index.findList (ix : Index) (trigram : Nat) : Except IndexErr (Nat × Nat) :=
  match sliceD ix.data ix.postIndex (11 * ix.numPost : Int) with
  | .error e => .error e
  | .ok d =>
    let i := sortSearch ix.numPost (fun i => trigram ≤ triAt d i)
    if i ≥ ix.numPost then .ok (0, 0)
    else if triAt d i ≠ trigram then .ok (0, 0)
    else .ok (bigEndianUint32 (d.drop (11 * i + 3)), bigEndianUint32 (d.drop (11 * i + 7)))

/-- State of read.go's `postReader`: pending count, previous file ID, the
remaining delta bytes (`none` is Go's nil slice) and the remaining restrict
slice (`none` is Go's nil). -/
structure PostReaderState where
  count : Nat
  fileID : Nat
  d : Option (List Nat)
  restrict : Option (List Nat)
  deriving DecidableEq

/-- The zero value of `postReader`, which `init` leaves in place when it
returns early (absent trigram or error). -/
def postReaderZero : PostReaderState := ⟨0, 0, none, none⟩

/-- The method `postReader.init` from read.go.  The error is returned beside
the state because two callers (`postingAnd`, `postingOr`) discard it and go
on using the receiver, which on the early returns still holds its zero
value. -/
def postReaderInit (ix : Index) (trigram : Nat) (restrict : Option (List Nat)) :
    Option IndexErr × PostReaderState :=
  match ix.findList trigram with
  | .error e => (some e, postReaderZero)
  | .ok (count, offset) =>
    if count = 0 then (none, postReaderZero)
    else
      match sliceD ix.data ((ix.postData + offset + 3) % 2 ^ 32) (-1) with
      | .error e => (some e, postReaderZero)
      | .ok d => (none, ⟨count, 2 ^ 32 - 1, some d, restrict⟩)

/-- Loop body of `postReader.next` from read.go, recursing on `count`. -/
def postNextLoop (fid : Nat) (d : Option (List Nat)) (restrict : Option (List Nat)) :
    Nat → Except IndexErr (Bool × PostReaderState)
  | 0 =>
    match d with
    | some bs =>
      if bs.length = 0 ∨ bs.headD 0 ≠ 0 then .error .corrupt
      else .ok (false, ⟨0, 2 ^ 32 - 1, d, restrict⟩)
    | none => .ok (false, ⟨0, 2 ^ 32 - 1, none, restrict⟩)
  | count + 1 =>
    match uvarint (d.getD []) with
    | none => .error .corrupt
    | some (delta64, n) =>
      let delta := delta64 % 2 ^ 32
      if delta = 0 then .error .corrupt
      else
        let d1 := (d.getD []).drop n
        let fid1 := (fid + delta) % 2 ^ 32
        match restrict with
        | none => .ok (true, ⟨count, fid1, some d1, none⟩)
        | some rs =>
          let rs1 := rs.dropWhile (· < fid1)
          if rs1.headD (fid1 + 1) = fid1 then .ok (true, ⟨count, fid1, some d1, some rs1⟩)
          else postNextLoop fid1 (some d1) (some rs1) count

/-- The method `postReader.next` from read.go. -/
def postNext (st : PostReaderState) : Except IndexErr (Bool × PostReaderState) :=
  postNextLoop st.fileID st.d st.restrict st.count

/-- Collection loop shared by `Index.postingList` (read.go): repeatedly call
`next` and gather the yielded file IDs.  The fuel only bounds the recursion;
`count + 1` always suffices because every yield strictly decreases `count`
(`postNext_true_count_lt`). -/
def collectPost : Nat → PostReaderState → Except IndexErr (List Nat)
  | 0, _ => .error .corrupt
  | fuel + 1, st =>
    match postNext st with
    | .error e => .error e
    | .ok (false, _) => .ok []
    | .ok (true, st') =>
      match collectPost fuel st' with
      | .error e => .error e
      | .ok xs => .ok (st'.fileID :: xs)

/-- The method `Index.postingList` from read.go (with restrict). -/
def Index.postingListR (ix : Index) (trigram : Nat) (restrict : Option (List Nat)) :
    Except IndexErr (List Nat) :=
  match postReaderInit ix trigram restrict with
  | (some e, _) => .error e
  | (none, st) => collectPost (st.count + 1) st

/-- The method `Index.PostingList` from read.go. -/
def Index.PostingList (ix : Index) (trigram : Nat) : Except IndexErr (List Nat) :=
  ix.postingListR trigram none

/-- Loop of `Index.postingAnd` from read.go: two-pointer intersection of the
cursor's stream with the already-computed `list`. -/
def postingAndLoop : Nat → PostReaderState → List Nat → List Nat →
    Except IndexErr (List Nat)
  | 0, _, _, _ => .error .corrupt
  | fuel + 1, st, list, x =>
    match postNext st with
    | .error e => .error e
    | .ok (false, _) => .ok x
    | .ok (true, st') =>
      let fid := st'.fileID
      let rest := list.dropWhile (· < fid)
      if rest.headD (fid + 1) = fid then postingAndLoop fuel st' rest.tail (x ++ [fid])
      else postingAndLoop fuel st' rest x

/-- The method `Index.postingAnd` from read.go (with restrict).  The `init`
error is discarded, exactly as in the source.  The loop fuel (`count + 1`)
always suffices because every yield strictly decreases `count`. -/
def Index.postingAnd (ix : Index) (list : List Nat) (trigram : Nat)
    (restrict : Option (List Nat)) : Except IndexErr (List Nat) :=
  let st := (postReaderInit ix trigram restrict).2
  postingAndLoop (st.count + 1) st list []

/-- The method `Index.PostingAnd` from read.go. -/
def Index.PostingAnd (ix : Index) (list : List Nat) (trigram : Nat) :
    Except IndexErr (List Nat) :=
  ix.postingAnd list trigram none

/-- Loop of `Index.postingOr` from read.go: three-way merge of the cursor's
stream with `list`. -/
def postingOrLoop : Nat → PostReaderState → List Nat → List Nat →
    Except IndexErr (List Nat)
  | 0, _, _, _ => .error .corrupt
  | fuel + 1, st, list, x =>
    match postNext st with
    | .error e => .error e
    | .ok (false, _) => .ok (x ++ list)
    | .ok (true, st') =>
      let fid := st'.fileID
      let x1 := x ++ list.takeWhile (· < fid) ++ [fid]
      let rest := list.dropWhile (· < fid)
      if rest.headD (fid + 1) = fid then postingOrLoop fuel st' rest.tail x1
      else postingOrLoop fuel st' rest x1

/-- The method `Index.postingOr` from read.go (with restrict).  The `init`
error is discarded, exactly as in the source.  The loop fuel (`count + 1`)
always suffices because every yield strictly decreases `count`. -/
def Index.postingOr (ix : Index) (list : List Nat) (trigram : Nat)
    (restrict : Option (List Nat)) : Except IndexErr (List Nat) :=
  let st := (postReaderInit ix trigram restrict).2
  postingOrLoop (st.count + 1) st list []

/-- The method `Index.PostingOr` from read.go. -/
def Index.PostingOr (ix : Index) (list : List Nat) (trigram : Nat) :
    Except IndexErr (List Nat) :=
  ix.postingOr list trigram none

/-- The function `mergeOr` from read.go: duplicate-free merge of two sorted
lists. -/
def mergeOr : List Nat → List Nat → List Nat
  | [], [] => []
  | a :: l1, [] => a :: mergeOr l1 []
  | [], b :: l2 => b :: mergeOr [] l2
  | a :: l1, b :: l2 =>
    if a < b then a :: mergeOr l1 (b :: l2)
    else if b < a then b :: mergeOr (a :: l1) l2
    else a :: mergeOr l1 l2

/-- Modelled from the spec: the `Query` type of the regex planner (§4.5 of
the spec); its defining Go file is not among the provided sources, but
read.go's `postingQuery` consumes exactly this shape: an operation that is
`None`, `All`, `And` or `Or`, a list of three-byte trigrams and a list of
sub-queries. -/
inductive Query where
  | qnone
  | qall
  | qand (trigram : List (Nat × Nat × Nat)) (sub : List Query)
  | qor (trigram : List (Nat × Nat × Nat)) (sub : List Query)

/-- Packing of a three-byte trigram as in `postingQuery`:
`uint32(t[0])<<16 | uint32(t[1])<<8 | uint32(t[2])`. -/
def packTri (t : Nat × Nat × Nat) : Nat := t.1 <<< 16 ||| t.2.1 <<< 8 ||| t.2.2

/-- Outcome of the two interior loops of the `QAnd` case of `postingQuery`:
either the loop returned `nil` early (empty intermediate list) or it ran to
completion carrying the current list (`none` is Go's nil slice). -/
inductive QandOut where
  | early
  | cont (list : Option (List Nat))
  deriving DecidableEq

/-- Trigram loop of the `QAnd` case of `postingQuery` in read.go. -/
def qandTrisLoop (ix : Index) (restrict : Option (List Nat)) :
    List (Nat × Nat × Nat) → Option (List Nat) → Except IndexErr QandOut
  | [], list => .ok (.cont list)
  | t :: ts, list =>
    let res := match list with
      | none => ix.postingListR (packTri t) restrict
      | some l => ix.postingAnd l (packTri t) restrict
    match res with
    | .error e => .error e
    | .ok l1 => if l1.length = 0 then .ok .early else qandTrisLoop ix restrict ts (some l1)

mutual

/-- The method `Index.postingQuery` from read.go (with restrict).  The result
is `none` where the Go function returns a nil slice. -/
def postingQueryM (ix : Index) (q : Query) (restrict : Option (List Nat)) :
    Except IndexErr (Option (List Nat)) :=
  match q with
  | .qnone => .ok none
  | .qall =>
    match restrict with
    | some r => .ok (some r)
    | none => .ok (some (List.range ix.numName.toNat))
  | .qand tris subs =>
    match qandTrisLoop ix restrict tris none with
    | .error e => .error e
    | .ok .early => .ok none
    | .ok (.cont list) =>
      match qandSubsLoop ix restrict subs list with
      | .error e => .error e
      | .ok .early => .ok none
      | .ok (.cont list2) => .ok list2
  | .qor tris subs =>
    match qorTrisLoop ix restrict tris none with
    | .error e => .error e
    | .ok list =>
      match qorSubsLoop ix restrict subs list with
      | .error e => .error e
      | .ok list2 => .ok list2

/-- Sub-query loop of the `QAnd` case of `postingQuery`: each sub-query is
evaluated with the current list as its restrict set (a nil list is first
replaced by the incoming restrict). -/
def qandSubsLoop (ix : Index) (restrict : Option (List Nat)) :
    List Query → Option (List Nat) → Except IndexErr QandOut
  | [], list => .ok (.cont list)
  | s :: ss, list =>
    let list1 := match list with
      | none => restrict
      | some l => some l
    match postingQueryM ix s list1 with
    | .error e => .error e
    | .ok l2 =>
      if (l2.getD []).length = 0 then .ok .early else qandSubsLoop ix restrict ss l2

/-- Trigram loop of the `QOr` case of `postingQuery` in read.go. -/
def qorTrisLoop (ix : Index) (restrict : Option (List Nat)) :
    List (Nat × Nat × Nat) → Option (List Nat) → Except IndexErr (Option (List Nat))
  | [], list => .ok list
  | t :: ts, list =>
    let res := match list with
      | none => ix.postingListR (packTri t) restrict
      | some l => ix.postingOr l (packTri t) restrict
    match res with
    | .error e => .error e
    | .ok l1 => qorTrisLoop ix restrict ts (some l1)

/-- Sub-query loop of the `QOr` case of `postingQuery`: results are folded
into the list with `mergeOr`. -/
def qorSubsLoop (ix : Index) (restrict : Option (List Nat)) :
    List Query → Option (List Nat) → Except IndexErr (Option (List Nat))
  | [], list => .ok list
  | s :: ss, list =>
    match postingQueryM ix s restrict with
    | .error e => .error e
    | .ok l1 => qorSubsLoop ix restrict ss (some (mergeOr (list.getD []) (l1.getD [])))

end

/-- The method `Index.PostingQuery` from read.go, flattening Go's nil slice
to the empty list. -/
def Index.PostingQuery (ix : Index) (q : Query) : Except IndexErr (List Nat) :=
  (postingQueryM ix q none).map (fun o => o.getD [])

/-- An in-memory `postEntry` from write.go: `trigram<<32 | fileID` in one
64-bit word. -/
def makePostEntry (trigram fileID : Nat) : Nat := trigram <<< 32 ||| fileID

/-- The `postEntry.trigram` accessor: `uint32(p >> 32)`. -/
def peTrigram (p : Nat) : Nat := (p >>> 32) % 2 ^ 32

/-- The `postEntry.fileID` accessor: `uint32(p)`. -/
def peFileID (p : Nat) : Nat := p % 2 ^ 32

/-- Tuning constants from write.go. -/
def maxFileLen : Nat := 1 <<< 30

/-- Longest line accepted by the text heuristics (write.go). -/
def maxLineLen : Nat := 2000

/-- Largest distinct-trigram count accepted by the text heuristics
(write.go). -/
def maxTextTrigrams : Nat := 20000

/-- Modelled from the spec: insertion into the sparse trigram set (§4.1; the
`sparse` package is not among the provided sources).  `Add` inserts with
deduplication, `Dense` enumerates inserted values in insertion order and
`Len` counts them, which this list model realises directly. -/
def triSetAdd (s : List Nat) (t : Nat) : List Nat := if t ∈ s then s else s ++ [t]

/-- Byte-scanning loop of `Writer.Add` from write.go: `tv` is the rolling
24-bit window, `n` the byte count, `lineLen` the current line length and
`set` the trigram set.  `none` means the file was skipped by a text
heuristic (invalid UTF-8 pair, too long, or an overlong line). -/
def addLoop : List Nat → Nat → Nat → Nat → List Nat → Option (List Nat)
  | [], _, _, _, set => some set
  | c :: rest, tv, n, lineLen, set =>
    let tv1 := ((tv <<< 8) &&& (1 <<< 24 - 1)) ||| c
    let n1 := n + 1
    let set1 := if n1 ≥ 3 then triSetAdd set tv1 else set
    if ¬ validUTF8 ((tv1 >>> 8) &&& 0xFF) (tv1 &&& 0xFF) then none
    else if n1 > maxFileLen then none
    else if lineLen + 1 > maxLineLen then none
    else addLoop rest tv1 n1 (if c = 10 then 0 else lineLen + 1) set1

/-- State of a `Writer` from write.go: recorded paths, the name-data and
name-index temp buffers, the name counter and the in-memory posting list.
(The posting buffer never reaches its 8M-entry flush threshold on the inputs
considered here, so the temp posting files stay empty.) -/
structure WriterState where
  paths : List (List Nat)
  nameData : List Nat
  nameIndex : List Nat
  numName : Nat
  post : List Nat
  deriving DecidableEq

/-- The method `Writer.addName` from write.go. -/
def addName (st : WriterState) (name : List Nat) : Except IndexErr (Nat × WriterState) :=
  if 0 ∈ name then .error .nulInName
  else .ok (st.numName,
    { st with nameIndex := st.nameIndex ++ writeUint32 st.nameData.length,
              nameData := st.nameData ++ name ++ [0],
              numName := st.numName + 1 })

/-- The method `Writer.Add` from write.go: scan the content, silently skip
the file when a text heuristic trips (the trigram-count heuristic is checked
after the scan), otherwise assign the next file ID and append one posting
entry per distinct trigram. -/
def writerAdd (st : WriterState) (name content : List Nat) : Except IndexErr WriterState :=
  match addLoop content 0 0 0 [] with
  | none => .ok st
  | some tris =>
    if tris.length > maxTextTrigrams then .ok st
    else
      match addName st name with
      | .error e => .error e
      | .ok (fileID, st1) =>
        .ok { st1 with post := st1.post ++ tris.map (fun t => makePostEntry t fileID) }

/-- Duplicate-free insertion into an ascending list of key values. -/
def insertAsc (r : Nat) : List Nat → List Nat
  | [] => [r]
  | k :: ks => if r < k then r :: k :: ks else if r = k then k :: ks else k :: insertAsc r ks

/-- The distinct values of a list, in ascending order. -/
def sortedKeys (keys : List Nat) : List Nat := keys.foldr insertAsc []

/-- One counting pass of `sortPost` from write.go: a stable 12-bit counting
sort on the key bits `p >> shift`.  The counting sort scatters the entries
of each key value contiguously, keys in increasing order and entries of one
key in input order; keys that occur in no entry contribute nothing, so
concatenating the buckets of the occurring keys in increasing order yields
exactly the scattered array. -/
def radixPass (shift : Nat) (post : List Nat) : List Nat :=
  (sortedKeys (post.map (fun p => (p >>> shift) &&& (1 <<< 12 - 1)))).flatMap
    (fun r => post.filter (fun p => (p >>> shift) &&& (1 <<< 12 - 1) = r))

/-- The function `sortPost` from write.go: two 12-bit counting passes over
the trigram bits, a stable sort on the trigram key. -/
def sortPost (post : List Nat) : List Nat := radixPass (32 + 12) (radixPass 32 post)

/-- The sentinel trigram `1<<24 - 1` that ends the posting data. -/
def sentinelTrigram : Nat := 1 <<< 24 - 1

/-- Per-list delta encoding from the inner loop of `Writer.mergePost`:
varint-encode `fileID - prev` (uint32 subtraction) for each grouped entry. -/
def deltaEncode (prev : Nat) : List Nat → List Nat
  | [] => []
  | id :: rest => writeUvarint (sub32 id prev) ++ deltaEncode id rest

/-- The loop of `Writer.mergePost` from write.go, over the sorted in-memory
entries (the heap of one chunk yields exactly this list, then the sentinel).
Returns the posting-data bytes and the posting-index bytes; `off` is the
offset of the next list relative to the start of the posting data.  Note the
source records the final sentinel entry in the posting index too.  The fuel
only bounds the recursion; `length + 1` always suffices since every group is
nonempty. -/
def mergePostLoop : Nat → List Nat → Nat → List Nat × List Nat
  | 0, _, _ => ([], [])
  | _ + 1, [], off =>
    (writeTrigram sentinelTrigram ++ writeUvarint 0,
     writeTrigram sentinelTrigram ++ writeUint32 0 ++ writeUint32 off)
  | fuel + 1, p :: ps, off =>
    let t := peTrigram p
    if t = sentinelTrigram then
      (writeTrigram t ++ writeUvarint 0, writeTrigram t ++ writeUint32 0 ++ writeUint32 off)
    else
      let group := p :: ps.takeWhile (fun q => peTrigram q = t)
      let rest := ps.dropWhile (fun q => peTrigram q = t)
      let ids := group.map peFileID
      let bytes := writeTrigram t ++ deltaEncode (2 ^ 32 - 1) ids ++ writeUvarint 0
      let entry := writeTrigram t ++ writeUint32 group.length ++ writeUint32 off
      let r := mergePostLoop fuel rest (off + bytes.length)
      (bytes ++ r.1, entry ++ r.2)

/-- The method `Writer.Flush` from write.go, as the bytes of the produced
index file (the pure layout; the error plumbing of the source `Flush` is
modelled separately by `flushStepResult` below). -/
def writerFlush (st : WriterState) : Except IndexErr (List Nat) :=
  match addName st [] with
  | .error e => .error e
  | .ok (_, st1) =>
    let pathRegion := st1.paths.flatMap (fun p => p ++ [0]) ++ [0]
    let mp := mergePostLoop (st1.post.length + 1) (sortPost st1.post) 0
    let off0 := magicBytes.length
    let off1 := off0 + pathRegion.length
    let off2 := off1 + st1.nameData.length
    let off3 := off2 + mp.1.length
    let off4 := off3 + st1.nameIndex.length
    .ok (magicBytes ++ pathRegion ++ st1.nameData ++ mp.1 ++ st1.nameIndex ++ mp.2 ++
         writeUint32 off0 ++ writeUint32 off1 ++ writeUint32 off2 ++
         writeUint32 off3 ++ writeUint32 off4 ++ trailerMagicBytes)

/-- Modelled from the spec: the test helper `buildIndex` (its source file is
not among the provided ones) creates a writer, records the paths, adds each
file in sorted name order and flushes.  The corpora used below are listed in
sorted name order already, so files are added in list order. -/
def buildIndex (paths : List (List Nat)) (files : List (List Nat × List Nat)) :
    Except IndexErr (List Nat) :=
  match files.foldlM (fun st (nc : List Nat × List Nat) => writerAdd st nc.1 nc.2)
      (⟨paths, [], [], 0, []⟩ : WriterState) with
  | .error e => .error e
  | .ok st => writerFlush st

/-- Go bytewise string comparison `a < b`. -/
def lexLt : List Nat → List Nat → Bool
  | [], [] => false
  | [], _ :: _ => true
  | _ :: _, [] => false
  | a :: s, b :: t => if a < b then true else if b < a then false else lexLt s t

/-- An `idRange` from merge.go: the half-open interval `[lo, hi)` of old file
IDs maps onto new IDs starting at `new`. -/
structure IdRange where
  lo : Nat
  hi : Nat
  new : Nat
  deriving DecidableEq

/-- The shadowing limit computed in `Merge`: the path with its last byte
incremented (byte arithmetic; an empty path, on which the source would
panic, is given last byte 0 here and reached by no claim). -/
def pathLimit (p : List Nat) : List Nat :=
  p.dropLast ++ [(p.getLast?.getD 0 + 1) % 256]

/-- A name-scanning loop of `Merge`: advance `i` while it is in range and
`Name(i) < bound`.  The fuel only bounds the recursion and is always passed
large enough (`numName + 1`) for the loop to finish on its own. -/
def scanNames (ix : Index) (bound : List Nat) : Nat → Nat → Except IndexErr Nat
  | i, 0 => .ok i
  | i, fuel + 1 =>
    if i < u32ofInt ix.numName then
      match ix.name i with
      | .error e => .error e
      | .ok nm =>
        if lexLt nm bound then scanNames ix bound (i + 1) fuel else .ok i
    else .ok i

/-- State of the docID-map construction loop of `Merge`. -/
structure MapsState where
  i1 : Nat
  i2 : Nat
  nw : Nat
  map1 : List IdRange
  map2 : List IdRange
  deriving DecidableEq

/-- The docID-map construction loop of `Merge` (merge.go): walk `paths2`,
preserving the `src1` names before each path, skipping the names it shadows,
and claiming the `src2` names under it. -/
def buildMapsLoop (ix1 ix2 : Index) : List (List Nat) → MapsState → Except IndexErr MapsState
  | [], s => .ok s
  | path :: rest, s =>
    match scanNames ix1 path s.i1 (u32ofInt ix1.numName + 1) with
    | .error e => .error e
    | .ok lo =>
      let limit := pathLimit path
      match scanNames ix1 limit lo (u32ofInt ix1.numName + 1) with
      | .error e => .error e
      | .ok hi =>
        let s1 : MapsState :=
          if s.i1 < lo then
            { s with i1 := hi, map1 := s.map1 ++ [⟨s.i1, lo, s.nw⟩], nw := s.nw + (lo - s.i1) }
          else { s with i1 := hi }
        match
          (if s1.i2 < u32ofInt ix2.numName then
            match ix2.name s1.i2 with
            | .error e => .error e
            | .ok nm =>
              if lexLt nm path then Except.error IndexErr.inconsistent else Except.ok ()
          else Except.ok () : Except IndexErr Unit) with
        | .error e => .error e
        | .ok () =>
          match scanNames ix2 limit s1.i2 (u32ofInt ix2.numName + 1) with
          | .error e => .error e
          | .ok hi2 =>
            let s2 : MapsState :=
              if s1.i2 < hi2 then
                { s1 with i2 := hi2, map2 := s1.map2 ++ [⟨s1.i2, hi2, s1.nw⟩],
                          nw := s1.nw + (hi2 - s1.i2) }
              else { s1 with i2 := hi2 }
            buildMapsLoop ix1 ix2 rest s2

/-- The merged-path loop of `Merge` (merge.go): merge the two sorted path
lists, dropping a path when the previously kept path (`last`, seeded with
the one-byte string 0) is a prefix of it.  The fuel only bounds the
recursion; `length1 + length2` always suffices since every iteration
consumes one path. -/
def mergePathsLoop : Nat → List (List Nat) → List (List Nat) → List Nat → List (List Nat)
  | 0, _, _, _ => []
  | fuel + 1, paths1, paths2, last =>
    match paths1, paths2 with
    | [], [] => []
    | p :: ps, [] =>
      if last.isPrefixOf p then mergePathsLoop fuel ps [] last
      else p :: mergePathsLoop fuel ps [] p
    | [], p :: ps =>
      if last.isPrefixOf p then mergePathsLoop fuel [] ps last
      else p :: mergePathsLoop fuel [] ps p
    | p1 :: ps1, p2 :: ps2 =>
      if ¬ lexLt p2 p1 then
        if last.isPrefixOf p1 then mergePathsLoop fuel ps1 (p2 :: ps2) last
        else p1 :: mergePathsLoop fuel ps1 (p2 :: ps2) p1
      else
        if last.isPrefixOf p2 then mergePathsLoop fuel (p1 :: ps1) ps2 last
        else p2 :: mergePathsLoop fuel (p1 :: ps1) ps2 p2

/-- The merged path list: run the loop with enough fuel. -/
def mergedPaths (paths1 paths2 : List (List Nat)) : List (List Nat) :=
  mergePathsLoop (paths1.length + paths2.length) paths1 paths2 [0]

/-- Name emission of `Merge`: write `cnt` names of `ix` starting at file ID
`i`, NUL-terminated, returning the name bytes and the name-index entries
(offsets relative to the merged name region, continuing at `relOff`). -/
def emitNameRange (ix : Index) : Nat → Nat → Nat → Except IndexErr (List Nat × List Nat)
  | _, 0, _ => .ok ([], [])
  | relOff, cnt + 1, i =>
    match ix.name i with
    | .error e => .error e
    | .ok nm =>
      match emitNameRange ix (relOff + nm.length + 1) cnt (i + 1) with
      | .error e => .error e
      | .ok (nb, ib) => .ok (nm ++ [0] ++ nb, writeUint32 relOff ++ ib)

/-- The merged-name loop of `Merge` (merge.go): interleave the two range
lists in new-fileID order; a `new` value matching neither list head is the
`merge: inconsistent index` panic.  The fuel only bounds the recursion;
`length1 + length2 + 1` always suffices since every iteration consumes one
range. -/
def mergeNamesLoop (ix1 ix2 : Index) (numName : Nat) :
    Nat → List IdRange → List IdRange → Nat → Nat → Except IndexErr (List Nat × List Nat)
  | 0, _, _, _, _ => .error .inconsistent
  | fuel + 1, m1, m2, nw, relOff =>
    if nw ≥ numName then .ok ([], [])
    else if m1 ≠ [] ∧ (m1.headD ⟨0, 0, 0⟩).new = nw then
      let r := m1.headD ⟨0, 0, 0⟩
      match emitNameRange ix1 relOff (r.hi - r.lo) r.lo with
      | .error e => .error e
      | .ok (nb, ib) =>
        match mergeNamesLoop ix1 ix2 numName fuel m1.tail m2 (nw + (r.hi - r.lo))
            (relOff + nb.length) with
        | .error e => .error e
        | .ok (nb2, ib2) => .ok (nb ++ nb2, ib ++ ib2)
    else if m2 ≠ [] ∧ (m2.headD ⟨0, 0, 0⟩).new = nw then
      let r := m2.headD ⟨0, 0, 0⟩
      match emitNameRange ix2 relOff (r.hi - r.lo) r.lo with
      | .error e => .error e
      | .ok (nb, ib) =>
        match mergeNamesLoop ix1 ix2 numName fuel m1 m2.tail (nw + (r.hi - r.lo))
            (relOff + nb.length) with
        | .error e => .error e
        | .ok (nb2, ib2) => .ok (nb ++ nb2, ib ++ ib2)
    else .error .inconsistent

/-- State of a `postMapReader` from merge.go. -/
structure PostMapReader where
  idMap : List IdRange
  triNum : Nat
  trigram : Nat
  count : Nat
  offset : Nat
  d : List Nat
  oldID : Nat
  fileID : Nat
  i : Nat
  deriving DecidableEq

/-- The method `postMapReader.load` from merge.go.  The error (if any) is
returned beside the mutated state, because `nextTrigram` results are
discarded at two call sites of the merge loop. -/
def pmrLoad (ix : Index) (r : PostMapReader) : Option IndexErr × PostMapReader :=
  if r.triNum ≥ ix.numPost % 2 ^ 32 then
    (none, { r with trigram := 2 ^ 32 - 1, count := 0, fileID := 2 ^ 32 - 1 })
  else
    match ix.listAt ((r.triNum * 11) % 2 ^ 32) with
    | .error e => (some e, { r with trigram := 0, count := 0, offset := 0 })
    | .ok (t, c, off) =>
      if c = 0 then
        (none, { r with trigram := t, count := c, offset := off, fileID := 2 ^ 32 - 1 })
      else
        match sliceD ix.data ((ix.postData + off + 3) % 2 ^ 32) (-1) with
        | .error e =>
          (some e, { r with trigram := t, count := c, offset := off, d := [],
                            oldID := 2 ^ 32 - 1, i := 0 })
        | .ok d =>
          (none, { r with trigram := t, count := c, offset := off, d := d,
                          oldID := 2 ^ 32 - 1, i := 0 })

/-- The method `postMapReader.init` from merge.go. -/
def pmrInit (ix : Index) (idMap : List IdRange) : Option IndexErr × PostMapReader :=
  pmrLoad ix ⟨idMap, 0, 2 ^ 32 - 1, 0, 0, [], 0, 0, 0⟩

/-- The method `postMapReader.nextTrigram` from merge.go. -/
def pmrNextTrigram (ix : Index) (r : PostMapReader) : Option IndexErr × PostMapReader :=
  pmrLoad ix { r with triNum := r.triNum + 1 }

/-- The index-advance loop inside `postMapReader.nextID`: skip ranges whose
`hi` is not beyond the current old ID.  The fuel only bounds the recursion;
`length + 1` always suffices since the loop stops at the end of the map. -/
def advanceIdx (idMap : List IdRange) (old : Nat) : Nat → Nat → Nat
  | i, 0 => i
  | i, fuel + 1 =>
    if i < idMap.length ∧ (idMap.getD i ⟨0, 0, 0⟩).hi ≤ old then
      advanceIdx idMap old (i + 1) fuel
    else i

/-- Loop of `postMapReader.nextID` from merge.go, recursing on `count`.  Any
error comes beside the partially updated state, since several call sites
discard it; the first argument is the state's `count` (the caller passes
`r.count`, and the invariant is kept at the recursive call). -/
def pmrNextIDLoop : Nat → PostMapReader → Option IndexErr × Bool × PostMapReader
  | 0, r => (none, false, { r with fileID := 2 ^ 32 - 1 })
  | c + 1, r =>
    match uvarint r.d with
    | none => (some .corrupt, false, { r with count := c })
    | some (delta64, n) =>
      let delta := delta64 % 2 ^ 32
      if delta = 0 then (some .corrupt, false, { r with count := c })
      else
        let d1 := r.d.drop n
        let old1 := (r.oldID + delta) % 2 ^ 32
        let i1 := advanceIdx r.idMap old1 r.i (r.idMap.length + 1)
        if i1 ≥ r.idMap.length then
          (none, false, { r with count := 0, oldID := old1, d := d1, i := i1,
                                 fileID := 2 ^ 32 - 1 })
        else
          let rg := r.idMap.getD i1 ⟨0, 0, 0⟩
          if old1 < rg.lo then
            pmrNextIDLoop c { r with count := c, oldID := old1, d := d1, i := i1 }
          else
            (none, true, { r with count := c, oldID := old1, d := d1, i := i1,
                                  fileID := (rg.new + old1 + 2 ^ 32 - rg.lo % 2 ^ 32) % 2 ^ 32 })

/-- The method `postMapReader.nextID` from merge.go. -/
def pmrNextID (r : PostMapReader) : Option IndexErr × Bool × PostMapReader :=
  pmrNextIDLoop r.count r

/-- State of a `postDataWriter` from merge.go.  The bytes a call appends to
the output buffers are returned by the call itself and concatenated by the
loops below (keeping the state small); `outLen` tracks the length of the
posting region written so far, so `offset = outLen` records what the source
stores as `out.offset() - base`. -/
structure PostDataWriter where
  outLen : Nat
  offset : Nat
  count : Nat
  last : Nat
  t : Nat
  deriving DecidableEq

/-- The method `postDataWriter.trigram` from merge.go. -/
def pdwTrigram (w : PostDataWriter) (t : Nat) : PostDataWriter :=
  { w with offset := w.outLen, count := 0, t := t, last := 2 ^ 32 - 1 }

/-- The method `postDataWriter.fileID` from merge.go: the leading trigram
bytes are emitted lazily with the first file ID.  Returns the bytes written
to the posting region. -/
def pdwFileID (w : PostDataWriter) (id : Nat) : List Nat × PostDataWriter :=
  let bytes := (if w.count = 0 then writeTrigram w.t else []) ++ writeUvarint (sub32 id w.last)
  (bytes, { w with outLen := w.outLen + bytes.length, last := id, count := w.count + 1 })

/-- The method `postDataWriter.endTrigram` from merge.go: empty lists leave
no trace, otherwise terminate the list and record a posting-index entry.
Returns the bytes written to the posting region and to the posting-index
buffer. -/
def pdwEndTrigram (w : PostDataWriter) : List Nat × List Nat × PostDataWriter :=
  if w.count = 0 then ([], [], w)
  else
    (writeUvarint 0, writeTrigram w.t ++ writeUint32 w.count ++ writeUint32 w.offset,
     { w with outLen := w.outLen + (writeUvarint 0).length })

/-- One-sided copy loop of the merge (the `r1.trigram < r2.trigram` branch
body): drain the reader's remapped IDs into the writer.  The fuel only
bounds the recursion; `count + 1` always suffices because every yield
strictly decreases `count`. -/
def copyIDsLoop : Nat → PostMapReader → PostDataWriter →
    Except IndexErr (List Nat × PostMapReader × PostDataWriter)
  | 0, _, _ => .error .inconsistent
  | fuel + 1, r, w =>
    match pmrNextID r with
    | (some e, _, _) => .error e
    | (none, false, r1) => .ok ([], r1, w)
    | (none, true, r1) =>
      match pdwFileID w r1.fileID with
      | (bytes, w1) =>
        match copyIDsLoop fuel r1 w1 with
        | .error e => .error e
        | .ok (bs, r2, w2) => .ok (bytes ++ bs, r2, w2)

/-- Interleave loop of the equal-trigram branch of the merge: both readers
hold the same trigram; their remapped streams are merged (equal IDs are the
`merge: inconsistent index` panic).  The `nextID` errors at these call sites
are discarded by the source; the fuel only bounds the recursion and
`count1 + count2 + 3` always suffices (one iteration per written ID plus
the final check). -/
def eqTrigramLoop : Nat → PostMapReader → PostMapReader → PostDataWriter →
    Except IndexErr (List Nat × PostMapReader × PostMapReader × PostDataWriter)
  | 0, _, _, _ => .error .inconsistent
  | fuel + 1, r1, r2, w =>
    if r1.fileID < 2 ^ 32 - 1 ∨ r2.fileID < 2 ^ 32 - 1 then
      if r1.fileID < r2.fileID then
        match pdwFileID w r1.fileID with
        | (bytes, w1) =>
          match eqTrigramLoop fuel ((pmrNextID r1).2.2) r2 w1 with
          | .error e => .error e
          | .ok (bs, r1b, r2b, w2) => .ok (bytes ++ bs, r1b, r2b, w2)
      else if r2.fileID < r1.fileID then
        match pdwFileID w r2.fileID with
        | (bytes, w1) =>
          match eqTrigramLoop fuel r1 ((pmrNextID r2).2.2) w1 with
          | .error e => .error e
          | .ok (bs, r1b, r2b, w2) => .ok (bytes ++ bs, r1b, r2b, w2)
      else .error .inconsistent
    else .ok ([], r1, r2, w)

/-- The trigram-merge loop of `Merge` (merge.go): repeatedly handle the
smaller trigram, or interleave when equal, until both readers reach the
end-of-stream trigram `0xFFFFFFFF`.  Returns the posting-region bytes and
the posting-index bytes.  The `nextTrigram` errors of the two one-sided
branches are discarded by the source.  The fuel only bounds the recursion;
`numPost1 + numPost2 + 2` always suffices because every iteration advances
at least one reader. -/
def mergePostingsLoop (ix1 ix2 : Index) : Nat → PostMapReader → PostMapReader →
    PostDataWriter → Except IndexErr (List Nat × List Nat × PostDataWriter)
  | 0, _, _, _ => .error .inconsistent
  | fuel + 1, r1, r2, w =>
    if r1.trigram < r2.trigram then
      match copyIDsLoop (r1.count + 1) r1 (pdwTrigram w r1.trigram) with
      | .error e => .error e
      | .ok (bs, r1a, w1) =>
        match pdwEndTrigram w1 with
        | (endBs, entryBs, w2) =>
          match mergePostingsLoop ix1 ix2 fuel ((pmrNextTrigram ix1 r1a).2) r2 w2 with
          | .error e => .error e
          | .ok (outRest, idxRest, w3) =>
            .ok (bs ++ endBs ++ outRest, entryBs ++ idxRest, w3)
    else if r2.trigram < r1.trigram then
      match copyIDsLoop (r2.count + 1) r2 (pdwTrigram w r2.trigram) with
      | .error e => .error e
      | .ok (bs, r2a, w1) =>
        match pdwEndTrigram w1 with
        | (endBs, entryBs, w2) =>
          match mergePostingsLoop ix1 ix2 fuel r1 ((pmrNextTrigram ix2 r2a).2) w2 with
          | .error e => .error e
          | .ok (outRest, idxRest, w3) =>
            .ok (bs ++ endBs ++ outRest, entryBs ++ idxRest, w3)
    else if r1.trigram = 2 ^ 32 - 1 then .ok ([], [], w)
    else
      let w1 := pdwTrigram w r1.trigram
      let r1a := (pmrNextID r1).2.2
      let r2a := (pmrNextID r2).2.2
      match eqTrigramLoop (r1a.count + r2a.count + 3) r1a r2a w1 with
      | .error e => .error e
      | .ok (bs, r1b, r2b, w2) =>
        match pdwEndTrigram w2 with
        | (endBs, entryBs, w3) =>
          match pmrNextTrigram ix1 r1b with
          | (some e, _) => .error e
          | (none, r1c) =>
            match pmrNextTrigram ix2 r2b with
            | (some e, _) => .error e
            | (none, r2c) =>
              match mergePostingsLoop ix1 ix2 fuel r1c r2c w3 with
              | .error e => .error e
              | .ok (outRest, idxRest, w4) =>
                .ok (bs ++ endBs ++ outRest, entryBs ++ idxRest, w4)

/-- The docID-map stage of `Merge`: the two range lists and the merged name
count, or the `merge: inconsistent index` panic when `src2` names remain
unclaimed. -/
def mergeMaps (ix1 ix2 : Index) (paths2 : List (List Nat)) :
    Except IndexErr (List IdRange × List IdRange × Nat) :=
  match buildMapsLoop ix1 ix2 paths2 ⟨0, 0, 0, [], []⟩ with
  | .error e => .error e
  | .ok ms =>
    let map1 := if ms.i1 < u32ofInt ix1.numName
                then ms.map1 ++ [⟨ms.i1, u32ofInt ix1.numName, ms.nw⟩] else ms.map1
    let numName := if ms.i1 < u32ofInt ix1.numName
                   then ms.nw + (u32ofInt ix1.numName - ms.i1) else ms.nw
    if ms.i2 < u32ofInt ix2.numName then .error .inconsistent
    else .ok (map1, ms.map2, numName)

/-- The posting stage of `Merge`: initialise the two map readers and run the
trigram-merge loop, producing the posting-region bytes and the posting-index
bytes. -/
def mergePostings (ix1 ix2 : Index) (map1 map2 : List IdRange) :
    Except IndexErr (List Nat × List Nat) :=
  match pmrInit ix1 map1 with
  | (some e, _) => .error e
  | (none, r1) =>
    match pmrInit ix2 map2 with
    | (some e, _) => .error e
    | (none, r2) =>
      match mergePostingsLoop ix1 ix2 (ix1.numPost + ix2.numPost + 2) r1 r2 ⟨0, 0, 0, 0, 0⟩ with
      | .error e => .error e
      | .ok (outBytes, idxBytes, _) => .ok (outBytes, idxBytes)

/-- The output layout of `Merge`: regions in order, the name-index sentinel
entry (the absolute name-region end offset, as the source writes it), the
five trailer offsets and the trailer magic. -/
def assembleMerged (pathRegion nameRegion nameIndexRegion0 : List Nat)
    (postRegion postIndexRegion : List Nat) : List Nat :=
  let pathData := magicBytes.length
  let nameData := pathData + pathRegion.length
  let postData := nameData + nameRegion.length
  let nameIndexRegion := nameIndexRegion0 ++ writeUint32 postData
  let nameIndex := postData + postRegion.length
  let postIndex := nameIndex + nameIndexRegion.length
  magicBytes ++ pathRegion ++ nameRegion ++ postRegion ++ nameIndexRegion ++ postIndexRegion ++
    writeUint32 pathData ++ writeUint32 nameData ++ writeUint32 postData ++
    writeUint32 nameIndex ++ writeUint32 postIndex ++ trailerMagicBytes

/-- The function `Merge` from merge.go, over the byte contents of the two
source index files, producing the bytes of the merged index file.  The
`copyFile` calls for the two temporary index buffers have their errors
discarded in the source; in this pure model the copies cannot fail. -/
def mergeIndex (d1 d2 : List Nat) : Except IndexErr (List Nat) :=
  (openIndex d1).bind fun ix1 =>
  (openIndex d2).bind fun ix2 =>
  ix1.paths.bind fun paths1 =>
  ix2.paths.bind fun paths2 =>
  (mergeMaps ix1 ix2 paths2).bind fun maps =>
  (mergeNamesLoop ix1 ix2 maps.2.2 (maps.1.length + maps.2.1.length + 1)
      maps.1 maps.2.1 0 0).bind fun nr =>
  (mergePostings ix1 ix2 maps.1 maps.2.1).bind fun pr =>
  .ok (assembleMerged ((mergedPaths paths1 paths2).flatMap (fun p => p ++ [0]) ++ [0])
        nr.1 nr.2 pr.1 pr.2)

/-- Injected results for the fallible steps of `Writer.Flush` (write.go), in
source order: `none` means the step succeeds, `some e` that it fails with
error `e`.  This isolates the error plumbing of `Flush` from the layout it
writes (`writerFlush` above). -/
structure FlushSteps where
  addNameEmpty : Option IndexErr
  writeMagic : Option IndexErr
  writePathRegion : Option IndexErr
  copyNameData : Option IndexErr
  mergePost : Option IndexErr
  copyNameIndex : Option IndexErr
  copyPostIndex : Option IndexErr
  writeTrailerOffsets : Option IndexErr
  writeTrailerMagic : Option IndexErr
  finalFlush : Option IndexErr
  deriving DecidableEq

/-- The error result of `Writer.Flush` (write.go) as a function of its step
results, following the source's `if err := ...; err != nil` chain line by
line.  Four steps — the name-data copy, the posting merge, the name-index
copy and the posting-index copy — return `nil` instead of `err` when they
fail, so their failures produce a `none` (success) result here, exactly as
in the source. -/
def flushStepResult (s : FlushSteps) : Option IndexErr :=
  match s.addNameEmpty with
  | some e => some e
  | none =>
  match s.writeMagic with
  | some e => some e
  | none =>
  match s.writePathRegion with
  | some e => some e
  | none =>
  match s.copyNameData with
  | some _ => none
  | none =>
  match s.mergePost with
  | some _ => none
  | none =>
  match s.copyNameIndex with
  | some _ => none
  | none =>
  match s.copyPostIndex with
  | some _ => none
  | none =>
  match s.writeTrailerOffsets with
  | some e => some e
  | none =>
  match s.writeTrailerMagic with
  | some e => some e
  | none => s.finalFlush

/-- All steps of `Flush` succeeding. -/
def flushStepsOk : FlushSteps :=
  ⟨none, none, none, none, none, none, none, none, none, none⟩

/-- The S1 corpus of the posting test (write_test data): four files in
sorted name order. -/
def s1files : List (List Nat × List Nat) :=
  [(strBytes "file0", strBytes ""),
   (strBytes "file1", strBytes "Google Code Search"),
   (strBytes "file2", strBytes "Google Code Project Hosting"),
   (strBytes "file3", strBytes "Google Web Search")]

/-- Paths covered by the first S2 source index (merge_test.go). -/
def s2paths1 : List (List Nat) := [strBytes "/a", strBytes "/b", strBytes "/c"]

/-- Paths covered by the second S2 source index (merge_test.go). -/
def s2paths2 : List (List Nat) := [strBytes "/b", strBytes "/cc"]

/-- Files of the first S2 source index (merge_test.go), in sorted name
order. -/
def s2files1 : List (List Nat × List Nat) :=
  [(strBytes "/a/x", strBytes "hello world"),
   (strBytes "/a/y", strBytes "goodbye world"),
   (strBytes "/b/xx", strBytes "now is the time"),
   (strBytes "/b/xy", strBytes "for all good men"),
   (strBytes "/c/ab", strBytes "give me all the potatoes"),
   (strBytes "/c/de", strBytes "or give me death now")]

/-- Files of the second S2 source index (merge_test.go), in sorted name
order. -/
def s2files2 : List (List Nat × List Nat) :=
  [(strBytes "/b/www", strBytes "world wide indeed"),
   (strBytes "/b/xx", strBytes "no, not now"),
   (strBytes "/b/yy", strBytes "first potatoes, now liberty?"),
   (strBytes "/cc", strBytes "come to the aid of his potatoes")]

/-- The packed trigram of "Sea". -/
def triSea : Nat := packTri (83, 101, 97)

/-- The packed trigram of "Goo". -/
def triGoo : Nat := packTri (71, 111, 111)

/-- The packed trigram of "wor". -/
def triWor : Nat := packTri (119, 111, 114)

/-- The packed trigram of "now". -/
def triNow : Nat := packTri (110, 111, 119)

/-- The packed trigram of "pot". -/
def triPot : Nat := packTri (112, 111, 116)

/-- The packed trigram of "all". -/
def triAll : Nat := packTri (97, 108, 108)
/-- Bytes of the index the writer produces for the S1 corpus (checked below by `s1data_eq`). -/
def s1data : List Nat :=
  [99, 115, 101, 97, 114, 99, 104, 32, 105, 110, 100, 101, 120, 32, 49, 10, 0, 102, 105, 108,
   101, 48, 0, 102, 105, 108, 101, 49, 0, 102, 105, 108, 101, 50, 0, 102, 105, 108, 101, 51, 0,
   0, 32, 67, 111, 2, 1, 0, 32, 72, 111, 3, 0, 32, 80, 114, 3, 0, 32, 83, 101, 2, 2, 0, 32, 87,
   101, 4, 0, 67, 111, 100, 2, 1, 0, 71, 111, 111, 2, 1, 1, 0, 72, 111, 115, 3, 0, 80, 114, 111,
   3, 0, 83, 101, 97, 2, 2, 0, 87, 101, 98, 4, 0, 97, 114, 99, 2, 2, 0, 98, 32, 83, 4, 0, 99,
   116, 32, 3, 0, 100, 101, 32, 2, 1, 0, 101, 32, 67, 2, 1, 0, 101, 32, 80, 3, 0, 101, 32, 83,
   2, 0, 101, 32, 87, 4, 0, 101, 97, 114, 2, 2, 0, 101, 98, 32, 4, 0, 101, 99, 116, 3, 0, 103,
   108, 101, 2, 1, 1, 0, 105, 110, 103, 3, 0, 106, 101, 99, 3, 0, 108, 101, 32, 2, 1, 1, 0, 111,
   100, 101, 2, 1, 0, 111, 103, 108, 2, 1, 1, 0, 111, 106, 101, 3, 0, 111, 111, 103, 2, 1, 1, 0,
   111, 115, 116, 3, 0, 114, 99, 104, 2, 2, 0, 114, 111, 106, 3, 0, 115, 116, 105, 3, 0, 116,
   32, 72, 3, 0, 116, 105, 110, 3, 0, 255, 255, 255, 0, 0, 0, 0, 0, 0, 0, 0, 6, 0, 0, 0, 12, 0,
   0, 0, 18, 0, 0, 0, 24, 32, 67, 111, 0, 0, 0, 2, 0, 0, 0, 0, 32, 72, 111, 0, 0, 0, 1, 0, 0, 0,
   6, 32, 80, 114, 0, 0, 0, 1, 0, 0, 0, 11, 32, 83, 101, 0, 0, 0, 2, 0, 0, 0, 16, 32, 87, 101,
   0, 0, 0, 1, 0, 0, 0, 22, 67, 111, 100, 0, 0, 0, 2, 0, 0, 0, 27, 71, 111, 111, 0, 0, 0, 3, 0,
   0, 0, 33, 72, 111, 115, 0, 0, 0, 1, 0, 0, 0, 40, 80, 114, 111, 0, 0, 0, 1, 0, 0, 0, 45, 83,
   101, 97, 0, 0, 0, 2, 0, 0, 0, 50, 87, 101, 98, 0, 0, 0, 1, 0, 0, 0, 56, 97, 114, 99, 0, 0, 0,
   2, 0, 0, 0, 61, 98, 32, 83, 0, 0, 0, 1, 0, 0, 0, 67, 99, 116, 32, 0, 0, 0, 1, 0, 0, 0, 72,
   100, 101, 32, 0, 0, 0, 2, 0, 0, 0, 77, 101, 32, 67, 0, 0, 0, 2, 0, 0, 0, 83, 101, 32, 80, 0,
   0, 0, 1, 0, 0, 0, 89, 101, 32, 83, 0, 0, 0, 1, 0, 0, 0, 94, 101, 32, 87, 0, 0, 0, 1, 0, 0, 0,
   99, 101, 97, 114, 0, 0, 0, 2, 0, 0, 0, 104, 101, 98, 32, 0, 0, 0, 1, 0, 0, 0, 110, 101, 99,
   116, 0, 0, 0, 1, 0, 0, 0, 115, 103, 108, 101, 0, 0, 0, 3, 0, 0, 0, 120, 105, 110, 103, 0, 0,
   0, 1, 0, 0, 0, 127, 106, 101, 99, 0, 0, 0, 1, 0, 0, 0, 132, 108, 101, 32, 0, 0, 0, 3, 0, 0,
   0, 137, 111, 100, 101, 0, 0, 0, 2, 0, 0, 0, 144, 111, 103, 108, 0, 0, 0, 3, 0, 0, 0, 150,
   111, 106, 101, 0, 0, 0, 1, 0, 0, 0, 157, 111, 111, 103, 0, 0, 0, 3, 0, 0, 0, 162, 111, 115,
   116, 0, 0, 0, 1, 0, 0, 0, 169, 114, 99, 104, 0, 0, 0, 2, 0, 0, 0, 174, 114, 111, 106, 0, 0,
   0, 1, 0, 0, 0, 180, 115, 116, 105, 0, 0, 0, 1, 0, 0, 0, 185, 116, 32, 72, 0, 0, 0, 1, 0, 0,
   0, 190, 116, 105, 110, 0, 0, 0, 1, 0, 0, 0, 195, 255, 255, 255, 0, 0, 0, 0, 0, 0, 0, 200, 0,
   0, 0, 16, 0, 0, 0, 17, 0, 0, 0, 42, 0, 0, 0, 246, 0, 0, 1, 10, 10, 99, 115, 101, 97, 114, 99,
   104, 32, 116, 114, 97, 105, 108, 114, 10]

/-- Bytes of the index the writer produces for the first S2 source (checked below by `s2data1_eq`). -/
def s2data1 : List Nat :=
  [99, 115, 101, 97, 114, 99, 104, 32, 105, 110, 100, 101, 120, 32, 49, 10, 47, 97, 0, 47, 98,
   0, 47, 99, 0, 0, 47, 97, 47, 120, 0, 47, 97, 47, 121, 0, 47, 98, 47, 120, 120, 0, 47, 98, 47,
   120, 121, 0, 47, 99, 47, 97, 98, 0, 47, 99, 47, 100, 101, 0, 0, 32, 97, 108, 4, 1, 0, 32,
   100, 101, 6, 0, 32, 103, 105, 6, 0, 32, 103, 111, 4, 0, 32, 105, 115, 3, 0, 32, 109, 101, 4,
   1, 1, 0, 32, 110, 111, 6, 0, 32, 112, 111, 5, 0, 32, 116, 104, 3, 2, 0, 32, 116, 105, 3, 0,
   32, 119, 111, 1, 1, 0, 97, 108, 108, 4, 1, 0, 97, 116, 104, 6, 0, 97, 116, 111, 5, 0, 98,
   121, 101, 2, 0, 100, 32, 109, 4, 0, 100, 98, 121, 2, 0, 100, 101, 97, 6, 0, 101, 32, 97, 5,
   0, 101, 32, 100, 6, 0, 101, 32, 109, 5, 1, 0, 101, 32, 112, 5, 0, 101, 32, 116, 3, 0, 101,
   32, 119, 2, 0, 101, 97, 116, 6, 0, 101, 108, 108, 1, 0, 102, 111, 114, 4, 0, 103, 105, 118,
   5, 1, 0, 103, 111, 111, 2, 2, 0, 104, 32, 110, 6, 0, 104, 101, 32, 3, 2, 0, 104, 101, 108, 1,
   0, 105, 109, 101, 3, 0, 105, 115, 32, 3, 0, 105, 118, 101, 5, 1, 0, 108, 32, 103, 4, 0, 108,
   32, 116, 5, 0, 108, 108, 32, 4, 1, 0, 108, 108, 111, 1, 0, 108, 111, 32, 1, 0, 109, 101, 32,
   5, 1, 0, 109, 101, 110, 4, 0, 110, 111, 119, 3, 3, 0, 111, 32, 119, 1, 0, 111, 100, 32, 4, 0,
   111, 100, 98, 2, 0, 111, 101, 115, 5, 0, 111, 111, 100, 2, 2, 0, 111, 114, 32, 4, 2, 0, 111,
   114, 108, 1, 1, 0, 111, 116, 97, 5, 0, 111, 119, 32, 3, 0, 112, 111, 116, 5, 0, 114, 32, 97,
   4, 0, 114, 32, 103, 6, 0, 114, 108, 100, 1, 1, 0, 115, 32, 116, 3, 0, 116, 97, 116, 5, 0,
   116, 104, 32, 6, 0, 116, 104, 101, 3, 2, 0, 116, 105, 109, 3, 0, 116, 111, 101, 5, 0, 118,
   101, 32, 5, 1, 0, 119, 32, 105, 3, 0, 119, 111, 114, 1, 1, 0, 121, 101, 32, 2, 0, 255, 255,
   255, 0, 0, 0, 0, 0, 0, 0, 0, 5, 0, 0, 0, 10, 0, 0, 0, 16, 0, 0, 0, 22, 0, 0, 0, 28, 0, 0, 0,
   34, 32, 97, 108, 0, 0, 0, 2, 0, 0, 0, 0, 32, 100, 101, 0, 0, 0, 1, 0, 0, 0, 6, 32, 103, 105,
   0, 0, 0, 1, 0, 0, 0, 11, 32, 103, 111, 0, 0, 0, 1, 0, 0, 0, 16, 32, 105, 115, 0, 0, 0, 1, 0,
   0, 0, 21, 32, 109, 101, 0, 0, 0, 3, 0, 0, 0, 26, 32, 110, 111, 0, 0, 0, 1, 0, 0, 0, 33, 32,
   112, 111, 0, 0, 0, 1, 0, 0, 0, 38, 32, 116, 104, 0, 0, 0, 2, 0, 0, 0, 43, 32, 116, 105, 0, 0,
   0, 1, 0, 0, 0, 49, 32, 119, 111, 0, 0, 0, 2, 0, 0, 0, 54, 97, 108, 108, 0, 0, 0, 2, 0, 0, 0,
   60, 97, 116, 104, 0, 0, 0, 1, 0, 0, 0, 66, 97, 116, 111, 0, 0, 0, 1, 0, 0, 0, 71, 98, 121,
   101, 0, 0, 0, 1, 0, 0, 0, 76, 100, 32, 109, 0, 0, 0, 1, 0, 0, 0, 81, 100, 98, 121, 0, 0, 0,
   1, 0, 0, 0, 86, 100, 101, 97, 0, 0, 0, 1, 0, 0, 0, 91, 101, 32, 97, 0, 0, 0, 1, 0, 0, 0, 96,
   101, 32, 100, 0, 0, 0, 1, 0, 0, 0, 101, 101, 32, 109, 0, 0, 0, 2, 0, 0, 0, 106, 101, 32, 112,
   0, 0, 0, 1, 0, 0, 0, 112, 101, 32, 116, 0, 0, 0, 1, 0, 0, 0, 117, 101, 32, 119, 0, 0, 0, 1,
   0, 0, 0, 122, 101, 97, 116, 0, 0, 0, 1, 0, 0, 0, 127, 101, 108, 108, 0, 0, 0, 1, 0, 0, 0,
   132, 102, 111, 114, 0, 0, 0, 1, 0, 0, 0, 137, 103, 105, 118, 0, 0, 0, 2, 0, 0, 0, 142, 103,
   111, 111, 0, 0, 0, 2, 0, 0, 0, 148, 104, 32, 110, 0, 0, 0, 1, 0, 0, 0, 154, 104, 101, 32, 0,
   0, 0, 2, 0, 0, 0, 159, 104, 101, 108, 0, 0, 0, 1, 0, 0, 0, 165, 105, 109, 101, 0, 0, 0, 1, 0,
   0, 0, 170, 105, 115, 32, 0, 0, 0, 1, 0, 0, 0, 175, 105, 118, 101, 0, 0, 0, 2, 0, 0, 0, 180,
   108, 32, 103, 0, 0, 0, 1, 0, 0, 0, 186, 108, 32, 116, 0, 0, 0, 1, 0, 0, 0, 191, 108, 108, 32,
   0, 0, 0, 2, 0, 0, 0, 196, 108, 108, 111, 0, 0, 0, 1, 0, 0, 0, 202, 108, 111, 32, 0, 0, 0, 1,
   0, 0, 0, 207, 109, 101, 32, 0, 0, 0, 2, 0, 0, 0, 212, 109, 101, 110, 0, 0, 0, 1, 0, 0, 0,
   218, 110, 111, 119, 0, 0, 0, 2, 0, 0, 0, 223, 111, 32, 119, 0, 0, 0, 1, 0, 0, 0, 229, 111,
   100, 32, 0, 0, 0, 1, 0, 0, 0, 234, 111, 100, 98, 0, 0, 0, 1, 0, 0, 0, 239, 111, 101, 115, 0,
   0, 0, 1, 0, 0, 0, 244, 111, 111, 100, 0, 0, 0, 2, 0, 0, 0, 249, 111, 114, 32, 0, 0, 0, 2, 0,
   0, 0, 255, 111, 114, 108, 0, 0, 0, 2, 0, 0, 1, 5, 111, 116, 97, 0, 0, 0, 1, 0, 0, 1, 11, 111,
   119, 32, 0, 0, 0, 1, 0, 0, 1, 16, 112, 111, 116, 0, 0, 0, 1, 0, 0, 1, 21, 114, 32, 97, 0, 0,
   0, 1, 0, 0, 1, 26, 114, 32, 103, 0, 0, 0, 1, 0, 0, 1, 31, 114, 108, 100, 0, 0, 0, 2, 0, 0, 1,
   36, 115, 32, 116, 0, 0, 0, 1, 0, 0, 1, 42, 116, 97, 116, 0, 0, 0, 1, 0, 0, 1, 47, 116, 104,
   32, 0, 0, 0, 1, 0, 0, 1, 52, 116, 104, 101, 0, 0, 0, 2, 0, 0, 1, 57, 116, 105, 109, 0, 0, 0,
   1, 0, 0, 1, 63, 116, 111, 101, 0, 0, 0, 1, 0, 0, 1, 68, 118, 101, 32, 0, 0, 0, 2, 0, 0, 1,
   73, 119, 32, 105, 0, 0, 0, 1, 0, 0, 1, 79, 119, 111, 114, 0, 0, 0, 2, 0, 0, 1, 84, 121, 101,
   32, 0, 0, 0, 1, 0, 0, 1, 90, 255, 255, 255, 0, 0, 0, 0, 0, 0, 1, 95, 0, 0, 0, 16, 0, 0, 0,
   26, 0, 0, 0, 61, 0, 0, 1, 160, 0, 0, 1, 188, 10, 99, 115, 101, 97, 114, 99, 104, 32, 116,
   114, 97, 105, 108, 114, 10]

/-- Bytes of the index the writer produces for the second S2 source (checked below by `s2data2_eq`). -/
def s2data2 : List Nat :=
  [99, 115, 101, 97, 114, 99, 104, 32, 105, 110, 100, 101, 120, 32, 49, 10, 47, 98, 0, 47, 99,
   99, 0, 0, 47, 98, 47, 119, 119, 119, 0, 47, 98, 47, 120, 120, 0, 47, 98, 47, 121, 121, 0, 47,
   99, 99, 0, 0, 32, 97, 105, 4, 0, 32, 104, 105, 4, 0, 32, 105, 110, 1, 0, 32, 108, 105, 3, 0,
   32, 110, 111, 2, 1, 0, 32, 111, 102, 4, 0, 32, 112, 111, 3, 1, 0, 32, 116, 104, 4, 0, 32,
   116, 111, 4, 0, 32, 119, 105, 1, 0, 44, 32, 110, 2, 1, 0, 97, 105, 100, 4, 0, 97, 116, 111,
   3, 1, 0, 98, 101, 114, 3, 0, 99, 111, 109, 4, 0, 100, 32, 111, 4, 0, 100, 32, 119, 1, 0, 100,
   101, 32, 1, 0, 100, 101, 101, 1, 0, 101, 32, 97, 4, 0, 101, 32, 105, 1, 0, 101, 32, 116, 4,
   0, 101, 101, 100, 1, 0, 101, 114, 116, 3, 0, 101, 115, 44, 3, 0, 102, 32, 104, 4, 0, 102,
   105, 114, 3, 0, 104, 101, 32, 4, 0, 104, 105, 115, 4, 0, 105, 98, 101, 3, 0, 105, 100, 32, 4,
   0, 105, 100, 101, 1, 0, 105, 110, 100, 1, 0, 105, 114, 115, 3, 0, 105, 115, 32, 4, 0, 108,
   100, 32, 1, 0, 108, 105, 98, 3, 0, 109, 101, 32, 4, 0, 110, 100, 101, 1, 0, 110, 111, 44, 2,
   0, 110, 111, 116, 2, 0, 110, 111, 119, 2, 1, 0, 111, 32, 116, 4, 0, 111, 44, 32, 2, 0, 111,
   101, 115, 3, 1, 0, 111, 102, 32, 4, 0, 111, 109, 101, 4, 0, 111, 114, 108, 1, 0, 111, 116,
   32, 2, 0, 111, 116, 97, 3, 1, 0, 111, 119, 32, 3, 0, 112, 111, 116, 3, 1, 0, 114, 108, 100,
   1, 0, 114, 115, 116, 3, 0, 114, 116, 121, 3, 0, 115, 32, 112, 4, 0, 115, 44, 32, 3, 0, 115,
   116, 32, 3, 0, 116, 32, 110, 2, 0, 116, 32, 112, 3, 0, 116, 97, 116, 3, 1, 0, 116, 104, 101,
   4, 0, 116, 111, 32, 4, 0, 116, 111, 101, 3, 1, 0, 116, 121, 63, 3, 0, 119, 32, 108, 3, 0,
   119, 105, 100, 1, 0, 119, 111, 114, 1, 0, 255, 255, 255, 0, 0, 0, 0, 0, 0, 0, 0, 7, 0, 0, 0,
   13, 0, 0, 0, 19, 0, 0, 0, 23, 32, 97, 105, 0, 0, 0, 1, 0, 0, 0, 0, 32, 104, 105, 0, 0, 0, 1,
   0, 0, 0, 5, 32, 105, 110, 0, 0, 0, 1, 0, 0, 0, 10, 32, 108, 105, 0, 0, 0, 1, 0, 0, 0, 15, 32,
   110, 111, 0, 0, 0, 2, 0, 0, 0, 20, 32, 111, 102, 0, 0, 0, 1, 0, 0, 0, 26, 32, 112, 111, 0, 0,
   0, 2, 0, 0, 0, 31, 32, 116, 104, 0, 0, 0, 1, 0, 0, 0, 37, 32, 116, 111, 0, 0, 0, 1, 0, 0, 0,
   42, 32, 119, 105, 0, 0, 0, 1, 0, 0, 0, 47, 44, 32, 110, 0, 0, 0, 2, 0, 0, 0, 52, 97, 105,
   100, 0, 0, 0, 1, 0, 0, 0, 58, 97, 116, 111, 0, 0, 0, 2, 0, 0, 0, 63, 98, 101, 114, 0, 0, 0,
   1, 0, 0, 0, 69, 99, 111, 109, 0, 0, 0, 1, 0, 0, 0, 74, 100, 32, 111, 0, 0, 0, 1, 0, 0, 0, 79,
   100, 32, 119, 0, 0, 0, 1, 0, 0, 0, 84, 100, 101, 32, 0, 0, 0, 1, 0, 0, 0, 89, 100, 101, 101,
   0, 0, 0, 1, 0, 0, 0, 94, 101, 32, 97, 0, 0, 0, 1, 0, 0, 0, 99, 101, 32, 105, 0, 0, 0, 1, 0,
   0, 0, 104, 101, 32, 116, 0, 0, 0, 1, 0, 0, 0, 109, 101, 101, 100, 0, 0, 0, 1, 0, 0, 0, 114,
   101, 114, 116, 0, 0, 0, 1, 0, 0, 0, 119, 101, 115, 44, 0, 0, 0, 1, 0, 0, 0, 124, 102, 32,
   104, 0, 0, 0, 1, 0, 0, 0, 129, 102, 105, 114, 0, 0, 0, 1, 0, 0, 0, 134, 104, 101, 32, 0, 0,
   0, 1, 0, 0, 0, 139, 104, 105, 115, 0, 0, 0, 1, 0, 0, 0, 144, 105, 98, 101, 0, 0, 0, 1, 0, 0,
   0, 149, 105, 100, 32, 0, 0, 0, 1, 0, 0, 0, 154, 105, 100, 101, 0, 0, 0, 1, 0, 0, 0, 159, 105,
   110, 100, 0, 0, 0, 1, 0, 0, 0, 164, 105, 114, 115, 0, 0, 0, 1, 0, 0, 0, 169, 105, 115, 32, 0,
   0, 0, 1, 0, 0, 0, 174, 108, 100, 32, 0, 0, 0, 1, 0, 0, 0, 179, 108, 105, 98, 0, 0, 0, 1, 0,
   0, 0, 184, 109, 101, 32, 0, 0, 0, 1, 0, 0, 0, 189, 110, 100, 101, 0, 0, 0, 1, 0, 0, 0, 194,
   110, 111, 44, 0, 0, 0, 1, 0, 0, 0, 199, 110, 111, 116, 0, 0, 0, 1, 0, 0, 0, 204, 110, 111,
   119, 0, 0, 0, 2, 0, 0, 0, 209, 111, 32, 116, 0, 0, 0, 1, 0, 0, 0, 215, 111, 44, 32, 0, 0, 0,
   1, 0, 0, 0, 220, 111, 101, 115, 0, 0, 0, 2, 0, 0, 0, 225, 111, 102, 32, 0, 0, 0, 1, 0, 0, 0,
   231, 111, 109, 101, 0, 0, 0, 1, 0, 0, 0, 236, 111, 114, 108, 0, 0, 0, 1, 0, 0, 0, 241, 111,
   116, 32, 0, 0, 0, 1, 0, 0, 0, 246, 111, 116, 97, 0, 0, 0, 2, 0, 0, 0, 251, 111, 119, 32, 0,
   0, 0, 1, 0, 0, 1, 1, 112, 111, 116, 0, 0, 0, 2, 0, 0, 1, 6, 114, 108, 100, 0, 0, 0, 1, 0, 0,
   1, 12, 114, 115, 116, 0, 0, 0, 1, 0, 0, 1, 17, 114, 116, 121, 0, 0, 0, 1, 0, 0, 1, 22, 115,
   32, 112, 0, 0, 0, 1, 0, 0, 1, 27, 115, 44, 32, 0, 0, 0, 1, 0, 0, 1, 32, 115, 116, 32, 0, 0,
   0, 1, 0, 0, 1, 37, 116, 32, 110, 0, 0, 0, 1, 0, 0, 1, 42, 116, 32, 112, 0, 0, 0, 1, 0, 0, 1,
   47, 116, 97, 116, 0, 0, 0, 2, 0, 0, 1, 52, 116, 104, 101, 0, 0, 0, 1, 0, 0, 1, 58, 116, 111,
   32, 0, 0, 0, 1, 0, 0, 1, 63, 116, 111, 101, 0, 0, 0, 2, 0, 0, 1, 68, 116, 121, 63, 0, 0, 0,
   1, 0, 0, 1, 74, 119, 32, 108, 0, 0, 0, 1, 0, 0, 1, 79, 119, 105, 100, 0, 0, 0, 1, 0, 0, 1,
   84, 119, 111, 114, 0, 0, 0, 1, 0, 0, 1, 89, 255, 255, 255, 0, 0, 0, 0, 0, 0, 1, 94, 0, 0, 0,
   16, 0, 0, 0, 24, 0, 0, 0, 48, 0, 0, 1, 146, 0, 0, 1, 166, 10, 99, 115, 101, 97, 114, 99, 104,
   32, 116, 114, 97, 105, 108, 114, 10]

/-- Name region of the merged S2 index (checked by the staging lemma `s2names_eq`). -/
def s2nameRegion : List Nat :=
  [47, 97, 47, 120, 0, 47, 97, 47, 121, 0, 47, 98, 47, 119, 119, 119, 0, 47, 98, 47, 120, 120,
   0, 47, 98, 47, 121, 121, 0, 47, 99, 47, 97, 98, 0, 47, 99, 47, 100, 101, 0, 47, 99, 99, 0]

/-- Name-index entries of the merged S2 index before the sentinel (checked by `s2names_eq`). -/
def s2nameIndex0 : List Nat :=
  [0, 0, 0, 0, 0, 0, 0, 5, 0, 0, 0, 10, 0, 0, 0, 17, 0, 0, 0, 23, 0, 0, 0, 29, 0, 0, 0, 35, 0,
   0, 0, 41]

/-- Posting region of the merged S2 index (checked by `s2post_eq`). -/
def s2postRegion : List Nat :=
  [32, 97, 105, 8, 0, 32, 97, 108, 6, 0, 32, 100, 101, 7, 0, 32, 103, 105, 7, 0, 32, 104, 105,
   8, 0, 32, 105, 110, 3, 0, 32, 108, 105, 5, 0, 32, 109, 101, 6, 1, 0, 32, 110, 111, 4, 1, 2,
   0, 32, 111, 102, 8, 0, 32, 112, 111, 5, 1, 2, 0, 32, 116, 104, 6, 2, 0, 32, 116, 111, 8, 0,
   32, 119, 105, 3, 0, 32, 119, 111, 1, 1, 0, 44, 32, 110, 4, 1, 0, 97, 105, 100, 8, 0, 97, 108,
   108, 6, 0, 97, 116, 104, 7, 0, 97, 116, 111, 5, 1, 2, 0, 98, 101, 114, 5, 0, 98, 121, 101, 2,
   0, 99, 111, 109, 8, 0, 100, 32, 111, 8, 0, 100, 32, 119, 3, 0, 100, 98, 121, 2, 0, 100, 101,
   32, 3, 0, 100, 101, 97, 7, 0, 100, 101, 101, 3, 0, 101, 32, 97, 6, 2, 0, 101, 32, 100, 7, 0,
   101, 32, 105, 3, 0, 101, 32, 109, 6, 1, 0, 101, 32, 112, 6, 0, 101, 32, 116, 8, 0, 101, 32,
   119, 2, 0, 101, 97, 116, 7, 0, 101, 101, 100, 3, 0, 101, 108, 108, 1, 0, 101, 114, 116, 5, 0,
   101, 115, 44, 5, 0, 102, 32, 104, 8, 0, 102, 105, 114, 5, 0, 103, 105, 118, 6, 1, 0, 103,
   111, 111, 2, 0, 104, 32, 110, 7, 0, 104, 101, 32, 6, 2, 0, 104, 101, 108, 1, 0, 104, 105,
   115, 8, 0, 105, 98, 101, 5, 0, 105, 100, 32, 8, 0, 105, 100, 101, 3, 0, 105, 110, 100, 3, 0,
   105, 114, 115, 5, 0, 105, 115, 32, 8, 0, 105, 118, 101, 6, 1, 0, 108, 32, 116, 6, 0, 108,
   100, 32, 3, 0, 108, 105, 98, 5, 0, 108, 108, 32, 6, 0, 108, 108, 111, 1, 0, 108, 111, 32, 1,
   0, 109, 101, 32, 6, 1, 1, 0, 110, 100, 101, 3, 0, 110, 111, 44, 4, 0, 110, 111, 116, 4, 0,
   110, 111, 119, 4, 1, 2, 0, 111, 32, 116, 8, 0, 111, 32, 119, 1, 0, 111, 44, 32, 4, 0, 111,
   100, 98, 2, 0, 111, 101, 115, 5, 1, 2, 0, 111, 102, 32, 8, 0, 111, 109, 101, 8, 0, 111, 111,
   100, 2, 0, 111, 114, 32, 7, 0, 111, 114, 108, 1, 1, 1, 0, 111, 116, 32, 4, 0, 111, 116, 97,
   5, 1, 2, 0, 111, 119, 32, 5, 0, 112, 111, 116, 5, 1, 2, 0, 114, 32, 103, 7, 0, 114, 108, 100,
   1, 1, 1, 0, 114, 115, 116, 5, 0, 114, 116, 121, 5, 0, 115, 32, 112, 8, 0, 115, 44, 32, 5, 0,
   115, 116, 32, 5, 0, 116, 32, 110, 4, 0, 116, 32, 112, 5, 0, 116, 97, 116, 5, 1, 2, 0, 116,
   104, 32, 7, 0, 116, 104, 101, 6, 2, 0, 116, 111, 32, 8, 0, 116, 111, 101, 5, 1, 2, 0, 116,
   121, 63, 5, 0, 118, 101, 32, 6, 1, 0, 119, 32, 108, 5, 0, 119, 105, 100, 3, 0, 119, 111, 114,
   1, 1, 1, 0, 121, 101, 32, 2, 0]

/-- Posting-index region of the merged S2 index (checked by `s2post_eq`). -/
def s2postIndexRegion : List Nat :=
  [32, 97, 105, 0, 0, 0, 1, 0, 0, 0, 0, 32, 97, 108, 0, 0, 0, 1, 0, 0, 0, 5, 32, 100, 101, 0, 0,
   0, 1, 0, 0, 0, 10, 32, 103, 105, 0, 0, 0, 1, 0, 0, 0, 15, 32, 104, 105, 0, 0, 0, 1, 0, 0, 0,
   20, 32, 105, 110, 0, 0, 0, 1, 0, 0, 0, 25, 32, 108, 105, 0, 0, 0, 1, 0, 0, 0, 30, 32, 109,
   101, 0, 0, 0, 2, 0, 0, 0, 35, 32, 110, 111, 0, 0, 0, 3, 0, 0, 0, 41, 32, 111, 102, 0, 0, 0,
   1, 0, 0, 0, 48, 32, 112, 111, 0, 0, 0, 3, 0, 0, 0, 53, 32, 116, 104, 0, 0, 0, 2, 0, 0, 0, 60,
   32, 116, 111, 0, 0, 0, 1, 0, 0, 0, 66, 32, 119, 105, 0, 0, 0, 1, 0, 0, 0, 71, 32, 119, 111,
   0, 0, 0, 2, 0, 0, 0, 76, 44, 32, 110, 0, 0, 0, 2, 0, 0, 0, 82, 97, 105, 100, 0, 0, 0, 1, 0,
   0, 0, 88, 97, 108, 108, 0, 0, 0, 1, 0, 0, 0, 93, 97, 116, 104, 0, 0, 0, 1, 0, 0, 0, 98, 97,
   116, 111, 0, 0, 0, 3, 0, 0, 0, 103, 98, 101, 114, 0, 0, 0, 1, 0, 0, 0, 110, 98, 121, 101, 0,
   0, 0, 1, 0, 0, 0, 115, 99, 111, 109, 0, 0, 0, 1, 0, 0, 0, 120, 100, 32, 111, 0, 0, 0, 1, 0,
   0, 0, 125, 100, 32, 119, 0, 0, 0, 1, 0, 0, 0, 130, 100, 98, 121, 0, 0, 0, 1, 0, 0, 0, 135,
   100, 101, 32, 0, 0, 0, 1, 0, 0, 0, 140, 100, 101, 97, 0, 0, 0, 1, 0, 0, 0, 145, 100, 101,
   101, 0, 0, 0, 1, 0, 0, 0, 150, 101, 32, 97, 0, 0, 0, 2, 0, 0, 0, 155, 101, 32, 100, 0, 0, 0,
   1, 0, 0, 0, 161, 101, 32, 105, 0, 0, 0, 1, 0, 0, 0, 166, 101, 32, 109, 0, 0, 0, 2, 0, 0, 0,
   171, 101, 32, 112, 0, 0, 0, 1, 0, 0, 0, 177, 101, 32, 116, 0, 0, 0, 1, 0, 0, 0, 182, 101, 32,
   119, 0, 0, 0, 1, 0, 0, 0, 187, 101, 97, 116, 0, 0, 0, 1, 0, 0, 0, 192, 101, 101, 100, 0, 0,
   0, 1, 0, 0, 0, 197, 101, 108, 108, 0, 0, 0, 1, 0, 0, 0, 202, 101, 114, 116, 0, 0, 0, 1, 0, 0,
   0, 207, 101, 115, 44, 0, 0, 0, 1, 0, 0, 0, 212, 102, 32, 104, 0, 0, 0, 1, 0, 0, 0, 217, 102,
   105, 114, 0, 0, 0, 1, 0, 0, 0, 222, 103, 105, 118, 0, 0, 0, 2, 0, 0, 0, 227, 103, 111, 111,
   0, 0, 0, 1, 0, 0, 0, 233, 104, 32, 110, 0, 0, 0, 1, 0, 0, 0, 238, 104, 101, 32, 0, 0, 0, 2,
   0, 0, 0, 243, 104, 101, 108, 0, 0, 0, 1, 0, 0, 0, 249, 104, 105, 115, 0, 0, 0, 1, 0, 0, 0,
   254, 105, 98, 101, 0, 0, 0, 1, 0, 0, 1, 3, 105, 100, 32, 0, 0, 0, 1, 0, 0, 1, 8, 105, 100,
   101, 0, 0, 0, 1, 0, 0, 1, 13, 105, 110, 100, 0, 0, 0, 1, 0, 0, 1, 18, 105, 114, 115, 0, 0, 0,
   1, 0, 0, 1, 23, 105, 115, 32, 0, 0, 0, 1, 0, 0, 1, 28, 105, 118, 101, 0, 0, 0, 2, 0, 0, 1,
   33, 108, 32, 116, 0, 0, 0, 1, 0, 0, 1, 39, 108, 100, 32, 0, 0, 0, 1, 0, 0, 1, 44, 108, 105,
   98, 0, 0, 0, 1, 0, 0, 1, 49, 108, 108, 32, 0, 0, 0, 1, 0, 0, 1, 54, 108, 108, 111, 0, 0, 0,
   1, 0, 0, 1, 59, 108, 111, 32, 0, 0, 0, 1, 0, 0, 1, 64, 109, 101, 32, 0, 0, 0, 3, 0, 0, 1, 69,
   110, 100, 101, 0, 0, 0, 1, 0, 0, 1, 76, 110, 111, 44, 0, 0, 0, 1, 0, 0, 1, 81, 110, 111, 116,
   0, 0, 0, 1, 0, 0, 1, 86, 110, 111, 119, 0, 0, 0, 3, 0, 0, 1, 91, 111, 32, 116, 0, 0, 0, 1, 0,
   0, 1, 98, 111, 32, 119, 0, 0, 0, 1, 0, 0, 1, 103, 111, 44, 32, 0, 0, 0, 1, 0, 0, 1, 108, 111,
   100, 98, 0, 0, 0, 1, 0, 0, 1, 113, 111, 101, 115, 0, 0, 0, 3, 0, 0, 1, 118, 111, 102, 32, 0,
   0, 0, 1, 0, 0, 1, 125, 111, 109, 101, 0, 0, 0, 1, 0, 0, 1, 130, 111, 111, 100, 0, 0, 0, 1, 0,
   0, 1, 135, 111, 114, 32, 0, 0, 0, 1, 0, 0, 1, 140, 111, 114, 108, 0, 0, 0, 3, 0, 0, 1, 145,
   111, 116, 32, 0, 0, 0, 1, 0, 0, 1, 152, 111, 116, 97, 0, 0, 0, 3, 0, 0, 1, 157, 111, 119, 32,
   0, 0, 0, 1, 0, 0, 1, 164, 112, 111, 116, 0, 0, 0, 3, 0, 0, 1, 169, 114, 32, 103, 0, 0, 0, 1,
   0, 0, 1, 176, 114, 108, 100, 0, 0, 0, 3, 0, 0, 1, 181, 114, 115, 116, 0, 0, 0, 1, 0, 0, 1,
   188, 114, 116, 121, 0, 0, 0, 1, 0, 0, 1, 193, 115, 32, 112, 0, 0, 0, 1, 0, 0, 1, 198, 115,
   44, 32, 0, 0, 0, 1, 0, 0, 1, 203, 115, 116, 32, 0, 0, 0, 1, 0, 0, 1, 208, 116, 32, 110, 0, 0,
   0, 1, 0, 0, 1, 213, 116, 32, 112, 0, 0, 0, 1, 0, 0, 1, 218, 116, 97, 116, 0, 0, 0, 3, 0, 0,
   1, 223, 116, 104, 32, 0, 0, 0, 1, 0, 0, 1, 230, 116, 104, 101, 0, 0, 0, 2, 0, 0, 1, 235, 116,
   111, 32, 0, 0, 0, 1, 0, 0, 1, 241, 116, 111, 101, 0, 0, 0, 3, 0, 0, 1, 246, 116, 121, 63, 0,
   0, 0, 1, 0, 0, 1, 253, 118, 101, 32, 0, 0, 0, 2, 0, 0, 2, 2, 119, 32, 108, 0, 0, 0, 1, 0, 0,
   2, 8, 119, 105, 100, 0, 0, 0, 1, 0, 0, 2, 13, 119, 111, 114, 0, 0, 0, 3, 0, 0, 2, 18, 121,
   101, 32, 0, 0, 0, 1, 0, 0, 2, 25]

/-- Bytes of the merged S2 index file, laid out region for region in the
order `Merge` writes them (checked below by the staging lemmas and glued by
`s2merge_eq`): magic, path region, name region, posting region, name index
with its sentinel entry, posting index, the five trailer offsets and the
trailer magic. -/
def s2merged : List Nat :=
  magicBytes ++ [47, 97, 0, 47, 98, 0, 47, 99, 0, 0] ++ s2nameRegion ++ s2postRegion ++
  (s2nameIndex0 ++ writeUint32 71) ++ s2postIndexRegion ++
  writeUint32 16 ++ writeUint32 26 ++ writeUint32 71 ++ writeUint32 613 ++ writeUint32 649 ++
  trailerMagicBytes

/-- Plain sorted merge of two path lists with the comparison used by the
merge loop (ties take the left list), written against the spec's "merge
sort of paths1 and paths2".  The fuel only bounds the recursion;
`length1 + length2` always suffices. -/
def mergeSortedAux : Nat → List (List Nat) → List (List Nat) → List (List Nat)
  | 0, _, _ => []
  | fuel + 1, l1, l2 =>
    match l1, l2 with
    | [], l2 => l2
    | l1, [] => l1
    | p1 :: ps1, p2 :: ps2 =>
      if ¬ lexLt p2 p1 then p1 :: mergeSortedAux fuel ps1 (p2 :: ps2)
      else p2 :: mergeSortedAux fuel (p1 :: ps1) ps2

/-- The sorted merge of two path lists. -/
def mergeSorted (l1 l2 : List (List Nat)) : List (List Nat) :=
  mergeSortedAux (l1.length + l2.length) l1 l2

/-- The subsumption filter over an already merged path list: a path is
dropped exactly when the previously kept path (`last`) is a prefix of it. -/
def dropSubsumed (last : List Nat) : List (List Nat) → List (List Nat)
  | [] => []
  | p :: ps => if last.isPrefixOf p then dropSubsumed last ps else p :: dropSubsumed p ps

/-- Sortedness of a path list under Go's bytewise `<=`. -/
def pathsSorted (l : List (List Nat)) : Prop := l.Chain' (fun a b => lexLt b a = false)

/-- The trigrams of a byte string: one 24-bit value for every window of
three consecutive bytes. -/
def specTrigrams (content : List Nat) : List Nat :=
  (List.range (content.length - 2)).map (fun i =>
    (content.getD i 0) <<< 16 ||| (content.getD (i + 1) 0) <<< 8 ||| content.getD (i + 2) 0)

/-- A byte string contains two adjacent bytes that form a prohibited UTF-8
transition. -/
def hasInvalidUTF8Pair (content : List Nat) : Prop :=
  ∃ i, i + 1 < content.length ∧ validUTF8 (content.getD i 0) (content.getD (i + 1) 0) = false

/-- A byte string contains a run of more than `maxLineLen` bytes without a
newline. -/
def hasOverlongLine (content : List Nat) : Prop :=
  ∃ i, i + (maxLineLen + 1) ≤ content.length ∧
    ∀ j, j < maxLineLen + 1 → content.getD (i + j) 0 ≠ 10

/-- Number of distinct trigrams of a byte string. -/
def distinctTrigramCount (content : List Nat) : Nat := (specTrigrams content).dedup.length

/-- A file content trips one of the text heuristics of `Writer.Add`:
an invalid UTF-8 byte pair, more than `maxFileLen` bytes, a run between
newlines longer than `maxLineLen` bytes, or more than `maxTextTrigrams`
distinct trigrams. -/
def tripsTextHeuristic (content : List Nat) : Prop :=
  hasInvalidUTF8Pair content ∨ content.length > maxFileLen ∨ hasOverlongLine content ∨
    distinctTrigramCount content > maxTextTrigrams

mutual

/-- Boolean trigram semantics of a `Query` at one file, with `P` giving each
trigram's posting list: `None` matches nothing, `All` everything, `And`
requires every trigram and sub-query, `Or` any of them. -/
def qMatches (P : Nat → List Nat) : Query → Nat → Bool
  | .qnone, _ => false
  | .qall, _ => true
  | .qand tris subs, x =>
    tris.all (fun t => (P (packTri t)).contains x) && qMatchesAll P subs x
  | .qor tris subs, x =>
    tris.any (fun t => (P (packTri t)).contains x) || qMatchesAny P subs x

/-- Conjunction of `qMatches` over a list of sub-queries. -/
def qMatchesAll (P : Nat → List Nat) : List Query → Nat → Bool
  | [], _ => true
  | s :: ss, x => qMatches P s x && qMatchesAll P ss x

/-- Disjunction of `qMatches` over a list of sub-queries. -/
def qMatchesAny (P : Nat → List Nat) : List Query → Nat → Bool
  | [], _ => false
  | s :: ss, x => qMatches P s x || qMatchesAny P ss x

end

mutual

/-- The list of packed trigrams a query consults. -/
def queryTris : Query → List Nat
  | .qnone => []
  | .qall => []
  | .qand tris subs => tris.map packTri ++ queryTrisList subs
  | .qor tris subs => tris.map packTri ++ queryTrisList subs

/-- The packed trigrams consulted by a list of sub-queries. -/
def queryTrisList : List Query → List Nat
  | [] => []
  | s :: ss => queryTris s ++ queryTrisList ss

end

mutual

/-- A query is non-degenerate: no `And` node carries neither trigrams nor
sub-queries.  (For such an empty conjunction `postingQuery` returns the nil
list, a case the specification's description does not determine.) -/
def queryOk : Query → Bool
  | .qnone => true
  | .qall => true
  | .qand tris subs => (!tris.isEmpty || !subs.isEmpty) && queryOkList subs
  | .qor _ subs => queryOkList subs

/-- `queryOk` over a list of sub-queries. -/
def queryOkList : List Query → Bool
  | [] => true
  | s :: ss => queryOk s && queryOkList ss

end

/-- The posting list of trigram `t` decodes, without a restrict set, to the
strictly increasing list `ids` of file IDs below `numName`.  This is the
well-formedness the evaluator claims assume of the index. -/
def goodTri (ix : Index) (t : Nat) (ids : List Nat) : Prop :=
  ix.postingListR t none = .ok ids ∧ ids.Chain' (· < ·) ∧
    ∀ x ∈ ids, x < ix.numName.toNat

/-- The set semantics the specification ascribes to `postingQuery`: the
restrict set (or the full ID range) filtered by the boolean trigram
formula. -/
def querySem (P : Nat → List Nat) (numName : Nat) (q : Query)
    (restrict : Option (List Nat)) : List Nat :=
  (restrict.getD (List.range numName)).filter (fun x => qMatches P q x)

/-- Pure counterpart of the loop of `Index.postingAnd`: two-pointer
intersection of `list` with the cursor's yielded sequence. -/
def interPure (list : List Nat) : List Nat → List Nat
  | [] => []
  | fid :: l =>
    let rest := list.dropWhile (· < fid)
    if rest.headD (fid + 1) = fid then fid :: interPure rest.tail l
    else interPure rest l

/-- Pure counterpart of the loop of `Index.postingOr`: three-way merge of
`list` with the cursor's yielded sequence. -/
def orPure (list : List Nat) : List Nat → List Nat
  | [] => list
  | fid :: l =>
    let rest := list.dropWhile (· < fid)
    list.takeWhile (· < fid) ++ [fid] ++
      (if rest.headD (fid + 1) = fid then orPure rest.tail l else orPure rest l)

/-- The `Index` structure `Open` yields for `s1data` (checked by the staging
lemma `s1open_eq`). -/
def s1ix : Index := ⟨s1data, 16, 17, 42, 246, 266, 4, 37⟩

/-- The `Index` structure `Open` yields for `s2data1` (checked by
`s2open1_eq`). -/
def s2ix1 : Index := ⟨s2data1, 16, 26, 61, 416, 444, 6, 67⟩

/-- The `Index` structure `Open` yields for `s2data2` (checked by
`s2open2_eq`). -/
def s2ix2 : Index := ⟨s2data2, 16, 24, 48, 402, 422, 4, 69⟩

/-- The `Index` structure `Open` yields for `s2merged` (checked by
`s2openM_eq`). -/
def s2ixM : Index := ⟨s2merged, 16, 26, 71, 613, 649, 8, 101⟩

/-- The docID maps of the S2 merge: preserved and claimed ranges of the two
sources (checked by `s2maps_eq`). -/
def s2map1 : List IdRange := [⟨0, 2, 0⟩, ⟨4, 6, 5⟩]

/-- The `src2` ranges of the S2 merge (checked by `s2maps_eq`). -/
def s2map2 : List IdRange := [⟨0, 3, 2⟩, ⟨3, 4, 7⟩]

/-- A structurally damaged index file: 20 zero bytes followed by the trailer
magic.  It is long enough to pass the length check and carries the right
magic, but its zeroed trailer offsets give `numName = -1`. -/
def c3bad : List Nat := List.replicate 20 0 ++ trailerMagicBytes

/-- An index whose posting-index region lies outside the mapped data
(`numPost = 1` over empty data), so the posting cursor's `init` fails. -/
def c10ix : Index := ⟨[], 0, 0, 0, 0, 0, 1, 1⟩

/-- The sequence of rolling-window values the byte scan of `Writer.Add`
offers to its trigram set, one per input byte (the first two windows are
incomplete and are skipped by the scan's `n1 >= 3` guard). -/
def scanTris (tv : Nat) : List Nat → List Nat
  | [] => []
  | c :: rest =>
    let tv1 := ((tv <<< 8) &&& (1 <<< 24 - 1)) ||| c
    tv1 :: scanTris tv1 rest

/-- The file-ID stream a posting cursor over trigram `t` yields under an
optional restrict set: the full decoded list `ids` without one, and the
restrict set's members of `ids` (in restrict order) with one. -/
def restrictStream (R : Option (List Nat)) (ids : List Nat) : List Nat :=
  match R with
  | none => ids
  | some rs => rs.filter (· ∈ ids)

/-- A concrete posting-list assignment for the S1 index used to instantiate
the query-evaluator correctness theorem: trigram "Goo" holds files 1, 2, 3
and every other trigram is empty. -/
def c9P (t : Nat) : List Nat := if t = triGoo then [1, 2, 3] else []

/-! ### Claims

Each claim of the specification is settled by one theorem below; the
`_eq` lemmas that precede them evaluate the concrete pipelines stage by
stage. -/

set_option maxRecDepth 10000

theorem postNextLoop_true_count_lt (fid : Nat) (d : Option (List Nat))
    (restrict : Option (List Nat)) (c : Nat) (st' : PostReaderState)
    (h : postNextLoop fid d restrict c = .ok (true, st')) : st'.count < c := by
  induction c generalizing fid d restrict with
  | zero =>
    simp only [postNextLoop] at h
    split at h
    · split at h <;> simp_all
    · simp_all
  | succ c ih =>
    simp only [postNextLoop] at h
    rcases huv : uvarint (d.getD []) with _ | ⟨delta64, n⟩ <;> rw [huv] at h
    · simp at h
    · simp only at h
      split at h
      · simp at h
      · rcases restrict with _ | rs
        · simp only [Except.ok.injEq, Prod.mk.injEq, true_and] at h
          subst h
          exact Nat.lt_succ_self c
        · simp only at h
          split at h
          · simp only [Except.ok.injEq, Prod.mk.injEq, true_and] at h
            subst h
            exact Nat.lt_succ_self c
          · have := ih _ _ _ h
            omega

theorem postNext_true_count_lt (st : PostReaderState) (st' : PostReaderState)
    (h : postNext st = .ok (true, st')) : st'.count < st.count :=
  postNextLoop_true_count_lt _ _ _ _ _ h

theorem except_bind_ok {α β : Type} (a : α) (f : α → Except IndexErr β) :
    (Except.ok a : Except IndexErr α).bind f = f a := rfl

theorem s1build_eq : buildIndex [] s1files = .ok s1data := by rfl

theorem s1open_eq : openIndex s1data = .ok s1ix := by rfl

theorem s1sea_eq : s1ix.PostingList triSea = .ok [1, 3] := by rfl

theorem s1goo_eq : s1ix.PostingList triGoo = .ok [1, 2, 3] := by rfl

theorem s1and_eq : s1ix.PostingAnd [1, 3] triGoo = .ok [1, 3] := by rfl

theorem s1or_eq : s1ix.PostingOr [1, 3] triGoo = .ok [1, 2, 3] := by rfl

theorem s1restrict2_eq : s1ix.postingListR triGoo (some [2]) = .ok [2] := by rfl

theorem s1restrict0_eq : s1ix.postingListR triGoo (some [0]) = .ok [] := by rfl

theorem s2build1_eq : buildIndex s2paths1 s2files1 = .ok s2data1 := by rfl

theorem s2build2_eq : buildIndex s2paths2 s2files2 = .ok s2data2 := by rfl

theorem s2open1_eq : openIndex s2data1 = .ok s2ix1 := by rfl

theorem s2open2_eq : openIndex s2data2 = .ok s2ix2 := by rfl

theorem s2paths1_eq : s2ix1.paths = .ok s2paths1 := by rfl

theorem s2paths2_eq : s2ix2.paths = .ok s2paths2 := by rfl

theorem s2maps_eq : mergeMaps s2ix1 s2ix2 s2paths2 = .ok (s2map1, s2map2, 8) := by rfl

theorem s2names_eq :
    mergeNamesLoop s2ix1 s2ix2 8 (s2map1.length + s2map2.length + 1) s2map1 s2map2 0 0 =
      .ok (s2nameRegion, s2nameIndex0) := by rfl

theorem s2post_eq :
    mergePostings s2ix1 s2ix2 s2map1 s2map2 = .ok (s2postRegion, s2postIndexRegion) := by rfl

theorem s2assemble_eq :
    assembleMerged ((mergedPaths s2paths1 s2paths2).flatMap (fun p => p ++ [0]) ++ [0])
      s2nameRegion s2nameIndex0 s2postRegion s2postIndexRegion = s2merged := by rfl

theorem s2merge_eq : mergeIndex s2data1 s2data2 = .ok s2merged := by
  simp only [mergeIndex, s2open1_eq, except_bind_ok, s2open2_eq, s2paths1_eq, s2paths2_eq,
    s2maps_eq, s2names_eq, s2post_eq, s2assemble_eq]

theorem s2openM_eq : openIndex s2merged = .ok s2ixM := by rfl

theorem s2namesM_eq :
    s2ixM.names = .ok [strBytes "/a/x", strBytes "/a/y", strBytes "/b/www", strBytes "/b/xx",
      strBytes "/b/yy", strBytes "/c/ab", strBytes "/c/de", strBytes "/cc"] := by rfl

theorem s2wor_eq : s2ixM.PostingList triWor = .ok [0, 1, 2] := by rfl

theorem s2now_eq : s2ixM.PostingList triNow = .ok [3, 4, 6] := by rfl

theorem s2pot_eq : s2ixM.PostingList triPot = .ok [4, 5, 7] := by rfl

theorem s2all_eq : s2ixM.PostingList triAll = .ok [5] := by rfl

/-- C6: over the S1 corpus (file0 = "", file1 = "Google Code Search",
file2 = "Google Code Project Hosting", file3 = "Google Web Search") the built
index answers postingList("Sea") = [1,3], postingList("Goo") = [1,2,3],
postingAnd([1,3], "Goo") = [1,3], postingOr([1,3], "Goo") = [1,2,3], and with
a restrict set postingList("Goo", [2]) = [2] and postingList("Goo", [0]) = []. -/
theorem s1_trivial_posting_results :
    buildIndex [] s1files = .ok s1data ∧
    openIndex s1data = .ok s1ix ∧
    s1ix.PostingList triSea = .ok [1, 3] ∧
    s1ix.PostingList triGoo = .ok [1, 2, 3] ∧
    s1ix.PostingAnd [1, 3] triGoo = .ok [1, 3] ∧
    s1ix.PostingOr [1, 3] triGoo = .ok [1, 2, 3] ∧
    s1ix.postingListR triGoo (some [2]) = .ok [2] ∧
    s1ix.postingListR triGoo (some [0]) = .ok [] :=
  ⟨s1build_eq, s1open_eq, s1sea_eq, s1goo_eq, s1and_eq, s1or_eq, s1restrict2_eq, s1restrict0_eq⟩

/-- C5: merging the two S2 indexes (src1 over /a, /b, /c and src2 over /b,
/cc, src2 shadowing src1's /b subtree) yields names, in order, /a/x, /a/y,
/b/www, /b/xx, /b/yy, /c/ab, /c/de, /cc, and remapped posting lists
"wor" → [0,1,2], "now" → [3,4,6], "pot" → [4,5,7], "all" → [5]. -/
theorem s2_merge_results :
    buildIndex s2paths1 s2files1 = .ok s2data1 ∧
    buildIndex s2paths2 s2files2 = .ok s2data2 ∧
    mergeIndex s2data1 s2data2 = .ok s2merged ∧
    openIndex s2merged = .ok s2ixM ∧
    s2ixM.names = .ok [strBytes "/a/x", strBytes "/a/y", strBytes "/b/www", strBytes "/b/xx",
      strBytes "/b/yy", strBytes "/c/ab", strBytes "/c/de", strBytes "/cc"] ∧
    s2ixM.PostingList triWor = .ok [0, 1, 2] ∧
    s2ixM.PostingList triNow = .ok [3, 4, 6] ∧
    s2ixM.PostingList triPot = .ok [4, 5, 7] ∧
    s2ixM.PostingList triAll = .ok [5] :=
  ⟨s2build1_eq, s2build2_eq, s2merge_eq, s2openM_eq, s2namesM_eq,
   s2wor_eq, s2now_eq, s2pot_eq, s2all_eq⟩

/-- C2: contrary to the specification, four steps of `Writer.Flush` — the
name-data copy, the posting merge, the name-index copy and the posting-index
copy — return `nil` instead of their error when they fail, so a failure of
any of them makes `Flush` report success. -/
theorem flush_swallows_copy_errors (e : IndexErr) :
    flushStepResult { flushStepsOk with copyNameData := some e } = none ∧
    flushStepResult { flushStepsOk with mergePost := some e } = none ∧
    flushStepResult { flushStepsOk with copyNameIndex := some e } = none ∧
    flushStepResult { flushStepsOk with copyPostIndex := some e } = none :=
  ⟨rfl, rfl, rfl, rfl⟩

theorem uint32Read_ok (d : List Nat) (off : Nat) (h : off + 4 ≤ d.length) :
    uint32Read d off = .ok (bigEndianUint32 ((d.drop off).take 4)) := by
  unfold uint32Read sliceD
  rw [if_pos (by norm_num), if_neg (by omega)]
  rfl

theorem uint32Read_err (d : List Nat) (off : Nat) (h : off + 4 > d.length) :
    uint32Read d off = .error .corrupt := by
  unfold uint32Read sliceD
  rw [if_pos (by norm_num), if_pos (by omega)]
  rfl

/-- C3 (amended): `Open` returns `CorruptIndex` exactly when the file is
shorter than the 36 bytes the trailer reads reach (the 16-byte trailer magic
plus the five 4-byte offsets before it) or the trailer magic is wrong; the
leading magic is never read, and the derived counts are never validated, so
a negative `numName` is not rejected (`open_negative_count_ok`). -/
theorem open_corrupt_iff (d : List Nat) (h : d.length < 2 ^ 32) :
    openIndex d = .error .corrupt ↔
      d.length < 36 ∨ d.drop (d.length - 16) ≠ trailerMagicBytes := by
  have hT : trailerMagicBytes.length = 16 := rfl
  unfold openIndex
  by_cases h1 : d.length < 4 * 4 + trailerMagicBytes.length
  · rw [if_pos h1]
    rw [hT] at h1
    simp [show d.length < 36 by omega]
  · rw [if_neg h1]
    rw [hT] at h1
    by_cases h2 : d.drop (d.length - trailerMagicBytes.length) ≠ trailerMagicBytes
    · rw [if_pos h2]
      rw [hT] at h2
      simp [h2]
    · rw [if_neg h2]
      rw [hT] at h2
      push_neg at h2
      by_cases h3 : d.length < 36
      · have hn : (((d.length : Int) - 16 - 20) % (2 ^ 32 : Int)).toNat =
            2 ^ 32 + d.length - 36 := by omega
        rw [hn]
        dsimp only
        rw [uint32Read_err d (2 ^ 32 + d.length - 36) (by omega)]
        simp [h3]
      · push_neg at h3
        have hn : (((d.length : Int) - 16 - 20) % (2 ^ 32 : Int)).toNat = d.length - 36 := by
          omega
        have e4 : (d.length - 36 + 4) % 2 ^ 32 = d.length - 32 := by omega
        have e8 : (d.length - 36 + 8) % 2 ^ 32 = d.length - 28 := by omega
        have e12 : (d.length - 36 + 12) % 2 ^ 32 = d.length - 24 := by omega
        have e16 : (d.length - 36 + 16) % 2 ^ 32 = d.length - 20 := by omega
        rw [hn]
        dsimp only
        simp only [e4, e8, e12, e16,
          uint32Read_ok d (d.length - 36) (by omega), uint32Read_ok d (d.length - 32) (by omega),
          uint32Read_ok d (d.length - 28) (by omega), uint32Read_ok d (d.length - 24) (by omega),
          uint32Read_ok d (d.length - 20) (by omega)]
        simp [h2, show ¬ d.length < 36 by omega]

/-- Counterexample to C3 as stated: a 36-byte file of zeros under a correct
trailer magic opens successfully although its derived name count is the
negative `-1`. -/
theorem open_negative_count_ok :
    openIndex c3bad = .ok ⟨c3bad, 0, 0, 0, 0, 0, -1, 0⟩ := by rfl

theorem open_corrupt_iff_witness :
    c3bad.length < 2 ^ 32 ∧
    (openIndex c3bad = .error .corrupt ↔
      c3bad.length < 36 ∨ c3bad.drop (c3bad.length - 16) ≠ trailerMagicBytes) :=
  ⟨by decide, open_corrupt_iff c3bad (by decide)⟩

theorem mergeSortedAux_nil_right (fuel : Nat) (l : List (List Nat)) (h : l.length ≤ fuel) :
    mergeSortedAux fuel l [] = l := by
  cases fuel with
  | zero =>
    cases l with
    | nil => rfl
    | cons a t => simp at h
  | succ n => cases l <;> rfl

theorem mergeSortedAux_nil_left (fuel : Nat) (l : List (List Nat)) (h : l.length ≤ fuel) :
    mergeSortedAux fuel [] l = l := by
  cases fuel with
  | zero =>
    cases l with
    | nil => rfl
    | cons a t => simp at h
  | succ n => cases l <;> rfl

theorem mergePathsLoop_eq : ∀ (fuel : Nat) (l1 l2 : List (List Nat)) (last : List Nat),
    l1.length + l2.length ≤ fuel →
    mergePathsLoop fuel l1 l2 last = dropSubsumed last (mergeSortedAux fuel l1 l2) := by
  intro fuel
  induction fuel with
  | zero => intro l1 l2 last h; rfl
  | succ fuel ih =>
    intro l1 l2 last h
    match l1, l2 with
    | [], [] => rfl
    | p :: ps, [] =>
      show (if List.isPrefixOf last p then mergePathsLoop fuel ps [] last
            else p :: mergePathsLoop fuel ps [] p) =
           dropSubsumed last (p :: ps)
      have hps : ps.length ≤ fuel := by simp at h; omega
      rw [ih ps [] last (by simpa using hps), ih ps [] p (by simpa using hps),
          mergeSortedAux_nil_right fuel ps hps]
      rfl
    | [], p :: ps =>
      show (if List.isPrefixOf last p then mergePathsLoop fuel [] ps last
            else p :: mergePathsLoop fuel [] ps p) =
           dropSubsumed last (p :: ps)
      have hps : ps.length ≤ fuel := by simp at h; omega
      rw [ih [] ps last (by simpa using hps), ih [] ps p (by simpa using hps),
          mergeSortedAux_nil_left fuel ps hps]
      rfl
    | p1 :: ps1, p2 :: ps2 =>
      have h1 : ps1.length + (p2 :: ps2).length ≤ fuel := by simp at h ⊢; omega
      have h2 : (p1 :: ps1).length + ps2.length ≤ fuel := by simp at h ⊢; omega
      show (if ¬ lexLt p2 p1 then
              if List.isPrefixOf last p1 then mergePathsLoop fuel ps1 (p2 :: ps2) last
              else p1 :: mergePathsLoop fuel ps1 (p2 :: ps2) p1
            else
              if List.isPrefixOf last p2 then mergePathsLoop fuel (p1 :: ps1) ps2 last
              else p2 :: mergePathsLoop fuel (p1 :: ps1) ps2 p2) =
           dropSubsumed last (mergeSortedAux (fuel + 1) (p1 :: ps1) (p2 :: ps2))
      by_cases hlt : ¬ lexLt p2 p1
      · rw [if_pos hlt, ih ps1 (p2 :: ps2) last h1, ih ps1 (p2 :: ps2) p1 h1]
        show _ = dropSubsumed last (if ¬ lexLt p2 p1 then p1 :: mergeSortedAux fuel ps1 (p2 :: ps2)
          else p2 :: mergeSortedAux fuel (p1 :: ps1) ps2)
        rw [if_pos hlt]
        rfl
      · rw [if_neg hlt, ih (p1 :: ps1) ps2 last h2, ih (p1 :: ps1) ps2 p2 h2]
        show _ = dropSubsumed last (if ¬ lexLt p2 p1 then p1 :: mergeSortedAux fuel ps1 (p2 :: ps2)
          else p2 :: mergeSortedAux fuel (p1 :: ps1) ps2)
        rw [if_neg hlt]
        rfl

/-- C4 (amended): the merged path list is the sorted merge of the two path
lists in which a path is dropped exactly when the previously kept path (the
one-byte string 0 before any is kept) is a prefix of it; `Merge` then writes
each kept path NUL-terminated and ends the region with one extra NUL. -/
theorem merged_paths_amended (l1 l2 : List (List Nat)) :
    mergedPaths l1 l2 = dropSubsumed [0] (mergeSorted l1 l2) :=
  mergePathsLoop_eq _ _ _ _ (Nat.le_refl _)

/-- Counterexample to C4 as stated: merging the sorted path list /a, /a/b
with an empty one drops /a/b - a path that is not a prefix of the previously
kept /a (the containment runs the other way). -/
theorem merged_paths_cx :
    mergedPaths [[47, 97], [47, 97, 98]] [] = [[47, 97]] ∧
    List.isPrefixOf [47, 97, 98] [47, 97] = false := ⟨rfl, rfl⟩

/-- C7: the posting cursor flags corruption: with entries pending, a
malformed varint or a zero delta is `CorruptIndex`; with no entry pending the
next byte must exist and be the zero terminator; and a posting list lacking
its terminal zero (here two deltas and then nothing) makes the collection
loop of `postingList` return `CorruptIndex`. -/
theorem post_next_detects_corruption :
    (∀ st : PostReaderState, st.count ≠ 0 → uvarint (st.d.getD []) = none →
      postNext st = .error .corrupt) ∧
    (∀ (st : PostReaderState) (delta n : Nat), st.count ≠ 0 →
      uvarint (st.d.getD []) = some (delta, n) → delta % 2 ^ 32 = 0 →
      postNext st = .error .corrupt) ∧
    (∀ (st : PostReaderState) (bs : List Nat), st.count = 0 → st.d = some bs →
      (postNext st = .error .corrupt ↔ bs.length = 0 ∨ bs.headD 0 ≠ 0)) ∧
    collectPost 3 ⟨2, 2 ^ 32 - 1, some [3, 5], none⟩ = .error .corrupt := by
  refine ⟨?_, ?_, ?_, by rfl⟩
  · intro st hc hu
    obtain ⟨c, hcc⟩ : ∃ c, st.count = c + 1 := ⟨st.count - 1, by omega⟩
    unfold postNext
    rw [hcc]
    simp [postNextLoop, hu]
  · intro st delta n hc hu hz
    obtain ⟨c, hcc⟩ : ∃ c, st.count = c + 1 := ⟨st.count - 1, by omega⟩
    have hz' : delta % 4294967296 = 0 := by omega
    unfold postNext
    rw [hcc]
    simp [postNextLoop, hu, hz']
  · intro st bs hc hd
    unfold postNext
    rw [hc, hd]
    show (if bs.length = 0 ∨ bs.headD 0 ≠ 0
            then (Except.error IndexErr.corrupt : Except IndexErr (Bool × PostReaderState))
            else .ok (false, ⟨0, 2 ^ 32 - 1, some bs, st.restrict⟩)) = .error .corrupt ↔
          bs.length = 0 ∨ bs.headD 0 ≠ 0
    by_cases hcond : bs.length = 0 ∨ bs.headD 0 ≠ 0
    · rw [if_pos hcond]
      simp only [List.length_eq_zero, List.headD_eq_head?_getD] at hcond
      simp [hcond]
    · rw [if_neg hcond]
      push_neg at hcond
      simp only [List.length_eq_zero, List.headD_eq_head?_getD] at hcond
      simp [hcond.1, hcond.2]

theorem postReaderInit_err_zero (ix : Index) (t : Nat) (r : Option (List Nat)) (e : IndexErr)
    (h : (postReaderInit ix t r).1 = some e) : (postReaderInit ix t r).2 = postReaderZero := by
  unfold postReaderInit at h ⊢
  rcases hf : ix.findList t with e1 | ce
  · rfl
  · obtain ⟨count, offset⟩ := ce
    rw [hf] at h
    by_cases hc : count = 0
    · simp [hc]
    · dsimp only at h ⊢
      rw [if_neg hc] at h ⊢
      rcases hs : sliceD ix.data ((ix.postData + offset + 3) % 2 ^ 32) (-1) with e2 | d
      · rfl
      · rw [hs] at h
        simp at h

/-- C10: when the posting cursor's `init` fails (its error is discarded and
the cursor keeps its zero value), `PostingAnd` returns the empty list with a
nil error and `PostingOr` returns the input list unchanged with a nil error,
instead of reporting the corruption. -/
theorem posting_and_or_swallow (ix : Index) (t : Nat) (list : List Nat) (e : IndexErr)
    (h : (postReaderInit ix t none).1 = some e) :
    ix.PostingAnd list t = .ok [] ∧ ix.PostingOr list t = .ok list := by
  have hz := postReaderInit_err_zero ix t none e h
  constructor
  · show Index.postingAnd ix list t none = .ok []
    unfold Index.postingAnd
    rw [hz]
    rfl
  · show Index.postingOr ix list t none = .ok list
    unfold Index.postingOr
    rw [hz]
    show postingOrLoop 1 postReaderZero list [] = .ok list
    simp [postingOrLoop, postNext, postReaderZero, postNextLoop]

theorem posting_and_or_swallow_witness :
    (postReaderInit c10ix 0 none).1 = some .corrupt ∧
    c10ix.PostingAnd [5] 0 = .ok [] ∧ c10ix.PostingOr [5] 0 = .ok [5] :=
  ⟨by rfl, posting_and_or_swallow c10ix 0 [5] .corrupt (by rfl)⟩


theorem orAdd (b a n : Nat) (h : a < 2 ^ n) : b * 2 ^ n ||| a = b * 2 ^ n + a := by
  rw [Nat.mul_comm b (2 ^ n)]
  apply Nat.eq_of_testBit_eq
  intro i
  rw [Nat.testBit_or, Nat.testBit_mul_pow_two, Nat.testBit_mul_pow_two_add _ h]
  by_cases hi : i < n
  · simp [hi, Nat.not_le_of_lt hi]
  · have hin : n ≤ i := Nat.le_of_not_lt hi
    have ha : a < 2 ^ i := lt_of_lt_of_le h (Nat.pow_le_pow_right (by norm_num) hin)
    simp [hi, hin, Nat.testBit_lt_two_pow ha]

theorem mod_or_shift (x k : Nat) : x % 2 ^ k ||| (x >>> k) <<< k = x := by
  rw [Nat.or_comm, Nat.shiftLeft_eq, Nat.shiftRight_eq_div_pow,
      orAdd (x / 2 ^ k) (x % 2 ^ k) k (Nat.mod_lt _ (Nat.pos_pow_of_pos k (by norm_num)))]
  exact Nat.div_add_mod' x (2 ^ k)

theorem or128_mod (x : Nat) : (x ||| 128) % 256 = x % 128 + 128 := by
  have h1 : (x ||| 128) % 256 = x % 256 ||| 128 % 256 := by
    apply Nat.eq_of_testBit_eq
    intro i
    simp only [show (256 : Nat) = 2 ^ 8 from rfl, Nat.testBit_mod_two_pow, Nat.testBit_or]
    by_cases hi : i < 8 <;> simp [hi]
  rw [h1]
  have h2 : ∀ r : Fin 256, ((r : Nat) ||| 128 % 256) = r % 128 + 128 := by decide
  have h3 := h2 ⟨x % 256, Nat.mod_lt _ (by norm_num)⟩
  simp only at h3
  rw [h3]
  omega

theorem and127_mod (x : Nat) : x &&& 127 = x % 128 := by
  have : (127 : Nat) = 2 ^ 7 - 1 := rfl
  rw [this, Nat.and_pow_two_sub_one_eq_mod]

theorem or_shiftLeft_distrib (a b n : Nat) : (a ||| b) <<< n = a <<< n ||| b <<< n := by
  apply Nat.eq_of_testBit_eq
  intro i
  simp [Nat.testBit_shiftLeft, Nat.testBit_or, Bool.and_or_distrib_left]

theorem uvarintAux_cont (x : Nat) (rest : List Nat) (i acc s : Nat) (hi : i < 10) :
    uvarintAux ((x % 128 + 128) :: rest) i acc s =
      uvarintAux rest (i + 1) (acc ||| (x % 128) <<< s) (s + 7) := by
  have hand : (x % 128 + 128) &&& 0x7f = x % 128 := by
    rw [and127_mod]
    omega
  show (if i = 10 then none
        else if x % 128 + 128 < 0x80 then
          if i = 9 ∧ x % 128 + 128 > 1 then none
          else some (acc ||| (x % 128 + 128) <<< s, i + 1)
        else uvarintAux rest (i + 1) (acc ||| ((x % 128 + 128) &&& 0x7f) <<< s) (s + 7)) =
      uvarintAux rest (i + 1) (acc ||| (x % 128) <<< s) (s + 7)
  rw [if_neg (by omega), if_neg (by omega), hand]

theorem uvarintAux_last (b : Nat) (rest : List Nat) (i acc s : Nat) (hi : i < 9)
    (hb : b < 128) :
    uvarintAux (b :: rest) i acc s = some (acc ||| b <<< s, i + 1) := by
  show (if i = 10 then none
        else if b < 0x80 then
          if i = 9 ∧ b > 1 then none
          else some (acc ||| b <<< s, i + 1)
        else uvarintAux rest (i + 1) (acc ||| (b &&& 0x7f) <<< s) (s + 7)) =
      some (acc ||| b <<< s, i + 1)
  rw [if_neg (by omega), if_pos (by omega), if_neg (by omega)]

theorem orAdd' (a b n : Nat) (h : a < 2 ^ n) : a ||| b * 2 ^ n = b * 2 ^ n + a := by
  rw [Nat.or_comm]
  exact orAdd b a n h

theorem digits2 (x : Nat) : x % 128 ||| (x >>> 7) <<< 7 = x := by
  have e1 : (x >>> 7) <<< 7 = x / 128 * 2 ^ 7 := by
    rw [Nat.shiftLeft_eq, Nat.shiftRight_eq_div_pow]
  rw [e1, orAdd' (x % 128) (x / 128) 7 (by omega)]
  omega

theorem digits3 (x : Nat) :
    x % 128 ||| ((x >>> 7) % 128) <<< 7 ||| (x >>> 14) <<< 14 = x := by
  have e1 : ((x >>> 7) % 128) <<< 7 = x / 128 % 128 * 2 ^ 7 := by
    rw [Nat.shiftLeft_eq, Nat.shiftRight_eq_div_pow]
  have e2 : (x >>> 14) <<< 14 = x / 16384 * 2 ^ 14 := by
    rw [Nat.shiftLeft_eq, Nat.shiftRight_eq_div_pow]
  rw [e1, e2, orAdd' (x % 128) (x / 128 % 128) 7 (by omega),
      orAdd' (x / 128 % 128 * 2 ^ 7 + x % 128) (x / 16384) 14 (by omega)]
  omega

theorem digits4 (x : Nat) :
    x % 128 ||| ((x >>> 7) % 128) <<< 7 ||| ((x >>> 14) % 128) <<< 14 |||
      (x >>> 21) <<< 21 = x := by
  have e1 : ((x >>> 7) % 128) <<< 7 = x / 128 % 128 * 2 ^ 7 := by
    rw [Nat.shiftLeft_eq, Nat.shiftRight_eq_div_pow]
  have e2 : ((x >>> 14) % 128) <<< 14 = x / 16384 % 128 * 2 ^ 14 := by
    rw [Nat.shiftLeft_eq, Nat.shiftRight_eq_div_pow]
  have e3 : (x >>> 21) <<< 21 = x / 2097152 * 2 ^ 21 := by
    rw [Nat.shiftLeft_eq, Nat.shiftRight_eq_div_pow]
  rw [e1, e2, e3, orAdd' (x % 128) (x / 128 % 128) 7 (by omega),
      orAdd' (x / 128 % 128 * 2 ^ 7 + x % 128) (x / 16384 % 128) 14 (by omega),
      orAdd' (x / 16384 % 128 * 2 ^ 14 + (x / 128 % 128 * 2 ^ 7 + x % 128)) (x / 2097152) 21
        (by omega)]
  omega

theorem digits5 (x : Nat) :
    x % 128 ||| ((x >>> 7) % 128) <<< 7 ||| ((x >>> 14) % 128) <<< 14 |||
      ((x >>> 21) % 128) <<< 21 ||| (x >>> 28) <<< 28 = x := by
  have e1 : ((x >>> 7) % 128) <<< 7 = x / 128 % 128 * 2 ^ 7 := by
    rw [Nat.shiftLeft_eq, Nat.shiftRight_eq_div_pow]
  have e2 : ((x >>> 14) % 128) <<< 14 = x / 16384 % 128 * 2 ^ 14 := by
    rw [Nat.shiftLeft_eq, Nat.shiftRight_eq_div_pow]
  have e3 : ((x >>> 21) % 128) <<< 21 = x / 2097152 % 128 * 2 ^ 21 := by
    rw [Nat.shiftLeft_eq, Nat.shiftRight_eq_div_pow]
  have e4 : (x >>> 28) <<< 28 = x / 268435456 * 2 ^ 28 := by
    rw [Nat.shiftLeft_eq, Nat.shiftRight_eq_div_pow]
  rw [e1, e2, e3, e4, orAdd' (x % 128) (x / 128 % 128) 7 (by omega),
      orAdd' (x / 128 % 128 * 2 ^ 7 + x % 128) (x / 16384 % 128) 14 (by omega),
      orAdd' (x / 16384 % 128 * 2 ^ 14 + (x / 128 % 128 * 2 ^ 7 + x % 128)) (x / 2097152 % 128)
        21 (by omega),
      orAdd' (x / 2097152 % 128 * 2 ^ 21 +
          (x / 16384 % 128 * 2 ^ 14 + (x / 128 % 128 * 2 ^ 7 + x % 128)))
        (x / 268435456) 28 (by omega)]
  omega

theorem uvarint_writeUvarint (x : Nat) (hx : x < 2 ^ 32) (rest : List Nat) :
    uvarint (writeUvarint x ++ rest) = some (x, (writeUvarint x).length) := by
  unfold uvarint writeUvarint
  by_cases h1 : x < 128
  · rw [if_pos (show x < 1 <<< 7 from h1)]
    show uvarintAux (byteOf x :: rest) 0 0 0 = some (x, 1)
    rw [show byteOf x = x from Nat.mod_eq_of_lt (by omega)]
    rw [uvarintAux_last x rest 0 0 0 (by omega) h1]
    simp
  · rw [if_neg (show ¬ x < 1 <<< 7 from h1)]
    by_cases h2 : x < 16384
    · rw [if_pos (show x < 1 <<< 14 from h2)]
      show uvarintAux (byteOf (x ||| 0x80) :: byteOf (x >>> 7) :: rest) 0 0 0 = some (x, 2)
      rw [show byteOf (x ||| 0x80) = x % 128 + 128 from or128_mod x]
      rw [show byteOf (x >>> 7) = x >>> 7 from
        Nat.mod_eq_of_lt (by rw [Nat.shiftRight_eq_div_pow]; omega)]
      rw [uvarintAux_cont x _ 0 0 0 (by omega)]
      rw [uvarintAux_last _ rest 1 _ 7 (by omega)
        (by rw [Nat.shiftRight_eq_div_pow]; omega)]
      rw [Nat.zero_or, Nat.shiftLeft_zero, digits2]
    · rw [if_neg (show ¬ x < 1 <<< 14 from h2)]
      by_cases h3 : x < 2097152
      · rw [if_pos (show x < 1 <<< 21 from h3)]
        show uvarintAux
          (byteOf (x ||| 0x80) :: byteOf ((x >>> 7) ||| 0x80) :: byteOf (x >>> 14) :: rest)
          0 0 0 = some (x, 3)
        rw [show byteOf (x ||| 0x80) = x % 128 + 128 from or128_mod x]
        rw [show byteOf ((x >>> 7) ||| 0x80) = (x >>> 7) % 128 + 128 from or128_mod _]
        rw [show byteOf (x >>> 14) = x >>> 14 from
          Nat.mod_eq_of_lt (by rw [Nat.shiftRight_eq_div_pow]; omega)]
        rw [uvarintAux_cont x _ 0 0 0 (by omega)]
        rw [uvarintAux_cont (x >>> 7) _ 1 _ 7 (by omega)]
        rw [uvarintAux_last _ rest 2 _ 14 (by omega)
          (by rw [Nat.shiftRight_eq_div_pow]; omega)]
        rw [Nat.zero_or, Nat.shiftLeft_zero, digits3]
      · rw [if_neg (show ¬ x < 1 <<< 21 from h3)]
        by_cases h4 : x < 268435456
        · rw [if_pos (show x < 1 <<< 28 from h4)]
          show uvarintAux
            (byteOf (x ||| 0x80) :: byteOf ((x >>> 7) ||| 0x80) ::
              byteOf ((x >>> 14) ||| 0x80) :: byteOf (x >>> 21) :: rest) 0 0 0 = some (x, 4)
          rw [show byteOf (x ||| 0x80) = x % 128 + 128 from or128_mod x]
          rw [show byteOf ((x >>> 7) ||| 0x80) = (x >>> 7) % 128 + 128 from or128_mod _]
          rw [show byteOf ((x >>> 14) ||| 0x80) = (x >>> 14) % 128 + 128 from or128_mod _]
          rw [show byteOf (x >>> 21) = x >>> 21 from
            Nat.mod_eq_of_lt (by rw [Nat.shiftRight_eq_div_pow]; omega)]
          rw [uvarintAux_cont x _ 0 0 0 (by omega)]
          rw [uvarintAux_cont (x >>> 7) _ 1 _ 7 (by omega)]
          rw [uvarintAux_cont (x >>> 14) _ 2 _ 14 (by omega)]
          rw [uvarintAux_last _ rest 3 _ 21 (by omega)
            (by rw [Nat.shiftRight_eq_div_pow]; omega)]
          rw [Nat.zero_or, Nat.shiftLeft_zero, digits4]
        · rw [if_neg (show ¬ x < 1 <<< 28 from h4)]
          show uvarintAux
            (byteOf (x ||| 0x80) :: byteOf ((x >>> 7) ||| 0x80) ::
              byteOf ((x >>> 14) ||| 0x80) :: byteOf ((x >>> 21) ||| 0x80) ::
              byteOf (x >>> 28) :: rest) 0 0 0 = some (x, 5)
          rw [show byteOf (x ||| 0x80) = x % 128 + 128 from or128_mod x]
          rw [show byteOf ((x >>> 7) ||| 0x80) = (x >>> 7) % 128 + 128 from or128_mod _]
          rw [show byteOf ((x >>> 14) ||| 0x80) = (x >>> 14) % 128 + 128 from or128_mod _]
          rw [show byteOf ((x >>> 21) ||| 0x80) = (x >>> 21) % 128 + 128 from or128_mod _]
          rw [show byteOf (x >>> 28) = x >>> 28 from
            Nat.mod_eq_of_lt (by rw [Nat.shiftRight_eq_div_pow]; omega)]
          rw [uvarintAux_cont x _ 0 0 0 (by omega)]
          rw [uvarintAux_cont (x >>> 7) _ 1 _ 7 (by omega)]
          rw [uvarintAux_cont (x >>> 14) _ 2 _ 14 (by omega)]
          rw [uvarintAux_cont (x >>> 21) _ 3 _ 21 (by omega)]
          rw [uvarintAux_last _ rest 4 _ 28 (by omega)
            (by rw [Nat.shiftRight_eq_div_pow]; omega)]
          rw [Nat.zero_or, Nat.shiftLeft_zero, digits5]

theorem sub32_lt (a b : Nat) : sub32 a b < 2 ^ 32 := by
  unfold sub32
  omega

theorem sub32_ne_zero (a b : Nat) (ha : a < 2 ^ 32) (hb : b < 2 ^ 32) (hne : a ≠ b) :
    sub32 a b ≠ 0 := by
  unfold sub32
  omega

theorem add_sub32 (a b : Nat) (ha : a < 2 ^ 32) (hb : b < 2 ^ 32) :
    (b + sub32 a b) % 2 ^ 32 = a := by
  unfold sub32
  omega

theorem postNext_yield (c prev δ : Nat) (tail : List Nat) (hδlt : δ < 2 ^ 32) (hδ0 : δ ≠ 0) :
    postNext ⟨c + 1, prev, some (writeUvarint δ ++ tail), none⟩ =
      .ok (true, ⟨c, (prev + δ) % 2 ^ 32, some tail, none⟩) := by
  show postNextLoop prev (some (writeUvarint δ ++ tail)) none (c + 1) = _
  simp only [postNextLoop, Option.getD_some]
  rw [uvarint_writeUvarint δ hδlt tail]
  simp only [Nat.mod_eq_of_lt hδlt]
  rw [if_neg hδ0]
  simp only [List.drop_left]

theorem collectPost_deltaEncode : ∀ (ids : List Nat) (prev : Nat), prev < 2 ^ 32 →
    (∀ x ∈ ids, x < 2 ^ 32) → List.Chain (· ≠ ·) prev ids →
    collectPost (ids.length + 1)
      ⟨ids.length, prev, some (deltaEncode prev ids ++ writeUvarint 0), none⟩ = .ok ids := by
  intro ids
  induction ids with
  | nil =>
    intro prev hp hlt hch
    rfl
  | cons id rest ih =>
    intro prev hp hlt hch
    have hid : id < 2 ^ 32 := hlt id (by simp)
    have hne : id ≠ prev := fun h => (List.chain_cons.mp hch).1 h.symm
    have hδlt : sub32 id prev < 2 ^ 32 := sub32_lt id prev
    have hδ0 : sub32 id prev ≠ 0 := sub32_ne_zero id prev hid hp hne
    show collectPost (rest.length + 1 + 1)
        ⟨rest.length + 1, prev,
          some ((writeUvarint (sub32 id prev) ++ deltaEncode id rest) ++ writeUvarint 0),
          none⟩ = .ok (id :: rest)
    rw [List.append_assoc]
    rw [collectPost]
    rw [postNext_yield rest.length prev (sub32 id prev) _ hδlt hδ0]
    dsimp only
    rw [add_sub32 id prev hid hp]
    rw [ih id hid (fun x hx => hlt x (by simp [hx])) (List.chain_cons.mp hch).2]

theorem sub32_sentinel (id : Nat) (h : id < 2 ^ 32 - 1) : sub32 id (2 ^ 32 - 1) = id + 1 := by
  unfold sub32
  omega

/-- C1: the posting-list delta coding round-trips: for a strictly increasing
fileID sequence the writer emits the three trigram bytes, then varint deltas
seeded with previous fileID `0xFFFFFFFF` - so the first stored delta is
`first_fileID + 1` - and the zero terminator, and the reader's cursor, seeded
with the same `0xFFFFFFFF`, decodes exactly the original sequence. -/
theorem posting_delta_roundtrip (t : Nat) (ids : List Nat) (h1 : List.Chain' (· < ·) ids)
    (h2 : ∀ x ∈ ids, x < 2 ^ 32 - 1) :
    (∀ id rest, ids = id :: rest →
      writeTrigram t ++ deltaEncode (2 ^ 32 - 1) ids ++ writeUvarint 0 =
        writeTrigram t ++ writeUvarint (id + 1) ++ (deltaEncode id rest ++ writeUvarint 0)) ∧
    collectPost (ids.length + 1)
      ⟨ids.length, 2 ^ 32 - 1, some (deltaEncode (2 ^ 32 - 1) ids ++ writeUvarint 0), none⟩ =
      .ok ids := by
  constructor
  · intro id rest hids
    subst hids
    show writeTrigram t ++
        (writeUvarint (sub32 id (2 ^ 32 - 1)) ++ deltaEncode id rest) ++ writeUvarint 0 = _
    rw [sub32_sentinel id (h2 id (by simp))]
    simp [List.append_assoc]
  · have hch : List.Chain (· ≠ ·) (2 ^ 32 - 1) ids := by
      cases ids with
      | nil => exact List.Chain.nil
      | cons id rest =>
        refine List.chain_cons.mpr ⟨?_, ?_⟩
        · have := h2 id (by simp)
          omega
        · exact List.Chain.imp (fun a b h => Nat.ne_of_lt h) h1
    exact collectPost_deltaEncode ids (2 ^ 32 - 1) (by omega)
      (fun x hx => by have := h2 x hx; omega) hch

theorem posting_delta_roundtrip_witness :
    List.Chain' (· < ·) [2, 7] ∧
    (∀ x ∈ ([2, 7] : List Nat), x < 2 ^ 32 - 1) ∧
    ((∀ id rest, ([2, 7] : List Nat) = id :: rest →
        writeTrigram 0 ++ deltaEncode (2 ^ 32 - 1) [2, 7] ++ writeUvarint 0 =
          writeTrigram 0 ++ writeUvarint (id + 1) ++ (deltaEncode id rest ++ writeUvarint 0)) ∧
      collectPost (([2, 7] : List Nat).length + 1)
        ⟨([2, 7] : List Nat).length, 2 ^ 32 - 1,
          some (deltaEncode (2 ^ 32 - 1) [2, 7] ++ writeUvarint 0), none⟩ = .ok [2, 7]) :=
  ⟨List.Chain.cons (by norm_num) List.Chain.nil, by decide,
   posting_delta_roundtrip 0 [2, 7] (List.Chain.cons (by norm_num) List.Chain.nil) (by decide)⟩

theorem tvStep (tv c : Nat) (hc : c < 256) :
    ((tv <<< 8) &&& (1 <<< 24 - 1)) ||| c = tv % 65536 * 256 + c := by
  have e1 : (tv <<< 8) &&& (1 <<< 24 - 1) = tv % 65536 * 256 := by
    rw [Nat.shiftLeft_eq, show ((1 <<< 24 - 1 : Nat)) = 2 ^ 24 - 1 from rfl,
        Nat.and_pow_two_sub_one_eq_mod,
        show (2 ^ 8 : Nat) = 256 from rfl,
        show (2 ^ 24 : Nat) = 65536 * 256 from rfl, Nat.mul_mod_mul_right]
  rw [e1, show tv % 65536 * 256 = tv % 65536 * 2 ^ 8 from rfl, orAdd _ _ _ (show c < 2 ^ 8 from hc)]

theorem and255 (x : Nat) : x &&& 0xFF = x % 256 := by
  rw [show (0xFF : Nat) = 2 ^ 8 - 1 from rfl, Nat.and_pow_two_sub_one_eq_mod]

theorem shr8 (x : Nat) : x >>> 8 = x / 256 := by
  rw [Nat.shiftRight_eq_div_pow]

theorem addLoop_cons (c : Nat) (rest : List Nat) (tv n lineLen : Nat) (set : List Nat)
    (hc : c < 256) :
    addLoop (c :: rest) tv n lineLen set =
      if ¬ validUTF8 (tv % 256) c then none
      else if n + 1 > maxFileLen then none
      else if lineLen + 1 > maxLineLen then none
      else addLoop rest (tv % 65536 * 256 + c) (n + 1) (if c = 10 then 0 else lineLen + 1)
        (if n + 1 ≥ 3 then triSetAdd set (tv % 65536 * 256 + c) else set) := by
  have hp1 : ((tv % 65536 * 256 + c) >>> 8) &&& 0xFF = tv % 256 := by
    rw [shr8, and255]
    omega
  have hp2 : (tv % 65536 * 256 + c) &&& 0xFF = c := by
    rw [and255]
    omega
  show (let tv1 := ((tv <<< 8) &&& (1 <<< 24 - 1)) ||| c
        let n1 := n + 1
        let set1 := if n1 ≥ 3 then triSetAdd set tv1 else set
        if ¬ validUTF8 ((tv1 >>> 8) &&& 0xFF) (tv1 &&& 0xFF) then none
        else if n1 > maxFileLen then none
        else if lineLen + 1 > maxLineLen then none
        else addLoop rest tv1 n1 (if c = 10 then 0 else lineLen + 1) set1) = _
  rw [tvStep tv c hc]
  dsimp only
  rw [hp1, hp2]

theorem scanTris_cons (c : Nat) (rest : List Nat) (tv : Nat) (hc : c < 256) :
    scanTris tv (c :: rest) =
      (tv % 65536 * 256 + c) :: scanTris (tv % 65536 * 256 + c) rest := by
  show (((tv <<< 8) &&& (1 <<< 24 - 1)) ||| c) ::
      scanTris (((tv <<< 8) &&& (1 <<< 24 - 1)) ||| c) rest = _
  rw [tvStep tv c hc]

theorem addLoop_none_of_invalid : ∀ (content : List Nat) (tv n lineLen : Nat) (set : List Nat),
    (∀ b ∈ content, b < 256) →
    ((∃ i, i + 1 < content.length ∧
        validUTF8 (content.getD i 0) (content.getD (i + 1) 0) = false) ∨
      (content ≠ [] ∧ validUTF8 (tv % 256) (content.getD 0 0) = false)) →
    addLoop content tv n lineLen set = none := by
  intro content
  induction content with
  | nil =>
    intro tv n lineLen set hb h
    rcases h with ⟨i, hi, _⟩ | ⟨hne, _⟩
    · simp at hi
    · exact absurd rfl hne
  | cons c rest ih =>
    intro tv n lineLen set hb h
    have hc : c < 256 := hb c (by simp)
    rw [addLoop_cons c rest tv n lineLen set hc]
    by_cases hV : validUTF8 (tv % 256) c = false
    · rw [if_pos (by simp [hV])]
    · rw [if_neg (by simpa using hV)]
      by_cases hS : n + 1 > maxFileLen
      · rw [if_pos hS]
      · rw [if_neg hS]
        by_cases hL : lineLen + 1 > maxLineLen
        · rw [if_pos hL]
        · rw [if_neg hL]
          apply ih _ _ _ _ (fun b hbm => hb b (by simp [hbm]))
          rcases h with ⟨i, hi, hval⟩ | ⟨_, hval⟩
          · match i, hi, hval with
            | 0, hi, hval =>
              right
              refine ⟨?_, ?_⟩
              · simp at hi
                exact List.ne_nil_of_length_pos (by omega)
              · have : (tv % 65536 * 256 + c) % 256 = c := by omega
                rw [this]
                simpa using hval
            | j + 1, hi, hval =>
              left
              exact ⟨j, by simpa using hi, by simpa using hval⟩
          · exact absurd (by simpa using hval) hV

theorem addLoop_none_of_long : ∀ (content : List Nat) (tv n lineLen : Nat) (set : List Nat),
    (∀ b ∈ content, b < 256) → content ≠ [] → content.length + n > maxFileLen →
    addLoop content tv n lineLen set = none := by
  intro content
  induction content with
  | nil => intro _ _ _ _ _ hne _; exact absurd rfl hne
  | cons c rest ih =>
    intro tv n lineLen set hb _ hlen
    have hc : c < 256 := hb c (by simp)
    rw [addLoop_cons c rest tv n lineLen set hc]
    by_cases hV : ¬ validUTF8 (tv % 256) c
    · rw [if_pos hV]
    · rw [if_neg hV]
      by_cases hS : n + 1 > maxFileLen
      · rw [if_pos hS]
      · rw [if_neg hS]
        by_cases hL : lineLen + 1 > maxLineLen
        · rw [if_pos hL]
        · rw [if_neg hL]
          cases rest with
          | nil =>
            simp at hlen
            omega
          | cons c2 rest2 =>
            apply ih _ _ _ _ (fun b hbm => hb b (by simp [hbm])) (by simp)
            simp at hlen ⊢
            omega

theorem addLoop_none_of_run : ∀ (content : List Nat) (tv n lineLen : Nat) (set : List Nat),
    (∀ b ∈ content, b < 256) → 1 ≤ content.length →
    maxLineLen + 1 - lineLen ≤ content.length →
    (∀ j, j < maxLineLen + 1 - lineLen → content.getD j 0 ≠ 10) →
    addLoop content tv n lineLen set = none := by
  intro content
  induction content with
  | nil => intro _ _ _ _ _ h1 _ _; simp at h1
  | cons c rest ih =>
    intro tv n lineLen set hb _ hbound hrun
    have hc : c < 256 := hb c (by simp)
    rw [addLoop_cons c rest tv n lineLen set hc]
    by_cases hV : ¬ validUTF8 (tv % 256) c
    · rw [if_pos hV]
    · rw [if_neg hV]
      by_cases hS : n + 1 > maxFileLen
      · rw [if_pos hS]
      · rw [if_neg hS]
        by_cases hL : lineLen + 1 > maxLineLen
        · rw [if_pos hL]
        · rw [if_neg hL]
          have hnl : maxLineLen = 2000 := rfl
          have hc10 : c ≠ 10 := by
            have := hrun 0 (by omega)
            simpa using this
          rw [if_neg hc10]
          have hrlen : 1 ≤ rest.length := by
            simp at hbound
            omega
          apply ih _ _ _ _ (fun b hbm => hb b (by simp [hbm])) hrlen
          · simp at hbound ⊢
            omega
          · intro j hj
            have := hrun (j + 1) (by omega)
            simpa using this

theorem addLoop_none_of_overlong : ∀ (pre suf : List Nat) (tv n lineLen : Nat) (set : List Nat),
    (∀ b ∈ pre ++ suf, b < 256) → maxLineLen + 1 ≤ suf.length →
    (∀ j, j < maxLineLen + 1 → suf.getD j 0 ≠ 10) →
    addLoop (pre ++ suf) tv n lineLen set = none := by
  intro pre
  induction pre with
  | nil =>
    intro suf tv n lineLen set hb hlen hrun
    apply addLoop_none_of_run suf tv n lineLen set (by simpa using hb) (by omega) (by omega)
    intro j hj
    exact hrun j (by omega)
  | cons c pre' ih =>
    intro suf tv n lineLen set hb hlen hrun
    have hc : c < 256 := hb c (by simp)
    rw [List.cons_append, addLoop_cons c (pre' ++ suf) tv n lineLen set hc]
    by_cases hV : ¬ validUTF8 (tv % 256) c
    · rw [if_pos hV]
    · rw [if_neg hV]
      by_cases hS : n + 1 > maxFileLen
      · rw [if_pos hS]
      · rw [if_neg hS]
        by_cases hL : lineLen + 1 > maxLineLen
        · rw [if_pos hL]
        · rw [if_neg hL]
          exact ih suf _ _ _ _ (fun b hbm => hb b (by simp at hbm ⊢; tauto)) hlen hrun

theorem addLoop_some_set : ∀ (content : List Nat) (tv n lineLen : Nat) (set out : List Nat),
    (∀ b ∈ content, b < 256) →
    addLoop content tv n lineLen set = some out →
    out = ((scanTris tv content).drop (2 - n)).foldl triSetAdd set := by
  intro content
  induction content with
  | nil =>
    intro tv n lineLen set out _ h
    cases h
    simp [scanTris]
  | cons c rest ih =>
    intro tv n lineLen set out hb h
    have hc : c < 256 := hb c (by simp)
    rw [addLoop_cons c rest tv n lineLen set hc] at h
    by_cases hV : ¬ validUTF8 (tv % 256) c
    · rw [if_pos hV] at h
      cases h
    · rw [if_neg hV] at h
      by_cases hS : n + 1 > maxFileLen
      · rw [if_pos hS] at h
        cases h
      · rw [if_neg hS] at h
        by_cases hL : lineLen + 1 > maxLineLen
        · rw [if_pos hL] at h
          cases h
        · rw [if_neg hL] at h
          have := ih _ _ _ _ _ (fun b hbm => hb b (by simp [hbm])) h
          rw [scanTris_cons c rest tv hc]
          match n, this with
          | 0, this =>
            simpa using this
          | 1, this =>
            simp only [show (2 : Nat) - 1 = 1 from rfl, List.drop_succ_cons, List.drop_zero]
            simpa [show ¬ (1 + 1 ≥ 3) from by omega] using this
          | m + 2, this =>
            simp only [Nat.sub_self, show (2 : Nat) - (m + 2) = 0 from by omega,
              List.drop_zero, List.foldl_cons] at this ⊢
            simpa [show m + 2 + 1 ≥ 3 from by omega, show (2 : Nat) - (m + 2 + 1) = 0 from by
              omega] using this

theorem specTrigrams_cons (a : Nat) (l : List Nat) (h : 2 ≤ l.length) :
    specTrigrams (a :: l) =
      ((a <<< 16) ||| ((l.getD 0 0) <<< 8) ||| l.getD 1 0) :: specTrigrams l := by
  unfold specTrigrams
  have hlen : (a :: l).length - 2 = (l.length - 2) + 1 := by
    simp
    omega
  rw [hlen, List.range_succ_eq_map, List.map_cons, List.map_map]
  congr 1

theorem scanTris_spec : ∀ (rest : List Nat) (a b tv : Nat), a < 256 → b < 256 →
    (∀ x ∈ rest, x < 256) → tv % 65536 = a * 256 + b →
    scanTris tv rest = specTrigrams (a :: b :: rest) := by
  intro rest
  induction rest with
  | nil =>
    intro a b tv _ _ _ _
    show [] = specTrigrams [a, b]
    unfold specTrigrams
    simp
  | cons c rest' ih =>
    intro a b tv ha hb hlt htv
    have hc : c < 256 := hlt c (by simp)
    rw [scanTris_cons c rest' tv hc, htv]
    rw [specTrigrams_cons a (b :: c :: rest') (by simp)]
    have hhead : (a <<< 16) ||| (((b :: c :: rest').getD 0 0) <<< 8) |||
        (b :: c :: rest').getD 1 0 = (a * 256 + b) * 256 + c := by
      show (a <<< 16) ||| (b <<< 8) ||| c = _
      rw [Nat.shiftLeft_eq, Nat.shiftLeft_eq, orAdd a (b * 2 ^ 8) 16 (by omega),
          show a * 2 ^ 16 + b * 2 ^ 8 = (a * 256 + b) * 2 ^ 8 from by ring,
          orAdd (a * 256 + b) c 8 hc]
      norm_num
    rw [hhead]
    congr 1
    exact ih b c ((a * 256 + b) * 256 + c) hb hc (fun x hx => hlt x (by simp [hx]))
      (by omega)

theorem triSetAdd_nodup (set : List Nat) (t : Nat) (h : set.Nodup) : (triSetAdd set t).Nodup := by
  unfold triSetAdd
  by_cases ht : t ∈ set
  · rw [if_pos ht]
    exact h
  · rw [if_neg ht]
    simp [List.nodup_append, h, ht]

theorem triSetAdd_mem (set : List Nat) (t x : Nat) :
    x ∈ triSetAdd set t ↔ x ∈ set ∨ x = t := by
  unfold triSetAdd
  by_cases ht : t ∈ set
  · rw [if_pos ht]
    constructor
    · exact Or.inl
    · rintro (h | rfl)
      · exact h
      · exact ht
  · rw [if_neg ht]
    simp

theorem foldl_triSetAdd_nodup : ∀ (l set : List Nat), set.Nodup →
    (l.foldl triSetAdd set).Nodup := by
  intro l
  induction l with
  | nil => intro set h; exact h
  | cons t l ih =>
    intro set h
    exact ih _ (triSetAdd_nodup set t h)

theorem foldl_triSetAdd_mem : ∀ (l set : List Nat) (x : Nat),
    x ∈ l.foldl triSetAdd set ↔ x ∈ set ∨ x ∈ l := by
  intro l
  induction l with
  | nil => intro set x; simp
  | cons t l ih =>
    intro set x
    rw [List.foldl_cons, ih, triSetAdd_mem]
    simp
    tauto

theorem foldl_triSetAdd_length (l : List Nat) :
    (l.foldl triSetAdd []).length = l.dedup.length := by
  have hnd : (l.foldl triSetAdd []).Nodup := foldl_triSetAdd_nodup l [] (by simp)
  have hfin : (l.foldl triSetAdd []).toFinset = l.toFinset := by
    ext x
    simp [List.mem_toFinset, foldl_triSetAdd_mem]
  rw [← List.toFinset_card_of_nodup hnd, hfin, List.card_toFinset]

/-- C8: a file whose content trips a text heuristic - an adjacent byte pair
the UTF-8 pair table rejects, more than 2^30 bytes, a run between newlines
longer than 2000 bytes, or more than 20000 distinct trigrams - is silently
skipped: `Writer.Add` returns without error and the writer state is
unchanged, so no file ID, name or posting entry is recorded. -/
theorem writer_add_skips (st : WriterState) (name content : List Nat)
    (hb : ∀ b ∈ content, b < 256) (h : tripsTextHeuristic content) :
    writerAdd st name content = .ok st := by
  unfold writerAdd
  rcases h with hU | hF | hO | hT
  · rw [addLoop_none_of_invalid content 0 0 0 [] hb (Or.inl hU)]
  · rw [addLoop_none_of_long content 0 0 0 [] hb
      (List.ne_nil_of_length_pos (by unfold maxFileLen at hF; omega)) (by omega)]
  · obtain ⟨i, hi1, hi2⟩ := hO
    rw [show content = content.take i ++ content.drop i from
      (List.take_append_drop i content).symm]
    rw [addLoop_none_of_overlong (content.take i) (content.drop i) 0 0 0 []
      (by rw [List.take_append_drop]; exact hb)
      (by simp; omega)
      (fun j hj => by
        have hidx : (content.drop i).getD j 0 = content.getD (i + j) 0 := by
          simp [List.getD_eq_getElem?_getD, List.getElem?_drop]
        rw [hidx]
        exact hi2 j hj)]
  · rcases hA : addLoop content 0 0 0 [] with _ | tris
    · rfl
    · have hout : tris = ((scanTris 0 content).drop 2).foldl triSetAdd [] := by
        simpa using addLoop_some_set content 0 0 0 [] tris hb hA
      have hlen : tris.length = distinctTrigramCount content := by
        unfold distinctTrigramCount
        rw [hout]
        have hdrop : (scanTris 0 content).drop 2 = specTrigrams content := by
          match content, hb with
          | [], _ => rfl
          | [a], _ => simp [scanTris, specTrigrams]
          | a :: b :: rest, hb =>
            have ha : a < 256 := hb a (by simp)
            have hb' : b < 256 := hb b (by simp)
            rw [scanTris_cons a (b :: rest) 0 ha]
            rw [scanTris_cons b rest (0 % 65536 * 256 + a) hb']
            simp only [List.drop_succ_cons, List.drop_zero]
            exact scanTris_spec rest a b _ ha hb' (fun x hx => hb x (by simp [hx]))
              (by omega)
        rw [hdrop, foldl_triSetAdd_length]
      dsimp only
      rw [if_pos (by rw [hlen]; exact hT)]

theorem writer_add_skips_witness :
    (∀ b ∈ ([255, 128] : List Nat), b < 256) ∧ tripsTextHeuristic [255, 128] ∧
    writerAdd ⟨[], [], [], 0, []⟩ [] [255, 128] = .ok ⟨[], [], [], 0, []⟩ :=
  ⟨by decide, Or.inl ⟨0, by decide, by decide⟩,
   writer_add_skips ⟨[], [], [], 0, []⟩ [] [255, 128] (by decide)
     (Or.inl ⟨0, by decide, by decide⟩)⟩

theorem sortedEq (l1 l2 : List Nat) (h1 : l1.Pairwise (· < ·)) (h2 : l2.Pairwise (· < ·))
    (h : ∀ x, x ∈ l1 ↔ x ∈ l2) : l1 = l2 := by
  exact List.eq_of_perm_of_sorted
    ((List.perm_ext_iff_of_nodup (h1.imp Nat.ne_of_lt) (h2.imp Nat.ne_of_lt)).mpr h)
    (List.Pairwise.imp Nat.le_of_lt h1) (List.Pairwise.imp Nat.le_of_lt h2)

theorem collectPost_mono : ∀ (f1 : Nat) (st : PostReaderState) (f2 : Nat),
    st.count < f1 → st.count < f2 → collectPost f1 st = collectPost f2 st := by
  intro f1
  induction f1 with
  | zero => intro st f2 h1 _; omega
  | succ f1 ih =>
    intro st f2 h1 h2
    obtain ⟨f2', rfl⟩ : ∃ k, f2 = k + 1 := ⟨f2 - 1, by omega⟩
    show collectPost (f1 + 1) st = collectPost (f2' + 1) st
    rw [collectPost, collectPost]
    rcases hpn : postNext st with e | ⟨b, st'⟩
    · rfl
    · cases b with
      | false => rfl
      | true =>
        have hlt := postNext_true_count_lt st st' hpn
        dsimp only
        rw [ih st' f2' (by omega) (by omega)]

theorem filter_mem_of_gt (l ids : List Nat) (fid : Nat) (hl : ∀ x ∈ l, fid < x) :
    l.filter (· ∈ fid :: ids) = l.filter (· ∈ ids) := by
  apply List.filter_congr
  intro x hx
  have := hl x hx
  simp [List.mem_cons]
  omega

theorem filter_restrict_step (rs ids : List Nat) (fid : Nat)
    (hrs : rs.Pairwise (· < ·)) (hids : ∀ x ∈ ids, fid < x) :
    rs.filter (· ∈ fid :: ids) =
      if (rs.dropWhile (· < fid)).headD (fid + 1) = fid then
        fid :: (rs.dropWhile (· < fid)).filter (· ∈ ids)
      else (rs.dropWhile (· < fid)).filter (· ∈ ids) := by
  induction rs with
  | nil => simp
  | cons r rs' ih =>
    have hrs' : rs'.Pairwise (· < ·) := hrs.tail
    rcases Nat.lt_trichotomy r fid with hlt | heq | hgt
    · rw [List.filter_cons_of_neg (by
        simp [List.mem_cons]
        constructor
        · omega
        · intro hmem
          have := hids r hmem
          omega)]
      rw [List.dropWhile_cons_of_pos (by simpa using hlt)]
      exact ih hrs'
    · subst heq
      rw [List.dropWhile_cons_of_neg (by simp)]
      simp only [List.headD_cons, if_pos rfl]
      rw [List.filter_cons_of_pos (by simp)]
      congr 1
      rw [List.filter_cons_of_neg (by
        intro hmem
        simp at hmem
        have := hids r hmem
        omega)]
      apply filter_mem_of_gt
      intro x hx
      exact List.rel_of_pairwise_cons hrs hx
    · rw [List.dropWhile_cons_of_neg (by simp; omega)]
      simp only [List.headD_cons]
      rw [if_neg (show ¬ r = fid from by omega)]
      have hall : ∀ x ∈ r :: rs', fid < x := by
        intro x hx
        rcases List.mem_cons.mp hx with rfl | hx'
        · exact hgt
        · exact lt_trans hgt (List.rel_of_pairwise_cons hrs hx')
      exact filter_mem_of_gt _ _ _ hall

theorem postNext_err_uvarint (c fid : Nat) (d : List Nat) (r : Option (List Nat))
    (hu : uvarint d = none) : postNext ⟨c + 1, fid, some d, r⟩ = .error .corrupt := by
  show postNextLoop fid (some d) r (c + 1) = _
  simp only [postNextLoop, Option.getD_some]
  rw [hu]

theorem postNext_err_zerodelta (c fid : Nat) (d : List Nat) (r : Option (List Nat))
    (δ64 n : Nat) (hu : uvarint d = some (δ64, n)) (hδ : δ64 % 2 ^ 32 = 0) :
    postNext ⟨c + 1, fid, some d, r⟩ = .error .corrupt := by
  show postNextLoop fid (some d) r (c + 1) = _
  simp only [postNextLoop, Option.getD_some]
  rw [hu]
  simp [hδ]
  intro h2
  exact absurd (show δ64 % 4294967296 = 0 by omega) h2

theorem postNext_step_none (c fid : Nat) (d : List Nat) (δ64 n : Nat)
    (hu : uvarint d = some (δ64, n)) (hδ : ¬ δ64 % 2 ^ 32 = 0) :
    postNext ⟨c + 1, fid, some d, none⟩ =
      .ok (true, ⟨c, (fid + δ64 % 2 ^ 32) % 2 ^ 32, some (d.drop n), none⟩) := by
  show postNextLoop fid (some d) none (c + 1) = _
  simp only [postNextLoop, Option.getD_some]
  rw [hu]
  have hδ2 : ¬ δ64 % 4294967296 = 0 := by omega
  simp [hδ2]

theorem postNext_step_some (c fid : Nat) (d : List Nat) (rs : List Nat) (δ64 n : Nat)
    (hu : uvarint d = some (δ64, n)) (hδ : ¬ δ64 % 2 ^ 32 = 0) :
    postNext ⟨c + 1, fid, some d, some rs⟩ =
      (if (rs.dropWhile (· < (fid + δ64 % 2 ^ 32) % 2 ^ 32)).headD
            ((fid + δ64 % 2 ^ 32) % 2 ^ 32 + 1) = (fid + δ64 % 2 ^ 32) % 2 ^ 32 then
        .ok (true, ⟨c, (fid + δ64 % 2 ^ 32) % 2 ^ 32, some (d.drop n),
          some (rs.dropWhile (· < (fid + δ64 % 2 ^ 32) % 2 ^ 32))⟩)
      else postNext ⟨c, (fid + δ64 % 2 ^ 32) % 2 ^ 32, some (d.drop n),
        some (rs.dropWhile (· < (fid + δ64 % 2 ^ 32) % 2 ^ 32))⟩) := by
  show postNextLoop fid (some d) (some rs) (c + 1) = _
  simp only [postNextLoop, Option.getD_some]
  rw [hu]
  simp only [Option.getD_some]
  rw [if_neg hδ]
  rfl

theorem postNext_term (fid : Nat) (d : List Nat) (r : Option (List Nat)) :
    postNext ⟨0, fid, some d, r⟩ =
      if d.length = 0 ∨ d.headD 0 ≠ 0 then .error .corrupt
      else .ok (false, ⟨0, 2 ^ 32 - 1, some d, r⟩) := by
  rfl

theorem collectPost_restrict : ∀ (m fid : Nat) (d rs ids : List Nat),
    collectPost (m + 1) ⟨m, fid, some d, none⟩ = .ok ids →
    ids.Pairwise (· < ·) →
    rs.Pairwise (· < ·) →
    collectPost (m + 1) ⟨m, fid, some d, some rs⟩ = .ok (rs.filter (· ∈ ids)) := by
  intro m
  induction m with
  | zero =>
    intro fid d rs ids h hids hrs
    rw [collectPost, postNext_term] at h
    rw [collectPost, postNext_term]
    by_cases hc : d.length = 0 ∨ d.headD 0 ≠ 0
    · rw [if_pos hc] at h
      cases h
    · rw [if_neg hc] at h ⊢
      simp only at h
      cases h
      simp
  | succ c ih =>
    intro fid d rs ids h hids hrs
    rw [collectPost] at h
    rcases hu : uvarint d with _ | ⟨δ64, n⟩
    · rw [postNext_err_uvarint c fid d none hu] at h
      cases h
    · by_cases hδ : δ64 % 2 ^ 32 = 0
      · rw [postNext_err_zerodelta c fid d none δ64 n hu hδ] at h
        cases h
      · rw [postNext_step_none c fid d δ64 n hu hδ] at h
        dsimp only at h
        rcases hru : collectPost (c + 1)
            ⟨c, (fid + δ64 % 2 ^ 32) % 2 ^ 32, some (d.drop n), none⟩ with e | xs
        · rw [hru] at h
          cases h
        · rw [hru] at h
          cases h
          set fid1 := (fid + δ64 % 2 ^ 32) % 2 ^ 32 with hfid1
          have hxs : xs.Pairwise (· < ·) := (List.pairwise_cons.mp hids).2
          have hgt : ∀ x ∈ xs, fid1 < x := (List.pairwise_cons.mp hids).1
          set rs1 := rs.dropWhile (· < fid1) with hrs1def
          have hrs1 : rs1.Pairwise (· < ·) := hrs.sublist (List.dropWhile_sublist _)
          rw [collectPost, postNext_step_some c fid d rs δ64 n hu hδ]
          rw [filter_restrict_step rs xs fid1 hrs hgt]
          by_cases hm : rs1.headD (fid1 + 1) = fid1
          · rw [if_pos hm, if_pos hm]
            dsimp only
            rw [ih fid1 (d.drop n) rs1 xs hru hxs hrs1]
          · rw [if_neg hm, if_neg hm]
            have ihres := ih fid1 (d.drop n) rs1 xs hru hxs hrs1
            rw [collectPost] at ihres
            rcases hpn2 : postNext ⟨c, fid1, some (d.drop n), some rs1⟩ with e2 | ⟨b2, st2⟩
            · rw [hpn2] at ihres
              cases ihres
            · rw [hpn2] at ihres
              cases b2 with
              | false =>
                simp only at ihres
                exact ihres
              | true =>
                have hlt2 := postNext_true_count_lt _ _ hpn2
                simp only at hlt2
                dsimp only at ihres ⊢
                rw [collectPost_mono (c + 1) st2 c (by omega) (by omega)]
                exact ihres

theorem postingAndLoop_eq : ∀ (fuel : Nat) (st : PostReaderState) (ids l x : List Nat),
    st.count < fuel →
    collectPost (st.count + 1) st = .ok ids →
    postingAndLoop fuel st l x = .ok (x ++ interPure l ids) := by
  intro fuel
  induction fuel with
  | zero => intro st ids l x h _; omega
  | succ fuel ih =>
    intro st ids l x hlt h
    obtain ⟨c, hc⟩ : ∃ c, st.count = c := ⟨st.count, rfl⟩
    rw [collectPost] at h
    rw [postingAndLoop]
    rcases hpn : postNext st with e | ⟨b, st'⟩
    · rw [hpn] at h
      cases h
    · rw [hpn] at h
      cases b with
      | false =>
        simp only at h
        cases h
        simp [interPure]
      | true =>
        have hlt' := postNext_true_count_lt st st' hpn
        dsimp only at h ⊢
        rw [collectPost_mono st.count st' (st'.count + 1) (by omega) (by omega)] at h
        rcases hru : collectPost (st'.count + 1) st' with e2 | xs
        · rw [hru] at h
          cases h
        · rw [hru] at h
          cases h
          show (if (l.dropWhile (· < st'.fileID)).headD (st'.fileID + 1) = st'.fileID then
              postingAndLoop fuel st' (l.dropWhile (· < st'.fileID)).tail (x ++ [st'.fileID])
            else postingAndLoop fuel st' (l.dropWhile (· < st'.fileID)) x) =
            .ok (x ++ interPure l (st'.fileID :: xs))
          show _ = .ok (x ++
            (if (l.dropWhile (· < st'.fileID)).headD (st'.fileID + 1) = st'.fileID then
              st'.fileID :: interPure (l.dropWhile (· < st'.fileID)).tail xs
            else interPure (l.dropWhile (· < st'.fileID)) xs))
          by_cases hm : (l.dropWhile (· < st'.fileID)).headD (st'.fileID + 1) = st'.fileID
          · rw [if_pos hm, if_pos hm,
              ih st' xs _ (x ++ [st'.fileID]) (by omega) hru]
            simp
          · rw [if_neg hm, if_neg hm, ih st' xs _ x (by omega) hru]

theorem postingOrLoop_eq : ∀ (fuel : Nat) (st : PostReaderState) (ids l x : List Nat),
    st.count < fuel →
    collectPost (st.count + 1) st = .ok ids →
    postingOrLoop fuel st l x = .ok (x ++ orPure l ids) := by
  intro fuel
  induction fuel with
  | zero => intro st ids l x h _; omega
  | succ fuel ih =>
    intro st ids l x hlt h
    rw [collectPost] at h
    rw [postingOrLoop]
    rcases hpn : postNext st with e | ⟨b, st'⟩
    · rw [hpn] at h
      cases h
    · rw [hpn] at h
      cases b with
      | false =>
        simp only at h
        cases h
        simp [orPure]
      | true =>
        have hlt' := postNext_true_count_lt st st' hpn
        dsimp only at h ⊢
        rw [collectPost_mono st.count st' (st'.count + 1) (by omega) (by omega)] at h
        rcases hru : collectPost (st'.count + 1) st' with e2 | xs
        · rw [hru] at h
          cases h
        · rw [hru] at h
          cases h
          show (if (l.dropWhile (· < st'.fileID)).headD (st'.fileID + 1) = st'.fileID then
              postingOrLoop fuel st' (l.dropWhile (· < st'.fileID)).tail
                (x ++ l.takeWhile (· < st'.fileID) ++ [st'.fileID])
            else postingOrLoop fuel st' (l.dropWhile (· < st'.fileID))
                (x ++ l.takeWhile (· < st'.fileID) ++ [st'.fileID])) =
            .ok (x ++ orPure l (st'.fileID :: xs))
          show _ = .ok (x ++
            (l.takeWhile (· < st'.fileID) ++ [st'.fileID] ++
              (if (l.dropWhile (· < st'.fileID)).headD (st'.fileID + 1) = st'.fileID then
                orPure (l.dropWhile (· < st'.fileID)).tail xs
              else orPure (l.dropWhile (· < st'.fileID)) xs)))
          by_cases hm : (l.dropWhile (· < st'.fileID)).headD (st'.fileID + 1) = st'.fileID
          · rw [if_pos hm, if_pos hm,
              ih st' xs _ (x ++ l.takeWhile (· < st'.fileID) ++ [st'.fileID]) (by omega) hru]
            simp
          · rw [if_neg hm, if_neg hm,
              ih st' xs _ (x ++ l.takeWhile (· < st'.fileID) ++ [st'.fileID]) (by omega) hru]
            simp

theorem interPure_filter : ∀ (ids l : List Nat), l.Pairwise (· < ·) →
    ids.Pairwise (· < ·) → interPure l ids = l.filter (· ∈ ids) := by
  intro ids
  induction ids with
  | nil => intro l _ _; simp [interPure]
  | cons fid xs ih =>
    intro l hl hids
    have hgt : ∀ x ∈ xs, fid < x := (List.pairwise_cons.mp hids).1
    have hxs : xs.Pairwise (· < ·) := (List.pairwise_cons.mp hids).2
    have hrest : (l.dropWhile (· < fid)).Pairwise (· < ·) :=
      hl.sublist (List.dropWhile_sublist _)
    rw [filter_restrict_step l xs fid hl hgt]
    show (if (l.dropWhile (· < fid)).headD (fid + 1) = fid then
        fid :: interPure (l.dropWhile (· < fid)).tail xs
      else interPure (l.dropWhile (· < fid)) xs) = _
    by_cases hm : (l.dropWhile (· < fid)).headD (fid + 1) = fid
    · rw [if_pos hm, if_pos hm, ih _ (hrest.sublist (List.tail_sublist _)) hxs]
      congr 1
      rcases hd : l.dropWhile (· < fid) with _ | ⟨r, rest'⟩
      · rw [hd] at hm
        simp at hm
      · rw [hd] at hm
        simp only [List.headD_cons] at hm
        subst hm
        simp only [List.tail_cons]
        rw [List.filter_cons_of_neg (by
          intro hmem
          simp at hmem
          have := hgt _ hmem
          omega)]
    · rw [if_neg hm, if_neg hm, ih _ hrest hxs]

theorem dropWhile_ge (l : List Nat) (fid : Nat) (hl : l.Pairwise (· < ·)) :
    ∀ x ∈ l.dropWhile (· < fid), fid ≤ x := by
  induction l with
  | nil => simp
  | cons a l' ih =>
    intro x hx
    by_cases ha : a < fid
    · rw [List.dropWhile_cons_of_pos (by simpa using ha)] at hx
      exact ih hl.tail x hx
    · rw [List.dropWhile_cons_of_neg (by simpa using ha)] at hx
      rcases List.mem_cons.mp hx with rfl | hx'
      · omega
      · have := List.rel_of_pairwise_cons hl hx'
        omega

theorem takeWhile_lt (l : List Nat) (fid : Nat) :
    ∀ x ∈ l.takeWhile (· < fid), x < fid := by
  intro x hx
  have := List.mem_takeWhile_imp hx
  simpa using this

theorem orPure_mem_sorted : ∀ (ids l : List Nat), l.Pairwise (· < ·) →
    ids.Pairwise (· < ·) →
    (orPure l ids).Pairwise (· < ·) ∧ (∀ x, x ∈ orPure l ids ↔ x ∈ l ∨ x ∈ ids) := by
  intro ids
  induction ids with
  | nil => intro l hl _; simp [orPure, hl]
  | cons fid xs ih =>
    intro l hl hids
    have hgt : ∀ x ∈ xs, fid < x := (List.pairwise_cons.mp hids).1
    have hxs : xs.Pairwise (· < ·) := (List.pairwise_cons.mp hids).2
    have hrest : (l.dropWhile (· < fid)).Pairwise (· < ·) :=
      hl.sublist (List.dropWhile_sublist _)
    have hrestge := dropWhile_ge l fid hl
    have hsplit := List.takeWhile_append_dropWhile (p := (· < fid)) (l := l)
    show (orPure l (fid :: xs)).Pairwise (· < ·) ∧ _
    have hbody : orPure l (fid :: xs) =
        l.takeWhile (· < fid) ++ [fid] ++
          (if (l.dropWhile (· < fid)).headD (fid + 1) = fid then
            orPure (l.dropWhile (· < fid)).tail xs
          else orPure (l.dropWhile (· < fid)) xs) := rfl
    by_cases hm : (l.dropWhile (· < fid)).headD (fid + 1) = fid
    · rw [hbody, if_pos hm]
      have htail : (l.dropWhile (· < fid)).tail.Pairwise (· < ·) :=
        hrest.sublist (List.tail_sublist _)
      obtain ⟨hrec_sorted, hrec_mem⟩ := ih _ htail hxs
      have htailgt : ∀ x ∈ (l.dropWhile (· < fid)).tail, fid < x := by
        rcases hd : l.dropWhile (· < fid) with _ | ⟨r, rest'⟩
        · simp
        · rw [hd] at hm hrest
          simp only [List.headD_cons] at hm
          subst hm
          simp only [List.tail_cons]
          intro x hx
          exact List.rel_of_pairwise_cons hrest hx
      have hrecgt : ∀ x ∈ orPure (l.dropWhile (· < fid)).tail xs, fid < x := by
        intro x hx
        rcases (hrec_mem x).mp hx with h1 | h1
        · exact htailgt x h1
        · exact hgt x h1
      constructor
      · rw [List.append_assoc]
        rw [List.pairwise_append]
        refine ⟨hl.sublist (List.takeWhile_sublist _), ?_, ?_⟩
        · rw [List.singleton_append, List.pairwise_cons]
          exact ⟨hrecgt, hrec_sorted⟩
        · intro a ha b hb
          have ha' := takeWhile_lt l fid a ha
          rcases List.mem_cons.mp hb with rfl | hb'
          · exact ha'
          · exact lt_trans ha' (hrecgt b hb')
      · intro x
        simp only [List.append_assoc, List.mem_append, List.mem_singleton, List.mem_cons,
          List.not_mem_nil, or_false]
        rw [hrec_mem x]
        constructor
        · rintro (h1 | rfl | h1 | h1)
          · exact Or.inl (by rw [← hsplit]; exact List.mem_append_left _ h1)
          · exact Or.inr (by simp)
          · refine Or.inl (by
              rw [← hsplit]
              refine List.mem_append_right _ ?_
              exact List.mem_of_mem_tail h1)
          · exact Or.inr (by simp [h1])
        · rintro (h1 | h1)
          · rw [← hsplit] at h1
            rcases List.mem_append.mp h1 with h2 | h2
            · exact Or.inl h2
            · obtain ⟨r, rest', hd⟩ : ∃ a b, l.dropWhile (· < fid) = a :: b := by
                rcases hdd : l.dropWhile (· < fid) with _ | ⟨r1, t1⟩
                · simp_all
                · exact ⟨r1, t1, rfl⟩
              rw [hd] at h2 hm
              simp only [List.headD_cons] at hm
              subst hm
              rcases List.mem_cons.mp h2 with rfl | h3
              · exact Or.inr (Or.inl rfl)
              · rw [hd]
                simp only [List.tail_cons]
                exact Or.inr (Or.inr (Or.inl h3))
          · rcases h1 with rfl | h2
            · exact Or.inr (Or.inl rfl)
            · exact Or.inr (Or.inr (Or.inr h2))
    · rw [hbody, if_neg hm]
      obtain ⟨hrec_sorted, hrec_mem⟩ := ih _ hrest hxs
      have hrestgt : ∀ x ∈ l.dropWhile (· < fid), fid < x := by
        intro x hx
        have hge := hrestge x hx
        rcases hd : l.dropWhile (· < fid) with _ | ⟨r, rest'⟩
        · rw [hd] at hx
          simp at hx
        · rw [hd] at hx hm hrest
          simp only [List.headD_cons] at hm
          rcases List.mem_cons.mp hx with rfl | hx'
          · have := hrestge x (by rw [hd]; simp)
            omega
          · have hr := hrestge r (by rw [hd]; simp)
            have := List.rel_of_pairwise_cons hrest hx'
            omega
      have hrecgt : ∀ x ∈ orPure (l.dropWhile (· < fid)) xs, fid < x := by
        intro x hx
        rcases (hrec_mem x).mp hx with h1 | h1
        · exact hrestgt x h1
        · exact hgt x h1
      constructor
      · rw [List.append_assoc, List.pairwise_append]
        refine ⟨hl.sublist (List.takeWhile_sublist _), ?_, ?_⟩
        · rw [List.singleton_append, List.pairwise_cons]
          exact ⟨hrecgt, hrec_sorted⟩
        · intro a ha b hb
          have ha' := takeWhile_lt l fid a ha
          rcases List.mem_cons.mp hb with rfl | hb'
          · exact ha'
          · exact lt_trans ha' (hrecgt b hb')
      · intro x
        simp only [List.append_assoc, List.mem_append, List.mem_singleton, List.mem_cons,
          List.not_mem_nil, or_false]
        rw [hrec_mem x]
        constructor
        · rintro (h1 | rfl | h1 | h1)
          · exact Or.inl (by rw [← hsplit]; exact List.mem_append_left _ h1)
          · exact Or.inr (by simp)
          · exact Or.inl (by rw [← hsplit]; exact List.mem_append_right _ h1)
          · exact Or.inr (by simp [h1])
        · rintro (h1 | h1)
          · rw [← hsplit] at h1
            rcases List.mem_append.mp h1 with h2 | h2
            · exact Or.inl h2
            · exact Or.inr (Or.inr (Or.inl h2))
          · rcases h1 with rfl | h2
            · exact Or.inr (Or.inl rfl)
            · exact Or.inr (Or.inr (Or.inr h2))

theorem mergeOr_mem_sorted : ∀ (l1 : List Nat), l1.Pairwise (· < ·) →
    ∀ (l2 : List Nat), l2.Pairwise (· < ·) →
    (mergeOr l1 l2).Pairwise (· < ·) ∧ (∀ x, x ∈ mergeOr l1 l2 ↔ x ∈ l1 ∨ x ∈ l2) := by
  intro l1
  induction l1 with
  | nil =>
    intro _ l2
    induction l2 with
    | nil => intro _; simp [mergeOr]
    | cons b l2' ih2 =>
      intro h2
      obtain ⟨hs, hm⟩ := ih2 h2.tail
      rw [show mergeOr [] (b :: l2') = b :: mergeOr [] l2' from by rw [mergeOr]]
      constructor
      · rw [List.pairwise_cons]
        refine ⟨?_, hs⟩
        intro a ha
        rcases (hm a).mp ha with h | h
        · simp at h
        · exact List.rel_of_pairwise_cons h2 h
      · intro x
        simp [hm x, List.mem_cons]
  | cons a l1' ih1 =>
    intro h1 l2
    induction l2 with
    | nil =>
      intro _
      obtain ⟨hs, hm⟩ := ih1 h1.tail [] (by simp)
      rw [show mergeOr (a :: l1') [] = a :: mergeOr l1' [] from by rw [mergeOr]]
      constructor
      · rw [List.pairwise_cons]
        refine ⟨?_, hs⟩
        intro b hb
        rcases (hm b).mp hb with h | h
        · exact List.rel_of_pairwise_cons h1 h
        · simp at h
      · intro x
        simp [hm x, List.mem_cons]
    | cons b l2' ih2 =>
      intro h2
      rcases Nat.lt_trichotomy a b with hab | hab | hab
      · obtain ⟨hs, hm⟩ := ih1 h1.tail (b :: l2') h2
        rw [show mergeOr (a :: l1') (b :: l2') = a :: mergeOr l1' (b :: l2') from by
          rw [mergeOr]
          simp [hab]]
        constructor
        · rw [List.pairwise_cons]
          refine ⟨?_, hs⟩
          intro c hc
          rcases (hm c).mp hc with h | h
          · exact List.rel_of_pairwise_cons h1 h
          · rcases List.mem_cons.mp h with rfl | h'
            · exact hab
            · exact lt_trans hab (List.rel_of_pairwise_cons h2 h')
        · intro x
          simp only [List.mem_cons, hm x]
          tauto
      · subst hab
        obtain ⟨hs, hm⟩ := ih1 h1.tail l2' h2.tail
        rw [show mergeOr (a :: l1') (a :: l2') = a :: mergeOr l1' l2' from by
          rw [mergeOr]
          simp]
        constructor
        · rw [List.pairwise_cons]
          refine ⟨?_, hs⟩
          intro c hc
          rcases (hm c).mp hc with h | h
          · exact List.rel_of_pairwise_cons h1 h
          · exact List.rel_of_pairwise_cons h2 h
        · intro x
          simp only [List.mem_cons, hm x]
          tauto
      · obtain ⟨hs, hm⟩ := ih2 h2.tail
        rw [show mergeOr (a :: l1') (b :: l2') = b :: mergeOr (a :: l1') l2' from by
          rw [mergeOr]
          simp [hab, show ¬ a < b from by omega]]
        constructor
        · rw [List.pairwise_cons]
          refine ⟨?_, hs⟩
          intro c hc
          rcases (hm c).mp hc with h | h
          · rcases List.mem_cons.mp h with rfl | h'
            · exact hab
            · exact lt_trans hab (List.rel_of_pairwise_cons h1 h')
          · exact List.rel_of_pairwise_cons h2 h
        · intro x
          simp only [List.mem_cons, hm x]
          tauto

theorem range_filter_eq (ids : List Nat) (n : Nat) (hs : ids.Pairwise (· < ·))
    (hb : ∀ x ∈ ids, x < n) : (List.range n).filter (· ∈ ids) = ids := by
  apply sortedEq
  · exact (List.pairwise_lt_range n).sublist (List.filter_sublist _)
  · exact hs
  · intro x
    simp only [List.mem_filter, List.mem_range, decide_eq_true_eq]
    exact ⟨fun h => h.2, fun h => ⟨hb x h, h⟩⟩


theorem restrictStream_nil (R : Option (List Nat)) : restrictStream R [] = [] := by
  rcases R with _ | rs
  · rfl
  · simp [restrictStream]

theorem postReaderInit_shape (ix : Index) (t : Nat) (R : Option (List Nat)) :
    (postReaderInit ix t R).1 = (postReaderInit ix t none).1 ∧
    ((postReaderInit ix t R).2 = postReaderZero ∧
        (postReaderInit ix t none).2 = postReaderZero ∨
      ∃ c d, (postReaderInit ix t none).2 = ⟨c, 2 ^ 32 - 1, some d, none⟩ ∧
        (postReaderInit ix t R).2 = ⟨c, 2 ^ 32 - 1, some d, R⟩) := by
  unfold postReaderInit
  rcases hf : ix.findList t with e1 | ce
  · exact ⟨rfl, Or.inl ⟨rfl, rfl⟩⟩
  · obtain ⟨count, offset⟩ := ce
    by_cases hc : count = 0
    · simp [hc]
    · dsimp only
      rw [if_neg hc, if_neg hc]
      rcases hs : sliceD ix.data ((ix.postData + offset + 3) % 2 ^ 32) (-1) with e2 | d
      · exact ⟨rfl, Or.inl ⟨rfl, rfl⟩⟩
      · exact ⟨rfl, Or.inr ⟨count, d, rfl, rfl⟩⟩

theorem chain'_lt_pairwise (l : List Nat) (h : l.Chain' (· < ·)) : l.Pairwise (· < ·) :=
  List.chain'_iff_pairwise.mp h

theorem postingListR_sem (ix : Index) (t : Nat) (ids : List Nat) (R : Option (List Nat))
    (hg : goodTri ix t ids) (hR : ∀ rs, R = some rs → rs.Pairwise (· < ·)) :
    ix.postingListR t R = .ok (restrictStream R ids) := by
  have h1 := hg.1
  have hids : ids.Pairwise (· < ·) := chain'_lt_pairwise ids hg.2.1
  obtain ⟨hfst, hsnd⟩ := postReaderInit_shape ix t R
  unfold Index.postingListR at h1 ⊢
  rcases hN : postReaderInit ix t none with ⟨e0, st0⟩
  rcases hI : postReaderInit ix t R with ⟨e1, st1⟩
  rw [hN] at h1
  rw [hN, hI] at hfst hsnd
  simp only at hfst hsnd
  rcases e0 with _ | e
  · subst hfst
    rcases hsnd with ⟨hz1, hz0⟩ | ⟨c, d, h0, hA⟩
    · subst hz1
      subst hz0
      simp only [postReaderZero] at h1 ⊢
      have : ids = [] := by
        have : collectPost 1 (⟨0, 0, none, none⟩ : PostReaderState) = .ok [] := rfl
        rw [this] at h1
        exact (Except.ok.injEq _ _).mp h1.symm
      subst this
      rw [restrictStream_nil]
      rfl
    · subst h0
      subst hA
      simp only at h1 ⊢
      rcases R with _ | rs
      · exact h1
      · exact collectPost_restrict c (2 ^ 32 - 1) d rs ids h1 hids (hR rs rfl)
  · subst hfst
    simp at h1

theorem postingAnd_sem (ix : Index) (t : Nat) (ids l : List Nat) (R : Option (List Nat))
    (hg : goodTri ix t ids) (hR : ∀ rs, R = some rs → rs.Pairwise (· < ·)) :
    ix.postingAnd l t R = .ok (interPure l (restrictStream R ids)) := by
  have h1 := hg.1
  have hids : ids.Pairwise (· < ·) := chain'_lt_pairwise ids hg.2.1
  obtain ⟨hfst, hsnd⟩ := postReaderInit_shape ix t R
  unfold Index.postingListR at h1
  unfold Index.postingAnd
  rcases hN : postReaderInit ix t none with ⟨e0, st0⟩
  rcases hI : postReaderInit ix t R with ⟨e1, st1⟩
  rw [hN] at h1
  rw [hN, hI] at hfst hsnd
  simp only at hfst hsnd
  rcases e0 with _ | e
  · subst hfst
    rcases hsnd with ⟨hz1, hz0⟩ | ⟨c, d, h0, hA⟩
    · subst hz1
      subst hz0
      simp only [postReaderZero] at h1 ⊢
      have hids0 : ids = [] := by
        have : collectPost 1 (⟨0, 0, none, none⟩ : PostReaderState) = .ok [] := rfl
        rw [this] at h1
        exact (Except.ok.injEq _ _).mp h1.symm
      subst hids0
      rw [restrictStream_nil]
      rfl
    · subst h0
      subst hA
      simp only at h1 ⊢
      have hstream : collectPost (c + 1) ⟨c, 2 ^ 32 - 1, some d, R⟩ =
          .ok (restrictStream R ids) := by
        rcases R with _ | rs
        · exact h1
        · exact collectPost_restrict c (2 ^ 32 - 1) d rs ids h1 hids (hR rs rfl)
      have := postingAndLoop_eq (c + 1) ⟨c, 2 ^ 32 - 1, some d, R⟩
        (restrictStream R ids) l [] (by simp) (by simpa using hstream)
      simpa using this
  · subst hfst
    simp only at h1
    cases h1

theorem postingOr_sem (ix : Index) (t : Nat) (ids l : List Nat) (R : Option (List Nat))
    (hg : goodTri ix t ids) (hR : ∀ rs, R = some rs → rs.Pairwise (· < ·)) :
    ix.postingOr l t R = .ok (orPure l (restrictStream R ids)) := by
  have h1 := hg.1
  have hids : ids.Pairwise (· < ·) := chain'_lt_pairwise ids hg.2.1
  obtain ⟨hfst, hsnd⟩ := postReaderInit_shape ix t R
  unfold Index.postingListR at h1
  unfold Index.postingOr
  rcases hN : postReaderInit ix t none with ⟨e0, st0⟩
  rcases hI : postReaderInit ix t R with ⟨e1, st1⟩
  rw [hN] at h1
  rw [hN, hI] at hfst hsnd
  simp only at hfst hsnd
  rcases e0 with _ | e
  · subst hfst
    rcases hsnd with ⟨hz1, hz0⟩ | ⟨c, d, h0, hA⟩
    · subst hz1
      subst hz0
      simp only [postReaderZero] at h1 ⊢
      have hids0 : ids = [] := by
        have : collectPost 1 (⟨0, 0, none, none⟩ : PostReaderState) = .ok [] := rfl
        rw [this] at h1
        exact (Except.ok.injEq _ _).mp h1.symm
      subst hids0
      rw [restrictStream_nil]
      show postingOrLoop 1 postReaderZero l [] = .ok (orPure l [])
      simp [postingOrLoop, postNext, postReaderZero, postNextLoop, orPure]
    · subst h0
      subst hA
      simp only at h1 ⊢
      have hstream : collectPost (c + 1) ⟨c, 2 ^ 32 - 1, some d, R⟩ =
          .ok (restrictStream R ids) := by
        rcases R with _ | rs
        · exact h1
        · exact collectPost_restrict c (2 ^ 32 - 1) d rs ids h1 hids (hR rs rfl)
      have := postingOrLoop_eq (c + 1) ⟨c, 2 ^ 32 - 1, some d, R⟩
        (restrictStream R ids) l [] (by simp) (by simpa using hstream)
      simpa using this
  · subst hfst
    simp only at h1
    cases h1

theorem contains_eq_mem (l : List Nat) (x : Nat) : l.contains x = decide (x ∈ l) := by
  induction l with
  | nil => simp
  | cons a t ih => simp [List.contains_cons]

theorem queryOkList_mem (subs : List Query) (h : queryOkList subs = true) :
    ∀ s ∈ subs, queryOk s = true := by
  induction subs with
  | nil => simp
  | cons s ss ih =>
    intro s' hs'
    rw [queryOkList] at h
    rcases List.mem_cons.mp hs' with rfl | hmem
    · exact (Bool.and_eq_true_iff.mp h).1
    · exact ih (Bool.and_eq_true_iff.mp h).2 s' hmem

theorem filter_nil_of_sub (l : List Nat) (p q : Nat → Bool)
    (himp : ∀ x ∈ l, q x = true → p x = true) (h : l.filter p = []) : l.filter q = [] := by
  rw [List.filter_eq_nil_iff] at h ⊢
  intro a ha hq
  exact h a ha (himp a ha hq)

theorem stream_sorted (R : Option (List Nat)) (ids : List Nat)
    (hids : ids.Pairwise (· < ·)) (hR : ∀ rs, R = some rs → rs.Pairwise (· < ·)) :
    (restrictStream R ids).Pairwise (· < ·) := by
  rcases R with _ | rs
  · exact hids
  · exact ((hR rs rfl).sublist (List.filter_sublist _))

theorem base_sorted (R : Option (List Nat)) (n : Nat)
    (hR : ∀ rs, R = some rs → rs.Pairwise (· < ·)) :
    (R.getD (List.range n)).Pairwise (· < ·) := by
  rcases R with _ | rs
  · exact List.pairwise_lt_range n
  · exact hR rs rfl

theorem stream_sub_base (R : Option (List Nat)) (ids : List Nat) (n : Nat)
    (hb : ∀ x ∈ ids, x < n) :
    ∀ x ∈ restrictStream R ids, x ∈ R.getD (List.range n) := by
  rcases R with _ | rs
  · intro x hx
    simp [List.mem_range]
    exact hb x hx
  · intro x hx
    exact (List.mem_filter.mp hx).1

theorem stream_mem (R : Option (List Nat)) (ids : List Nat) (n : Nat)
    (hb : ∀ x ∈ ids, x < n) (x : Nat) :
    (x ∈ restrictStream R ids ↔ x ∈ R.getD (List.range n) ∧ x ∈ ids) := by
  rcases R with _ | rs
  · simp [restrictStream, List.mem_range]
    intro hx
    exact hb x hx
  · simp [restrictStream, List.mem_filter]

theorem stream_as_filter (R : Option (List Nat)) (ids : List Nat) (n : Nat)
    (hids : ids.Pairwise (· < ·)) (hR : ∀ rs, R = some rs → rs.Pairwise (· < ·))
    (hb : ∀ x ∈ ids, x < n) :
    restrictStream R ids = (R.getD (List.range n)).filter (· ∈ ids) := by
  apply sortedEq _ _ (stream_sorted R ids hids hR)
    ((base_sorted R n hR).sublist (List.filter_sublist _))
  intro x
  rw [stream_mem R ids n hb x, List.mem_filter]
  simp

theorem qandTrisLoop_some_sem (ix : Index) (P : Nat → List Nat) (R : Option (List Nat))
    (hR : ∀ rs, R = some rs → rs.Pairwise (· < ·)) :
    ∀ (ts : List (Nat × Nat × Nat)) (l : List Nat),
    (∀ t ∈ ts, goodTri ix (packTri t) (P (packTri t))) →
    l.Pairwise (· < ·) →
    (∀ rs, R = some rs → ∀ x ∈ l, x ∈ rs) →
    qandTrisLoop ix R ts (some l) =
        .ok (.cont (some (l.filter (fun x => ts.all (fun t => (P (packTri t)).contains x))))) ∨
      (qandTrisLoop ix R ts (some l) = .ok .early ∧
        l.filter (fun x => ts.all (fun t => (P (packTri t)).contains x)) = []) := by
  intro ts
  induction ts with
  | nil =>
    intro l _ _ _
    left
    simp [qandTrisLoop, List.all_nil, List.filter_true]
  | cons t ts' ih =>
    intro l hg hl hsub
    have hgt := hg t (by simp)
    have hstep : ix.postingAnd l (packTri t) R =
        .ok (interPure l (restrictStream R (P (packTri t)))) :=
      postingAnd_sem ix (packTri t) (P (packTri t)) l R hgt hR
    have hids : (P (packTri t)).Pairwise (· < ·) := chain'_lt_pairwise _ hgt.2.1
    have hstreamsorted := stream_sorted R (P (packTri t)) hids hR
    have hfil : interPure l (restrictStream R (P (packTri t))) =
        l.filter (fun x => (P (packTri t)).contains x) := by
      rw [interPure_filter _ _ hl hstreamsorted]
      apply List.filter_congr
      intro x hx
      rw [contains_eq_mem]
      congr 1
      rcases R with _ | rs
      · rfl
      · show (x ∈ (restrictStream (some rs) (P (packTri t)))) = (x ∈ P (packTri t))
        have hxrs : x ∈ rs := hsub rs rfl x hx
        simp only [restrictStream, List.mem_filter, decide_eq_true_eq, eq_iff_iff]
        constructor
        · exact fun h => h.2
        · exact fun h => ⟨hxrs, h⟩
    rw [qandTrisLoop]
    simp only [hstep, hfil]
    set l1 := l.filter (fun x => (P (packTri t)).contains x) with hl1
    by_cases hlen : l1.length = 0
    · right
      constructor
      · simp [hlen]
      · have hempty : l1 = [] := List.length_eq_zero.mp hlen
        apply filter_nil_of_sub l _ _ _ (by rw [← hl1]; exact hempty)
        intro x _ hq
        rw [List.all_cons, Bool.and_eq_true_iff] at hq
        exact hq.1
    · have hrec := ih l1 (fun t' ht' => hg t' (by simp [ht']))
        (hl.sublist (List.filter_sublist _))
        (fun rs hrs x hx => hsub rs hrs x (List.mem_of_mem_filter hx))
      have hcomp : l1.filter (fun x => ts'.all (fun t' => (P (packTri t')).contains x)) =
          l.filter (fun x => (t :: ts').all (fun t' => (P (packTri t')).contains x)) := by
        rw [hl1, List.filter_filter]
        apply List.filter_congr
        intro x _
        rw [List.all_cons]
        rw [Bool.and_comm]
      rcases hrec with h | ⟨h1, h2⟩
      · left
        simp only [if_neg hlen]
        rw [h, hcomp]
      · right
        constructor
        · simp only [if_neg hlen]
          exact h1
        · rw [← hcomp]
          exact h2

theorem qandSubsLoop_some_sem (ix : Index) (P : Nat → List Nat) (R : Option (List Nat)) :
    ∀ (ss : List Query) (l : List Nat),
    (∀ s ∈ ss, ∀ R' : Option (List Nat), (∀ rs, R' = some rs → rs.Pairwise (· < ·)) →
      (postingQueryM ix s R').map (fun o => o.getD []) =
        .ok (querySem P ix.numName.toNat s R')) →
    l.Pairwise (· < ·) →
    qandSubsLoop ix R ss (some l) =
        .ok (.cont (some (l.filter (fun x => qMatchesAll P ss x)))) ∨
      (qandSubsLoop ix R ss (some l) = .ok .early ∧
        l.filter (fun x => qMatchesAll P ss x) = []) := by
  intro ss
  induction ss with
  | nil =>
    intro l _ _
    left
    have : ∀ x ∈ l, qMatchesAll P [] x = true := by
      intro x _
      simp [qMatchesAll]
    rw [qandSubsLoop, List.filter_eq_self.mpr this]
  | cons s ss ih =>
    intro l hIH hl
    have hs := hIH s (by simp) (some l) (fun rs h => (Option.some.inj h) ▸ hl)
    have hsem : querySem P ix.numName.toNat s (some l) =
        l.filter (fun x => qMatches P s x) := rfl
    obtain ⟨o, ho, hgd⟩ : ∃ o, postingQueryM ix s (some l) = .ok o ∧
        o.getD [] = l.filter (fun x => qMatches P s x) := by
      rcases hpq : postingQueryM ix s (some l) with e | o
      · rw [hpq] at hs
        exact absurd hs (by simp [Except.map])
      · rw [hpq, hsem] at hs
        simp only [Except.map] at hs
        exact ⟨o, rfl, Except.ok.inj hs⟩
    have hcomp : (l.filter (fun x => qMatches P s x)).filter
          (fun x => qMatchesAll P ss x) =
        l.filter (fun x => qMatchesAll P (s :: ss) x) := by
      rw [List.filter_filter]
      apply List.filter_congr
      intro x _
      simp [qMatchesAll, Bool.and_comm]
    rw [qandSubsLoop]
    simp only [ho]
    by_cases hlen : (o.getD []).length = 0
    · right
      refine ⟨by simp [hlen], ?_⟩
      have hempty : l.filter (fun x => qMatches P s x) = [] := by
        rw [← hgd]
        exact List.length_eq_zero.mp hlen
      apply filter_nil_of_sub l _ _ _ hempty
      intro x _ hq
      simp only [qMatchesAll, Bool.and_eq_true] at hq
      exact hq.1
    · rcases o with _ | l'
      · exact absurd (by simp : (Option.getD (α := List Nat) none []).length = 0) hlen
      have hl' : l' = l.filter (fun x => qMatches P s x) := by
        simpa using hgd
      have hrec := ih l' (fun s' hs' => hIH s' (by simp [hs'])) (by
        rw [hl']
        exact hl.sublist (List.filter_sublist _))
      rcases hrec with h | ⟨h1, h2⟩
      · left
        simp only [if_neg hlen]
        rw [h, hl', hcomp]
      · right
        refine ⟨by simp only [if_neg hlen]; exact h1, ?_⟩
        rw [← hcomp, ← hl']
        exact h2

theorem qorTrisLoop_some_sem (ix : Index) (P : Nat → List Nat) (R : Option (List Nat))
    (hR : ∀ rs, R = some rs → rs.Pairwise (· < ·)) :
    ∀ (ts : List (Nat × Nat × Nat)) (l : List Nat),
    (∀ t ∈ ts, goodTri ix (packTri t) (P (packTri t))) →
    l.Pairwise (· < ·) →
    ∃ L, qorTrisLoop ix R ts (some l) = .ok (some L) ∧ L.Pairwise (· < ·) ∧
      (∀ x, x ∈ L ↔ x ∈ l ∨ ∃ t ∈ ts, x ∈ restrictStream R (P (packTri t))) := by
  intro ts
  induction ts with
  | nil =>
    intro l _ hl
    refine ⟨l, rfl, hl, ?_⟩
    intro x
    simp
  | cons t ts ih =>
    intro l hg hl
    have hgt := hg t (by simp)
    have hstep : ix.postingOr l (packTri t) R =
        .ok (orPure l (restrictStream R (P (packTri t)))) :=
      postingOr_sem ix (packTri t) (P (packTri t)) l R hgt hR
    have hids : (P (packTri t)).Pairwise (· < ·) := chain'_lt_pairwise _ hgt.2.1
    have hstream := stream_sorted R (P (packTri t)) hids hR
    have hor := orPure_mem_sorted (restrictStream R (P (packTri t))) l hl hstream
    obtain ⟨L, hL, hLs, hLm⟩ := ih (orPure l (restrictStream R (P (packTri t))))
      (fun t' ht' => hg t' (by simp [ht'])) hor.1
    refine ⟨L, ?_, hLs, ?_⟩
    · rw [qorTrisLoop]
      simp only [hstep]
      exact hL
    · intro x
      rw [hLm x, hor.2 x]
      constructor
      · rintro ((h | h) | ⟨t', ht', h⟩)
        · exact Or.inl h
        · exact Or.inr ⟨t, by simp, h⟩
        · exact Or.inr ⟨t', by simp [ht'], h⟩
      · rintro (h | ⟨t', ht', h⟩)
        · exact Or.inl (Or.inl h)
        · rcases List.mem_cons.mp ht' with h' | h'
          · exact Or.inl (Or.inr (h' ▸ h))
          · exact Or.inr ⟨t', h', h⟩

theorem querySem_sorted (P : Nat → List Nat) (n : Nat) (s : Query) (R : Option (List Nat))
    (hR : ∀ rs, R = some rs → rs.Pairwise (· < ·)) :
    (querySem P n s R).Pairwise (· < ·) :=
  (base_sorted R n hR).sublist (List.filter_sublist _)

theorem qorSubsLoop_some_sem (ix : Index) (P : Nat → List Nat) (R : Option (List Nat))
    (hR : ∀ rs, R = some rs → rs.Pairwise (· < ·)) :
    ∀ (ss : List Query) (l : List Nat),
    (∀ s ∈ ss, (postingQueryM ix s R).map (fun o => o.getD []) =
      .ok (querySem P ix.numName.toNat s R)) →
    l.Pairwise (· < ·) →
    ∃ L, qorSubsLoop ix R ss (some l) = .ok (some L) ∧ L.Pairwise (· < ·) ∧
      (∀ x, x ∈ L ↔ x ∈ l ∨ ∃ s ∈ ss, x ∈ querySem P ix.numName.toNat s R) := by
  intro ss
  induction ss with
  | nil =>
    intro l _ hl
    refine ⟨l, rfl, hl, ?_⟩
    intro x
    simp
  | cons s ss ih =>
    intro l hIH hl
    have hs := hIH s (by simp)
    obtain ⟨o, ho, hgd⟩ : ∃ o, postingQueryM ix s R = .ok o ∧
        o.getD [] = querySem P ix.numName.toNat s R := by
      rcases hpq : postingQueryM ix s R with e | o
      · rw [hpq] at hs
        exact absurd hs (by simp [Except.map])
      · rw [hpq] at hs
        simp only [Except.map] at hs
        exact ⟨o, rfl, Except.ok.inj hs⟩
    have hqs : (querySem P ix.numName.toNat s R).Pairwise (· < ·) :=
      querySem_sorted P ix.numName.toNat s R hR
    have hmo := mergeOr_mem_sorted l hl (querySem P ix.numName.toNat s R) hqs
    obtain ⟨L, hL, hLs, hLm⟩ := ih (mergeOr l (querySem P ix.numName.toNat s R))
      (fun s' hs' => hIH s' (by simp [hs'])) hmo.1
    refine ⟨L, ?_, hLs, ?_⟩
    · rw [qorSubsLoop]
      simp only [ho, Option.getD_some, hgd]
      exact hL
    · intro x
      rw [hLm x, hmo.2 x]
      constructor
      · rintro ((h | h) | ⟨s', hs', h⟩)
        · exact Or.inl h
        · exact Or.inr ⟨s, by simp, h⟩
        · exact Or.inr ⟨s', by simp [hs'], h⟩
      · rintro (h | ⟨s', hs', h⟩)
        · exact Or.inl (Or.inl h)
        · rcases List.mem_cons.mp hs' with h' | h'
          · exact Or.inl (Or.inr (h' ▸ h))
          · exact Or.inr ⟨s', h', h⟩

theorem queryTrisList_mem (subs : List Query) (s : Query) (hs : s ∈ subs) (t : Nat)
    (ht : t ∈ queryTris s) : t ∈ queryTrisList subs := by
  induction subs with
  | nil => cases hs
  | cons s' ss ih =>
    rw [queryTrisList]
    rcases List.mem_cons.mp hs with h | h
    · exact List.mem_append_left _ (h ▸ ht)
    · exact List.mem_append_right _ (ih h)

theorem qMatchesAny_iff (P : Nat → List Nat) (ss : List Query) (x : Nat) :
    qMatchesAny P ss x = true ↔ ∃ s ∈ ss, qMatches P s x = true := by
  induction ss with
  | nil => simp [qMatchesAny]
  | cons s ss ih =>
    rw [qMatchesAny, Bool.or_eq_true, ih]
    constructor
    · rintro (h | ⟨s', hs', h⟩)
      · exact ⟨s, by simp, h⟩
      · exact ⟨s', by simp [hs'], h⟩
    · rintro ⟨s', hs', h⟩
      rcases List.mem_cons.mp hs' with h' | h'
      · exact Or.inl (h' ▸ h)
      · exact Or.inr ⟨s', h', h⟩

theorem mergeOr_nil_left : ∀ (l : List Nat), mergeOr [] l = l := by
  intro l
  induction l with
  | nil => simp [mergeOr]
  | cons b l2 ih => rw [mergeOr, ih]

theorem qorSubsLoop_opt_sem (ix : Index) (P : Nat → List Nat) (R : Option (List Nat))
    (hR : ∀ rs, R = some rs → rs.Pairwise (· < ·))
    (ss : List Query) (lo : Option (List Nat))
    (hIH : ∀ s ∈ ss, (postingQueryM ix s R).map (fun o => o.getD []) =
      .ok (querySem P ix.numName.toNat s R))
    (hlo : (lo.getD []).Pairwise (· < ·)) :
    ∃ L : Option (List Nat), qorSubsLoop ix R ss lo = .ok L ∧
      (L.getD []).Pairwise (· < ·) ∧
      (∀ x, x ∈ L.getD [] ↔ x ∈ lo.getD [] ∨
        ∃ s ∈ ss, x ∈ querySem P ix.numName.toNat s R) := by
  cases ss with
  | nil =>
    refine ⟨lo, rfl, hlo, ?_⟩
    intro x
    simp
  | cons s ss =>
    have hs := hIH s (by simp)
    obtain ⟨o, ho, hgd⟩ : ∃ o, postingQueryM ix s R = .ok o ∧
        o.getD [] = querySem P ix.numName.toNat s R := by
      rcases hpq : postingQueryM ix s R with e | o
      · rw [hpq] at hs
        exact absurd hs (by simp [Except.map])
      · rw [hpq] at hs
        simp only [Except.map] at hs
        exact ⟨o, rfl, Except.ok.inj hs⟩
    have hqs : (querySem P ix.numName.toNat s R).Pairwise (· < ·) :=
      querySem_sorted P ix.numName.toNat s R hR
    have hmo := mergeOr_mem_sorted (lo.getD []) hlo (querySem P ix.numName.toNat s R) hqs
    obtain ⟨L, hL, hLs, hLm⟩ := qorSubsLoop_some_sem ix P R hR ss
      (mergeOr (lo.getD []) (querySem P ix.numName.toNat s R))
      (fun s' hs' => hIH s' (by simp [hs'])) hmo.1
    refine ⟨some L, ?_, hLs, ?_⟩
    · rw [qorSubsLoop]
      simp only [ho, hgd]
      exact hL
    · intro x
      rw [Option.getD_some, hLm x, hmo.2 x]
      constructor
      · rintro ((h | h) | ⟨s', hs', h⟩)
        · exact Or.inl h
        · exact Or.inr ⟨s, by simp, h⟩
        · exact Or.inr ⟨s', by simp [hs'], h⟩
      · rintro (h | ⟨s', hs', h⟩)
        · exact Or.inl (Or.inl h)
        · rcases List.mem_cons.mp hs' with h' | h'
          · exact Or.inl (Or.inr (h' ▸ h))
          · exact Or.inr ⟨s', h', h⟩

theorem querySem_eq (P : Nat → List Nat) (n : Nat) (q : Query) (R : Option (List Nat)) :
    querySem P n q R = (R.getD (List.range n)).filter (fun x => qMatches P q x) := rfl

theorem postingQueryM_qand_sem (ix : Index) (P : Nat → List Nat) (R : Option (List Nat))
    (hR : ∀ rs, R = some rs → rs.Pairwise (· < ·)) (tris : List (Nat × Nat × Nat))
    (subs : List Query)
    (hTt : ∀ t ∈ tris, goodTri ix (packTri t) (P (packTri t)))
    (hIH : ∀ s ∈ subs, ∀ R' : Option (List Nat),
      (∀ rs, R' = some rs → rs.Pairwise (· < ·)) →
      (postingQueryM ix s R').map (fun o => o.getD []) =
        .ok (querySem P ix.numName.toNat s R'))
    (hok : queryOk (.qand tris subs) = true) :
    (postingQueryM ix (.qand tris subs) R).map (fun o => o.getD []) =
      .ok (querySem P ix.numName.toNat (.qand tris subs) R) := by
  cases tris with
  | nil =>
    cases subs with
    | nil => simp [queryOk, queryOkList, List.isEmpty] at hok
    | cons s ss =>
      have hs := hIH s (by simp) R hR
      obtain ⟨o, ho, hgd⟩ : ∃ o, postingQueryM ix s R = .ok o ∧
          o.getD [] = querySem P ix.numName.toNat s R := by
        rcases hpq : postingQueryM ix s R with e | o
        · rw [hpq] at hs
          exact absurd hs (by simp [Except.map])
        · rw [hpq] at hs
          simp only [Except.map] at hs
          exact ⟨o, rfl, Except.ok.inj hs⟩
      have hcomp : querySem P ix.numName.toNat (.qand [] (s :: ss)) R =
          (querySem P ix.numName.toNat s R).filter (fun x => qMatchesAll P ss x) := by
        rw [querySem_eq, querySem_eq, List.filter_filter]
        apply List.filter_congr
        intro x _
        simp [qMatches, qMatchesAll, Bool.and_comm]
      simp only [postingQueryM, qandTrisLoop]
      rw [qandSubsLoop]
      simp only [ho]
      by_cases hlen : (o.getD []).length = 0
      · rw [if_pos hlen]
        rw [hcomp, ← hgd, List.length_eq_zero.mp hlen]
        simp [Except.map]
      · rw [if_neg hlen]
        rcases o with _ | l'
        · exact absurd (by simp : (Option.getD (α := List Nat) none []).length = 0) hlen
        have hl' : l' = querySem P ix.numName.toNat s R := by simpa using hgd
        have hl's : l'.Pairwise (· < ·) :=
          hl' ▸ querySem_sorted P ix.numName.toNat s R hR
        have hrec := qandSubsLoop_some_sem ix P R ss l'
          (fun s' hs' => hIH s' (by simp [hs'])) hl's
        rcases hrec with h | ⟨h1, h2⟩
        · rw [h]
          rw [hcomp, ← hl']
          simp [Except.map]
        · rw [h1]
          rw [hcomp, ← hl', h2]
          simp [Except.map]
  | cons t ts =>
    have hgt := hTt t (by simp)
    have hTts : ∀ t' ∈ ts, goodTri ix (packTri t') (P (packTri t')) :=
      fun t' h => hTt t' (by simp [h])
    have hpl : ix.postingListR (packTri t) R = .ok (restrictStream R (P (packTri t))) :=
      postingListR_sem ix (packTri t) (P (packTri t)) R hgt hR
    have hids : (P (packTri t)).Pairwise (· < ·) := chain'_lt_pairwise _ hgt.2.1
    have hstream_sorted := stream_sorted R (P (packTri t)) hids hR
    have hsub : ∀ rs, R = some rs → ∀ x ∈ restrictStream R (P (packTri t)), x ∈ rs := by
      intro rs hrs x hx
      subst hrs
      simp only [restrictStream] at hx
      exact (List.mem_filter.mp hx).1
    have hfilter : restrictStream R (P (packTri t)) =
        (R.getD (List.range ix.numName.toNat)).filter
          (fun x => (P (packTri t)).contains x) := by
      rw [stream_as_filter R (P (packTri t)) ix.numName.toNat hids hR hgt.2.2]
      apply List.filter_congr
      intro x _
      rw [contains_eq_mem]
    have hcomp : querySem P ix.numName.toNat (.qand (t :: ts) subs) R =
        ((restrictStream R (P (packTri t))).filter
          (fun x => ts.all (fun t' => (P (packTri t')).contains x))).filter
          (fun x => qMatchesAll P subs x) := by
      rw [hfilter, List.filter_filter, List.filter_filter, querySem_eq]
      apply List.filter_congr
      intro x _
      simp [qMatches, List.all_cons, Bool.and_comm, Bool.and_assoc, Bool.and_left_comm]
    simp only [postingQueryM]
    rw [qandTrisLoop]
    simp only [hpl]
    by_cases hlen : (restrictStream R (P (packTri t))).length = 0
    · rw [if_pos hlen]
      rw [hcomp, List.length_eq_zero.mp hlen]
      simp [Except.map]
    · rw [if_neg hlen]
      have hrec := qandTrisLoop_some_sem ix P R hR ts (restrictStream R (P (packTri t)))
        hTts hstream_sorted hsub
      rcases hrec with h | ⟨h1, h2⟩
      · have hL1s : ((restrictStream R (P (packTri t))).filter
            (fun x => ts.all (fun t' => (P (packTri t')).contains x))).Pairwise (· < ·) :=
          hstream_sorted.sublist (List.filter_sublist _)
        have hrec2 := qandSubsLoop_some_sem ix P R subs
          ((restrictStream R (P (packTri t))).filter
            (fun x => ts.all (fun t' => (P (packTri t')).contains x)))
          hIH hL1s
        rcases hrec2 with h' | ⟨h1', h2'⟩
        · rw [hcomp]
          simp only [h, h']
          simp [Except.map]
        · rw [hcomp, h2']
          simp only [h, h1']
          simp [Except.map]
      · rw [hcomp, h2]
        simp only [h1]
        simp [Except.map]

theorem postingQueryM_qor_sem (ix : Index) (P : Nat → List Nat) (R : Option (List Nat))
    (hR : ∀ rs, R = some rs → rs.Pairwise (· < ·)) (tris : List (Nat × Nat × Nat))
    (subs : List Query)
    (hTt : ∀ t ∈ tris, goodTri ix (packTri t) (P (packTri t)))
    (hIH : ∀ s ∈ subs, (postingQueryM ix s R).map (fun o => o.getD []) =
      .ok (querySem P ix.numName.toNat s R)) :
    (postingQueryM ix (.qor tris subs) R).map (fun o => o.getD []) =
      .ok (querySem P ix.numName.toNat (.qor tris subs) R) := by
  obtain ⟨Lo, hLo, hLos, hLom⟩ : ∃ Lo : Option (List Nat),
      qorTrisLoop ix R tris none = .ok Lo ∧ (Lo.getD []).Pairwise (· < ·) ∧
      (∀ x, x ∈ Lo.getD [] ↔ ∃ t ∈ tris, x ∈ restrictStream R (P (packTri t))) := by
    cases tris with
    | nil =>
      refine ⟨none, rfl, List.Pairwise.nil, ?_⟩
      intro x
      simp
    | cons t ts =>
      have hgt := hTt t (by simp)
      have hpl : ix.postingListR (packTri t) R = .ok (restrictStream R (P (packTri t))) :=
        postingListR_sem ix (packTri t) (P (packTri t)) R hgt hR
      have hids : (P (packTri t)).Pairwise (· < ·) := chain'_lt_pairwise _ hgt.2.1
      have hstream_sorted := stream_sorted R (P (packTri t)) hids hR
      obtain ⟨L1, hL1, hL1s, hL1m⟩ := qorTrisLoop_some_sem ix P R hR ts
        (restrictStream R (P (packTri t)))
        (fun t' h => hTt t' (by simp [h])) hstream_sorted
      refine ⟨some L1, ?_, by simpa using hL1s, ?_⟩
      · rw [qorTrisLoop]
        simp only [hpl]
        exact hL1
      · intro x
        rw [Option.getD_some, hL1m x]
        constructor
        · rintro (h | ⟨t', ht', h⟩)
          · exact ⟨t, by simp, h⟩
          · exact ⟨t', by simp [ht'], h⟩
        · rintro ⟨t', ht', h⟩
          rcases List.mem_cons.mp ht' with h' | h'
          · exact Or.inl (h' ▸ h)
          · exact Or.inr ⟨t', h', h⟩
  obtain ⟨L, hL, hLs, hLm⟩ := qorSubsLoop_opt_sem ix P R hR subs Lo hIH hLos
  simp only [postingQueryM, hLo, hL]
  simp only [Except.map]
  congr 1
  apply sortedEq _ _ hLs (querySem_sorted P ix.numName.toNat _ R hR)
  intro x
  rw [hLm x, querySem_eq, List.mem_filter]
  constructor
  · rintro (h | ⟨s, hs, h⟩)
    · rw [hLom x] at h
      obtain ⟨t, ht, hmem⟩ := h
      have hb := (hTt t ht).2.2
      have := (stream_mem R (P (packTri t)) ix.numName.toNat hb x).mp hmem
      refine ⟨this.1, ?_⟩
      simp only [qMatches, Bool.or_eq_true, List.any_eq_true, decide_eq_true_eq]
      exact Or.inl ⟨t, ht, by rw [contains_eq_mem]; exact decide_eq_true this.2⟩
    · rw [querySem_eq, List.mem_filter] at h
      refine ⟨h.1, ?_⟩
      simp only [qMatches, Bool.or_eq_true, decide_eq_true_eq]
      exact Or.inr ((qMatchesAny_iff P subs x).mpr ⟨s, hs, by
        have := h.2
        simpa using this⟩)
  · rintro ⟨hx, hm⟩
    simp only [qMatches, Bool.or_eq_true, List.any_eq_true, decide_eq_true_eq] at hm
    rcases hm with ⟨t, ht, hc⟩ | hany
    · left
      rw [hLom x]
      refine ⟨t, ht, ?_⟩
      have hb := (hTt t ht).2.2
      rw [stream_mem R (P (packTri t)) ix.numName.toNat hb x]
      refine ⟨hx, ?_⟩
      rw [contains_eq_mem] at hc
      exact of_decide_eq_true hc
    · right
      obtain ⟨s, hs, hq⟩ := (qMatchesAny_iff P subs x).mp hany
      refine ⟨s, hs, ?_⟩
      rw [querySem_eq, List.mem_filter]
      exact ⟨hx, by simpa using hq⟩

theorem postingQueryM_sem (ix : Index) (P : Nat → List Nat) :
    ∀ (k : Nat) (q : Query) (R : Option (List Nat)),
    sizeOf q ≤ k →
    (∀ t ∈ queryTris q, goodTri ix t (P t)) →
    queryOk q = true →
    (∀ rs, R = some rs → rs.Pairwise (· < ·)) →
    (postingQueryM ix q R).map (fun o => o.getD []) =
      .ok (querySem P ix.numName.toNat q R) := by
  intro k
  induction k with
  | zero =>
    intro q R hk
    exfalso
    cases q <;> simp at hk
  | succ k ih =>
    intro q R hk hT hok hR
    cases q with
    | qnone => simp [postingQueryM, querySem, qMatches, Except.map]
    | qall =>
      rcases R with _ | rs <;> simp [postingQueryM, querySem, qMatches, Except.map]
    | qand tris subs =>
      simp only [Query.qand.sizeOf_spec] at hk
      rw [queryOk, Bool.and_eq_true] at hok
      apply postingQueryM_qand_sem ix P R hR tris subs
      · intro t ht
        exact hT (packTri t) (by
          rw [queryTris]
          exact List.mem_append_left _ (List.mem_map_of_mem _ ht))
      · intro s hs R' hR'
        apply ih s R'
        · have := List.sizeOf_lt_of_mem hs
          omega
        · intro t' ht'
          exact hT t' (by
            rw [queryTris]
            exact List.mem_append_right _ (queryTrisList_mem subs s hs t' ht'))
        · exact queryOkList_mem subs hok.2 s hs
        · exact hR'
      · rw [queryOk, Bool.and_eq_true]
        exact hok
    | qor tris subs =>
      simp only [Query.qor.sizeOf_spec] at hk
      rw [queryOk] at hok
      apply postingQueryM_qor_sem ix P R hR tris subs
      · intro t ht
        exact hT (packTri t) (by
          rw [queryTris]
          exact List.mem_append_left _ (List.mem_map_of_mem _ ht))
      · intro s hs
        apply ih s R
        · have := List.sizeOf_lt_of_mem hs
          omega
        · intro t' ht'
          exact hT t' (by
            rw [queryTris]
            exact List.mem_append_right _ (queryTrisList_mem subs s hs t' ht'))
        · exact queryOkList_mem subs hok s hs
        · exact hR


/-- C9: `postingQuery` evaluates the boolean trigram query correctly.  For
every query whose consulted trigrams all have well-formed posting lists
(`goodTri`), that has no empty `And` node, and for every optional strictly
increasing restrict set, the evaluator's result (Go's nil slice flattened to
`[]`) equals the restrict set -- or the full ID range `[0..numNames)` when
absent -- filtered by the query's boolean trigram formula: `None` matches
nothing, `All` everything, `And` exactly the files in every trigram's
posting list and every sub-query's result (its early exit on an empty
intermediate list leaves the empty outcome unchanged), and `Or` the sorted
duplicate-free union of the trigrams' posting lists and the sub-queries'
results. -/
theorem posting_query_correct (ix : Index) (P : Nat → List Nat) (q : Query)
    (R : Option (List Nat))
    (hP : ∀ t ∈ queryTris q, goodTri ix t (P t))
    (hq : queryOk q = true)
    (hr : ∀ rs, R = some rs → rs.Pairwise (· < ·)) :
    (postingQueryM ix q R).map (fun o => o.getD []) =
      .ok (querySem P ix.numName.toNat q R) :=
  postingQueryM_sem ix P (sizeOf q) q R (le_refl _) hP hq hr

theorem posting_query_correct_witness :
    (postingQueryM s1ix (.qand [(71, 111, 111)] []) none).map (fun o => o.getD []) =
      .ok (querySem c9P s1ix.numName.toNat (.qand [(71, 111, 111)] []) none) :=
  posting_query_correct s1ix c9P (.qand [(71, 111, 111)] []) none
    (by
      intro t ht
      have htg : t = triGoo := by
        simpa [queryTris, queryTrisList, triGoo] using ht
      subst htg
      have hc : c9P triGoo = [1, 2, 3] := by simp [c9P]
      refine ⟨?_, ?_, ?_⟩
      · rw [hc]
        exact s1goo_eq
      · rw [hc]
        exact List.Chain.cons (by norm_num) (List.Chain.cons (by norm_num) List.Chain.nil)
      · rw [hc]
        intro x hx
        fin_cases hx <;> decide)
    (by rfl)
    (fun rs h => nomatch h)
